import Mathlib

/-!
s32k1_st7735 : acquisition buffer, spectral transform and band aggregation.

A shallow embedding of `Sources/fft_app.c`.

* C arrays are lists; every read and write is bounds checked and an access
  outside the array yields `none`.
* `while` loops and strided `for` loops run on fuel and yield `none` when the
  fuel runs out; unit-stride counted `for` loops run on their trip count.
* `float` / `double` arithmetic is embedded over an arbitrary field `K`, the
  library functions `sqrt` and `cos` being parameters; the theorems about the
  transform instantiate `K` with the real numbers.
* `long` loop indices are natural numbers: an array of `2^m` elements exists
  only for `m` far below the width of `long`, so no index computation wraps.
* `INT_SYS_EnableIRQ(ADC0_IRQn)` / `INT_SYS_DisableIRQ(ADC0_IRQn)` set and clear
  one explicit bit of the state.
-/

namespace FFTApp

/-! ## Control-flow combinators -/

/-- Checked array write `a[i] = v`. -/
def wr {α : Type} (a : List α) (i : Nat) (v : α) : Option (List α) :=
  if i < a.length then some (a.set i v) else none

/-- Checked array read `a[i]`. -/
def rd {α : Type} (a : List α) (i : Nat) : Option α := a[i]?

/-- Loop `while (cond) body` on fuel. -/
def whileFuel {σ : Type} (cond : σ → Bool) (body : σ → Option σ) : Nat → σ → Option σ
  | 0, _ => none
  | fuel + 1, s => if cond s then (body s).bind (whileFuel cond body fuel) else some s

/-- Auxiliary of `forLoop`: `cnt` iterations starting at counter value `i`. -/
def forCount {σ : Type} (body : Nat → σ → Option σ) : Nat → Nat → σ → Option σ
  | 0, _, s => some s
  | cnt + 1, i, s => (body i s).bind (forCount body cnt (i + 1))

/-- Loop `for (i = lo; i < hi; i++) body`, the body not assigning `i`. -/
def forLoop {σ : Type} (lo hi : Nat) (body : Nat → σ → Option σ) (s : σ) : Option σ :=
  forCount body (hi - lo) lo s

/-! ## Constants of `fft_app.c` / `fft_app.h` -/

def FFT_SAMPLE_MAX : Nat := 2048
def FFT_POWER_OF_TWO : Nat := 11
def FFT_FREQUENCY_RESP_SIZE : Nat := (FFT_SAMPLE_MAX / 2) + 1
def FFT_ADC_MAX : Nat := 4095
def FFT_FREQ_BANDS : Nat := 8

/-- Constant `FFT_ADC_REFERENCE`. -/
def FFT_ADC_REFERENCE {K : Type} [Field K] : K := 5.0

/-- File-scope variables of `fft_app.c`, plus the NVIC enable bit of `ADC0_IRQn`. -/
structure FFTState (K : Type) where
  FFT_AudioSamples : List Nat
  FFT_HammingWindow : List K
  FFT_Frequency_Bands : List K
  FFT_elementsPerBand : Nat
  FFT_currentSample : Nat
  FFT_bufferReady : Nat
  adcIrqEnabled : Bool

/-- The arrays of the state have their declared sizes. -/
def FFTState.WF {K : Type} (st : FFTState K) : Prop :=
  st.FFT_AudioSamples.length = FFT_SAMPLE_MAX ∧
  st.FFT_HammingWindow.length = FFT_SAMPLE_MAX ∧
  st.FFT_Frequency_Bands.length = FFT_FREQ_BANDS

/-- Effect of `INT_SYS_DisableIRQ(ADC0_IRQn)`. -/
def INT_SYS_DisableIRQ {K : Type} (st : FFTState K) : FFTState K :=
  { st with adcIrqEnabled := false }

/-- Effect of `INT_SYS_EnableIRQ(ADC0_IRQn)`. -/
def INT_SYS_EnableIRQ {K : Type} (st : FFTState K) : FFTState K :=
  { st with adcIrqEnabled := true }

/-- Function `FFT_GetSample(uint16_t sample)`; `sample` is the value of the 16-bit
argument, stored as it is. -/
def FFT_GetSample {K : Type} (st : FFTState K) (sample : Nat) : Option (FFTState K) :=
  if 0 = st.FFT_bufferReady then
    (wr st.FFT_AudioSamples st.FFT_currentSample sample).bind fun a =>
      let st1 := { st with FFT_AudioSamples := a }
      let st2 := { st1 with FFT_currentSample := (st1.FFT_currentSample + 1) % 65536 }
      if FFT_SAMPLE_MAX = st2.FFT_currentSample then
        some (INT_SYS_DisableIRQ { st2 with FFT_bufferReady := 1, FFT_currentSample := 0 })
      else some st2
  else some st

/-- Function `FFT_SetBufferAvailable`. -/
def FFT_SetBufferAvailable {K : Type} (st : FFTState K) : FFTState K :=
  let st1 := INT_SYS_DisableIRQ st
  let st2 := { st1 with FFT_bufferReady := 0 }
  INT_SYS_EnableIRQ st2

/-- Function `FFT_GetBufferReady`. -/
def FFT_GetBufferReady {K : Type} (st : FFTState K) : Nat := st.FFT_bufferReady

/-- Successive calls of `FFT_GetSample`, one per element of `xs`. -/
def ingestAll {K : Type} (st : FFTState K) (xs : List Nat) : Option (FFTState K) :=
  xs.foldlM FFT_GetSample st

/-! ## The transform `FFT` -/

/-- Loop `while (k <= j) { j -= k; k >>= 1; }` of `FFT`, on the pair `(j, k)`. -/
def revWhile (fuel : Nat) (jk : Nat × Nat) : Option (Nat × Nat) :=
  whileFuel (fun s => decide (s.2 ≤ s.1)) (fun s => some (s.1 - s.2, s.2 >>> 1)) fuel jk

/-- Locals of the bit-reversal loop of `FFT` that live across iterations. -/
structure RevState (α : Type) where
  re : List α
  im : List α
  j : Nat

/-- Body of the bit-reversal loop `for (i=0;i<n-1;i++)` of `FFT`. -/
def bitRevBody {α : Type} (i2 fuel : Nat) (i : Nat) (s : RevState α) : Option (RevState α) :=
  (if i < s.j then
      (rd s.re i).bind fun tx =>
      (rd s.im i).bind fun ty =>
      (rd s.re s.j).bind fun rj =>
      (wr s.re i rj).bind fun re1 =>
      (rd s.im s.j).bind fun ij =>
      (wr s.im i ij).bind fun im1 =>
      (wr re1 s.j tx).bind fun re2 =>
      (wr im1 s.j ty).bind fun im2 =>
      some { s with re := re2, im := im2 }
    else some s).bind fun s1 =>
  (revWhile fuel (s1.j, i2)).bind fun jk =>
  some { s1 with j := jk.1 + jk.2 }

/-- First phase of `FFT`: `i2 = n >> 1; j = 0;` and the bit-reversal loop. -/
def bitReversal {α : Type} (fuel n : Nat) (re im : List α) : Option (List α × List α) :=
  let i2 := n >>> 1
  (forLoop 0 (n - 1) (bitRevBody i2 fuel) { re := re, im := im, j := 0 }).bind fun s =>
  some (s.re, s.im)

/-- State of the innermost loop `for (i=j;i<n;i+=l2)` of `FFT`. -/
structure StrideState (K : Type) where
  re : List K
  im : List K
  i : Nat

/-- One butterfly: the body of the innermost loop of `FFT`, followed by `i += l2`. -/
def butterfly {K : Type} [Field K] (l1 l2 : Nat) (u1 u2 : K) (s : StrideState K) :
    Option (StrideState K) :=
  let i := s.i
  let i1 := i + l1
  (rd s.re i1).bind fun re_i1 =>
  (rd s.im i1).bind fun im_i1 =>
  let t1 := u1 * re_i1 - u2 * im_i1
  let t2 := u1 * im_i1 + u2 * re_i1
  (rd s.re i).bind fun re_i =>
  (wr s.re i1 (re_i - t1)).bind fun re1 =>
  (rd s.im i).bind fun im_i =>
  (wr s.im i1 (im_i - t2)).bind fun im1 =>
  (rd re1 i).bind fun re_i' =>
  (wr re1 i (re_i' + t1)).bind fun re2 =>
  (rd im1 i).bind fun im_i' =>
  (wr im1 i (im_i' + t2)).bind fun im2 =>
  some { re := re2, im := im2, i := i + l2 }

/-- State of the loop `for (j=0;j<l1;j++)` of `FFT`. -/
structure TwState (K : Type) where
  re : List K
  im : List K
  u1 : K
  u2 : K

/-- Body of the loop `for (j=0;j<l1;j++)` of `FFT`. -/
def twiddleBody {K : Type} [Field K] (fuel n l1 l2 : Nat) (c1 c2 : K) (j : Nat)
    (s : TwState K) : Option (TwState K) :=
  (whileFuel (fun t => decide (t.i < n)) (butterfly l1 l2 s.u1 s.u2) fuel
      { re := s.re, im := s.im, i := j }).bind fun t =>
  let z := s.u1 * c1 - s.u2 * c2
  let u2 := s.u1 * c2 + s.u2 * c1
  let u1 := z
  some { re := t.re, im := t.im, u1 := u1, u2 := u2 }

/-- State of the loop `for (l=0;l<m;l++)` of `FFT`. -/
structure StageState (K : Type) where
  re : List K
  im : List K
  c1 : K
  c2 : K
  l2 : Nat

/-- Body of the loop `for (l=0;l<m;l++)` of `FFT`. -/
def stageBody {K : Type} [Field K] (sqrt : K → K) (fuel : Nat) (dir : Int) (n : Nat)
    (_l : Nat) (s : StageState K) : Option (StageState K) :=
  let l1 := s.l2
  let l2 := s.l2 <<< 1
  (forLoop 0 l1 (twiddleBody fuel n l1 l2 s.c1 s.c2)
      { re := s.re, im := s.im, u1 := 1, u2 := 0 }).bind fun t =>
  let c2 := sqrt ((1 - s.c1) / 2)
  let c2 := if dir = 1 then -c2 else c2
  let c1 := sqrt ((1 + s.c1) / 2)
  some { re := t.re, im := t.im, c1 := c1, c2 := c2, l2 := l2 }

/-- Second phase of `FFT`: `c1 = -1.0; c2 = 0.0; l2 = 1;` and the stage loop. -/
def butterflies {K : Type} [Field K] (sqrt : K → K) (fuel : Nat) (dir : Int) (m n : Nat)
    (re im : List K) : Option (List K × List K) :=
  (forLoop 0 m (stageBody sqrt fuel dir n)
      { re := re, im := im, c1 := -1, c2 := 0, l2 := 1 }).bind fun s =>
  some (s.re, s.im)

/-- Function `FFT(dir, m, re, im)`; the result is the final contents of `re` and `im`. -/
def FFT {K : Type} [Field K] (sqrt : K → K) (fuel : Nat) (dir : Int) (m : Nat)
    (re im : List K) : Option (List K × List K) :=
  (forLoop 0 m (fun _ n => some (n * 2)) 1).bind fun n =>
  (bitReversal fuel n re im).bind fun r =>
  butterflies sqrt fuel dir m n r.1 r.2

/-! ## `FFT_GetFrequencyResponse` -/

/-- Local arrays of `FFT_GetFrequencyResponse` with the indeterminate contents they have
on entry. -/
structure StackFrame (K : Type) where
  audioReal : List K
  audioImag : List K
  freqResp : List K

/-- The local arrays have their declared sizes. -/
def StackFrame.WF {K : Type} (fr : StackFrame K) : Prop :=
  fr.audioReal.length = FFT_SAMPLE_MAX ∧ fr.audioImag.length = FFT_SAMPLE_MAX ∧
  fr.freqResp.length = FFT_FREQUENCY_RESP_SIZE

/-- Effect of `memset(&a[0], 0, sizeof(a))`. -/
def memsetZero {α : Type} [Zero α] (a : List α) : List α := List.replicate a.length 0

/-- Loop "Copy samples as fast as possible" of `FFT_GetFrequencyResponse`. -/
def gfrSnapshot {K : Type} [Field K] (samples : List Nat) (audioReal : List K) :
    Option (List K) :=
  forLoop 0 FFT_SAMPLE_MAX (fun i a => (rd samples i).bind fun x => wr a i (x : K)) audioReal

/-- The re-arm `FFT_SetBufferAvailable(); INT_SYS_EnableIRQ(ADC0_IRQn);`. -/
def gfrRearm {K : Type} (st : FFTState K) : FFTState K :=
  INT_SYS_EnableIRQ (FFT_SetBufferAvailable st)

/-- Loop "Convert samples to voltages" of `FFT_GetFrequencyResponse`. -/
def gfrVoltages {K : Type} [Field K] (window : List K) (audioReal : List K) :
    Option (List K) :=
  forLoop 0 FFT_SAMPLE_MAX (fun i a =>
    (rd a i).bind fun x =>
    (wr a i ((x / (FFT_ADC_MAX : K)) * FFT_ADC_REFERENCE)).bind fun a1 =>
    (rd a1 i).bind fun y =>
    (rd window i).bind fun w =>
    wr a1 i (y * w)) audioReal

/-- Loop computing `freqResp[i] = sqrt(re² + im²); freqResp[i] /= FFT_SAMPLE_MAX`. -/
def gfrMagnitude {K : Type} [Field K] (sqrt : K → K) (audioReal audioImag freqResp : List K) :
    Option (List K) :=
  forLoop 0 FFT_FREQUENCY_RESP_SIZE (fun i f =>
    (rd audioReal i).bind fun r =>
    (rd audioImag i).bind fun x =>
    (wr f i (sqrt ((r * r) + (x * x)))).bind fun f1 =>
    (rd f1 i).bind fun v =>
    wr f1 i (v / (FFT_SAMPLE_MAX : K))) freqResp

/-- Loop `for (i = 1; i < FFT_FREQUENCY_RESP_SIZE - 1; ++i) freqResp[i] *= 2`. -/
def gfrSingleSided {K : Type} [Field K] (freqResp : List K) : Option (List K) :=
  forLoop 1 (FFT_FREQUENCY_RESP_SIZE - 1) (fun i f =>
    (rd f i).bind fun v => wr f i (v * 2)) freqResp

/-- Loop "Accumulate various elements per band" of `FFT_GetFrequencyResponse`, in exact
arithmetic: the result of `+=` is the sum itself. `gfrBandsF` is the same loop with the
result of every `+=` rounded to `float`. -/
def gfrBands {K : Type} [Field K] (elementsPerBand : Nat) (freqResp : List K)
    (freqResponsePerBand : List K) : Option (List K) :=
  forLoop 0 FFT_FREQ_BANDS (fun currentBand out =>
    (wr out currentBand 0).bind fun out0 =>
    forLoop 0 elementsPerBand (fun currentElement o =>
      (rd o currentBand).bind fun acc =>
      (rd freqResp (currentElement + (currentBand * elementsPerBand))).bind fun v =>
      wr o currentBand (acc + v)) out0) freqResponsePerBand

/-- Input handed to `FFT` by `FFT_GetFrequencyResponse` (lines up to the call), with the
state after the re-arm. -/
def gfrPrepare {K : Type} [Field K] (st : FFTState K) (fr : StackFrame K) :
    Option (FFTState K × List K × List K × List K) :=
  (gfrSnapshot st.FFT_AudioSamples fr.audioReal).bind fun audioReal =>
  let st1 := gfrRearm st
  let audioImag := memsetZero fr.audioImag
  let freqResp := memsetZero fr.freqResp
  (gfrVoltages st1.FFT_HammingWindow audioReal).bind fun audioReal =>
  some (st1, audioReal, audioImag, freqResp)

/-- The array `freqResp` of `FFT_GetFrequencyResponse` as it stands before the band loop:
the single-sided magnitude spectrum; with the state after the re-arm. -/
def gfrSpectrum {K : Type} [Field K] (sqrt : K → K) (fuel : Nat) (st : FFTState K)
    (fr : StackFrame K) : Option (FFTState K × List K) :=
  (gfrPrepare st fr).bind fun p =>
  (FFT sqrt fuel 1 FFT_POWER_OF_TWO p.2.1 p.2.2.1).bind fun t =>
  (gfrMagnitude sqrt t.1 t.2 p.2.2.2).bind fun freqResp =>
  (gfrSingleSided freqResp).bind fun freqResp =>
  some (p.1, freqResp)

/-- Function `FFT_GetFrequencyResponse(freqResponsePerBand)`; the result is the new state
and the final contents of the caller's array. -/
def FFT_GetFrequencyResponse {K : Type} [Field K] (sqrt : K → K) (fuel : Nat)
    (st : FFTState K) (fr : StackFrame K) (freqResponsePerBand : List K) :
    Option (FFTState K × List K) :=
  if 1 = st.FFT_bufferReady then
    (gfrSpectrum sqrt fuel st fr).bind fun p =>
    (gfrBands p.1.FFT_elementsPerBand p.2 freqResponsePerBand).bind fun out =>
    some (p.1, out)
  else some (st, freqResponsePerBand)

/-! ## Initialisation -/

/-- Constant `FFT_PI`. -/
def FFT_PI {K : Type} [Field K] : K := 3.141592653

/-- Constant `FFT_SAMPLING_FREQUENCY_HZ`, that is `1.0 / FFT_SAMPLING_PERIOD_S`. -/
def FFT_SAMPLING_FREQUENCY_HZ {K : Type} [Field K] : K := 1.0 / 0.00005

/-- Function `FFT_Initialize_Hamming`. -/
def FFT_Initialize_Hamming {K : Type} [Field K] (cos : K → K) (st : FFTState K) :
    Option (FFTState K) :=
  let N := FFT_SAMPLE_MAX
  (forLoop 0 N (fun n w =>
    let v := 0.54 - (0.46 * cos ((2.0 * FFT_PI * (n : K)) / ((N : K) - 1.0)))
    wr w n v) st.FFT_HammingWindow).bind fun w =>
  some { st with FFT_HammingWindow := w }

/-- Function `FFT_Initialize_Frequency_Bands`. -/
def FFT_Initialize_Frequency_Bands {K : Type} [Field K] (st : FFTState K) :
    Option (FFTState K) :=
  let epb := (FFT_FREQUENCY_RESP_SIZE / FFT_FREQ_BANDS) % 256
  (forLoop 0 FFT_FREQ_BANDS (fun currentBand b =>
    wr b currentBand ((FFT_SAMPLING_FREQUENCY_HZ / (FFT_SAMPLE_MAX : K))
      * (((epb : K) / 2) + ((currentBand : K) * (epb : K))))) st.FFT_Frequency_Bands).bind
  fun b => some { st with FFT_elementsPerBand := epb, FFT_Frequency_Bands := b }

/-- Function `FFT_Initialize`. -/
def FFT_Initialize {K : Type} [Field K] (cos : K → K) (st : FFTState K) :
    Option (FFTState K) :=
  let st1 := { st with FFT_AudioSamples := memsetZero st.FFT_AudioSamples }
  let st2 := { st1 with FFT_currentSample := 0, FFT_bufferReady := 0, FFT_elementsPerBand := 0 }
  (FFT_Initialize_Hamming cos st2).bind fun st3 =>
  FFT_Initialize_Frequency_Bands st3

/-! ## Concrete states used to instantiate the theorems -/

/-- A well-formed state over the rationals with every variable zero, in the FILLING phase. -/
def zeroState : FFTState ℚ :=
  { FFT_AudioSamples := List.replicate 2048 0
    FFT_HammingWindow := List.replicate 2048 0
    FFT_Frequency_Bands := List.replicate 8 0
    FFT_elementsPerBand := 0
    FFT_currentSample := 0
    FFT_bufferReady := 0
    adcIrqEnabled := true }

/-! ## Specification-level definitions -/

/-- Specification: the `m`-bit reversal of `i` (bit `b` of the result is bit `m - 1 - b`
of `i`); the lowest bit of `i` becomes the highest of the `m` bits. -/
def bitrev : Nat → Nat → Nat
  | 0, _ => 0
  | m + 1, i => (i % 2) * 2 ^ m + bitrev m (i / 2)

/-- Loop invariant of the bit-reversal loop at counter `i`, for one array: the positions
`p` with `p < i` or `bitrev m p < i` already hold the element of the partner index. -/
def RevInv {α : Type} (m i : Nat) (a0 a : List α) : Prop :=
  a.length = 2 ^ m ∧
  ∀ p, p < 2 ^ m → a[p]? = if p < i ∨ bitrev m p < i then a0[bitrev m p]? else a0[p]?

/-- Product of two complex numbers given as pairs (real part, imaginary part), in the
operation order of the butterfly and of the twiddle update of `FFT`. -/
def cmul {K : Type} [Field K] (u z : K × K) : K × K :=
  (u.1 * z.1 - u.2 * z.2, u.1 * z.2 + u.2 * z.1)

/-- The arrays `re`, `im` read as one sequence of pairs. -/
def cview {K : Type} [Field K] (re im : List K) : Nat → K × K :=
  fun p => (re.getD p 0, im.getD p 0)

/-- Value of `(u1, u2)` at offset `j` of a stage whose `(c1, c2)` is `c`: start at
`(1, 0)`, multiply by `c` at the end of every pass of the `j` loop. -/
def twPow {K : Type} [Field K] (c : K × K) : Nat → K × K
  | 0 => (1, 0)
  | j + 1 => cmul (twPow c j) c

/-- Value of `(c1, c2)` at the start of stage `l` of `FFT`. -/
def stageC {K : Type} [Field K] (sqrt : K → K) (dir : Int) : Nat → K × K
  | 0 => (-1, 0)
  | l + 1 =>
    let c := stageC sqrt dir l
    (sqrt ((1 + c.1) / 2), if dir = 1 then -sqrt ((1 - c.1) / 2) else sqrt ((1 - c.1) / 2))

/-- Effect of one whole stage of `FFT` with pair distance `l1` and twiddles `tw` on the
sequence `A`: index `p` is the upper element of its pair when `p / l1` is even. -/
def stagePure {K : Type} [Field K] (l1 : Nat) (tw : Nat → K × K) (A : Nat → K × K) :
    Nat → K × K :=
  fun p =>
    if (p / l1) % 2 = 0 then A p + cmul (tw (p % l1)) (A (p + l1))
    else A (p - l1) - cmul (tw (p % l1)) (A p)

/-- Effect of the stages `0 .. l-1` of `FFT`. -/
def stagesPure {K : Type} [Field K] (sqrt : K → K) (dir : Int) :
    Nat → (Nat → K × K) → Nat → K × K
  | 0, A => A
  | l + 1, A => stagePure (2 ^ l) (twPow (stageC sqrt dir l)) (stagesPure sqrt dir l A)

/-- Effect of `FFT` on a sequence of `2^m` pairs: bit reversal, then `m` stages. -/
def fftPure {K : Type} [Field K] (sqrt : K → K) (dir : Int) (m : Nat) (x : Nat → K × K) :
    Nat → K × K :=
  stagesPure sqrt dir m (fun p => x (bitrev m p))

/-- States the module can be in: `FFT_Initialize` run on storage of the declared sizes,
followed by any calls of `FFT_GetSample`, `FFT_SetBufferAvailable` and
`FFT_GetFrequencyResponse` (`FFT_GetBufferReady` does not change the state). -/
inductive Reachable {K : Type} [Field K] (cos sqrt : K → K) : FFTState K → Prop
  | init (st0 st : FFTState K) :
      st0.WF → FFT_Initialize cos st0 = some st → Reachable cos sqrt st
  | getSample (st st' : FFTState K) (sample : Nat) :
      Reachable cos sqrt st → FFT_GetSample st sample = some st' → Reachable cos sqrt st'
  | setBufferAvailable (st : FFTState K) :
      Reachable cos sqrt st → Reachable cos sqrt (FFT_SetBufferAvailable st)
  | getFrequencyResponse (st st' : FFTState K) (fuel : Nat) (fr : StackFrame K)
      (out out' : List K) :
      Reachable cos sqrt st →
      FFT_GetFrequencyResponse sqrt fuel st fr out = some (st', out') → Reachable cos sqrt st'

/-- Invariant of the reachable states. -/
def StateInv {K : Type} (st : FFTState K) : Prop :=
  st.WF ∧ st.FFT_elementsPerBand = 128 ∧ st.FFT_currentSample < FFT_SAMPLE_MAX ∧
  (st.FFT_bufferReady = 0 ∨ st.FFT_bufferReady = 1) ∧
  (st.FFT_bufferReady = 1 → st.FFT_currentSample = 0 ∧ st.adcIrqEnabled = false)

/-- A well-formed state over the rationals whose buffer is full and marked ready. -/
def readyState : FFTState ℚ :=
  { FFT_AudioSamples := List.replicate 2048 1024
    FFT_HammingWindow := List.replicate 2048 1
    FFT_Frequency_Bands := List.replicate 8 0
    FFT_elementsPerBand := 128
    FFT_currentSample := 0
    FFT_bufferReady := 1
    adcIrqEnabled := false }

/-- A stack frame of the declared sizes holding arbitrary values. -/
def junkFrame : StackFrame ℚ :=
  { audioReal := List.replicate 2048 7
    audioImag := List.replicate 2048 8
    freqResp := List.replicate 1025 9 }

/-- A pair (real part, imaginary part) of real numbers read as a complex number. -/
def toC (z : ℝ × ℝ) : ℂ := ⟨z.1, z.2⟩

def ST7735_TFTWIDTH : Int := 128
def ST7735_TFTHEIGHT : Int := 160
def ST7735_BLACK : Nat := 0x0000
def ST7735_GREEN : Nat := 0x07E0
def ST7735_YELLOW : Nat := 0xFFE0
def ST7735_WHITE : Nat := 0xFFFF
def TFT_FONT_1_HEIGHT : Int := 8

/-- Conversion of an integer value to `uint8_t` (also to `unsigned char`). -/
def toUInt8 (x : Int) : Int := x % 256

/-- Conversion of an integer value to `int16_t` (two's complement). -/
def toInt16 (x : Int) : Int := (x + 32768) % 65536 - 32768

/-- Conversion of an integer value to `unsigned int` (32 bits). -/
def toUInt32 (x : Int) : Int := x % 4294967296

/-- Variables `_width`, `_height`, `rotation` of `TFT_ST7735.c`. -/
structure TFTState where
  _width : Int
  _height : Int
  rotation : Nat

/-- Function `TFT_ST7735_setRotation(m)`, as far as it assigns `rotation`, `_width` and
`_height` (the command bytes sent to the panel are not modelled). -/
def TFT_ST7735_setRotation (tft : TFTState) (m : Nat) : TFTState :=
  let rotation := (m % 256) % 4
  match rotation with
  | 0 => { _width := ST7735_TFTWIDTH, _height := ST7735_TFTHEIGHT, rotation := rotation }
  | 1 => { _width := ST7735_TFTHEIGHT, _height := ST7735_TFTWIDTH, rotation := rotation }
  | 2 => { _width := ST7735_TFTWIDTH, _height := ST7735_TFTHEIGHT, rotation := rotation }
  | 3 => { _width := ST7735_TFTHEIGHT, _height := ST7735_TFTWIDTH, rotation := rotation }
  | _ => { tft with rotation := rotation }

/-- Function `TFT_ST7735_width`. -/
def TFT_ST7735_width (tft : TFTState) : Int := tft._width

/-- Function `TFT_ST7735_height`. -/
def TFT_ST7735_height (tft : TFTState) : Int := tft._height

/-- Function `TFT_ST7735_color565(r, g, b)` on the values of its `uint8_t` arguments; the
result is converted to `uint16_t`. -/
def TFT_ST7735_color565 (r g b : Nat) : Nat :=
  ((((r &&& 0xF8) <<< 8) ||| ((g &&& 0xFC) <<< 3)) ||| (b >>> 3)) % 65536

/-- What a call of `TFT_ST7735_fillRect` sends: the address window given to
`TFT_ST7735_setWindow` and the number of colour values written after it. -/
structure FillEffect where
  x0 : Int
  y0 : Int
  x1 : Int
  y1 : Int
  pixels : Nat
  color : Nat

/-- Function `TFT_ST7735_fillRect(x, y, w, h, color)` with `CLIP_CHECK` not defined, as
`TFT_ST7735_cfg.h` leaves it: set the window, swap `h` and `w` if `h > w`, then run the
two nested counting loops. -/
def TFT_ST7735_fillRect (x y w h : Int) (color : Nat) : FillEffect :=
  let x1 := toInt16 (x + w - 1)
  let y1 := toInt16 (y + h - 1)
  let hw := if h > w then (w, h) else (h, w)
  { x0 := x, y0 := y, x1 := x1, y1 := y1, pixels := hw.1.toNat * hw.2.toNat, color := color }

/-- Calls made to the display driver, with the values of their arguments after
conversion to the parameter types. -/
inductive TftCall where
  | setTextColor (color : Nat)
  | fillRect (x y w h : Int) (color : Nat)
  | drawCentreString (text : String) (dX poY font : Int)
  | drawChar (x y c : Int) (color bg : Nat) (size : Int)
deriving DecidableEq

/-- Text drawn at the top of the screen by `FFT_PlotFrequencyResponse`. -/
def plotTitle : String := "MigSantiago.com"

/-- State of the label loop of `FFT_PlotFrequencyResponse`. -/
structure PlotLoop where
  x : Int
  calls : List TftCall

/-- Body of the label loop of `FFT_PlotFrequencyResponse`, with `i++`; `y` is the local
`y` of the block and `toInt` is the conversion `(int)` of a floating-point value. -/
def plotLabelBody {K : Type} [Field K] (toInt : K → Int) (tft : TFTState)
    (FFT_Frequency_Bands : List K) (y : Int) (i : Nat) (s : PlotLoop) : Option PlotLoop :=
  (rd FFT_Frequency_Bands i).bind fun f =>
  let str0 := toUInt8 (48 + toInt (f / 1000.0))
  (rd FFT_Frequency_Bands i).bind fun f =>
  let str2 := toUInt8 (48 + Int.tmod (toInt (f / 100.0)) 10)
  let str1 : Int := 46
  let c := s.calls ++
    [TftCall.drawChar (toInt16 s.x) (toInt16 y) str0 ST7735_YELLOW ST7735_BLACK 1,
     TftCall.drawChar (toInt16 (s.x + 5)) (toInt16 y) str1 ST7735_YELLOW ST7735_BLACK 1,
     TftCall.drawChar (toInt16 (s.x + 10)) (toInt16 y) str2 ST7735_YELLOW ST7735_BLACK 1]
  some { x := toUInt8 (toUInt32 (s.x + toUInt32 (TFT_ST7735_width tft) / 8)), calls := c }

/-- Block `if (0 == initializedScreen) { ... }` of `FFT_PlotFrequencyResponse`, without
the final assignment of `initializedScreen`. -/
def plotLabels {K : Type} [Field K] (toInt : K → Int) (tft : TFTState)
    (FFT_Frequency_Bands : List K) (calls : List TftCall) : Option (List TftCall) :=
  let x : Int := toUInt8 0
  let y : Int := toUInt8 (TFT_ST7735_height tft - TFT_FONT_1_HEIGHT)
  let calls := calls ++ [TftCall.setTextColor ST7735_YELLOW]
  let calls := calls ++ [TftCall.fillRect (toInt16 x) 0 (TFT_ST7735_width tft) 10 ST7735_BLACK]
  let calls := calls ++
    [TftCall.drawCentreString plotTitle (Int.tdiv (TFT_ST7735_width tft) 2) 0 1]
  let calls := calls ++
    [TftCall.fillRect (toInt16 x) (toInt16 (y - 1)) (TFT_ST7735_width tft) 10 ST7735_BLACK]
  (forLoop 0 FFT_FREQ_BANDS (plotLabelBody toInt tft FFT_Frequency_Bands y)
    { x := x, calls := calls }).bind fun s => some s.calls

/-- Statements `barHeight = (v / maximumVoltage) * barTotalHeight;` and the clamp that
follows, of `FFT_PlotFrequencyResponse`; `toInt` is the conversion to `int32_t`. -/
def barHeight {K : Type} [Field K] (toInt : K → Int) (v : K) : Int :=
  let barTotalHeight : Int := 108
  let maximumVoltage : K := 0.5
  let h := toInt ((v / maximumVoltage) * (barTotalHeight : K))
  if h > barTotalHeight then barTotalHeight else if h < 0 then 0 else h

/-- Body of the bar loop of `FFT_PlotFrequencyResponse`, with `i++`; the locals `y` and
`barTotalHeight` have their constant values 10 and 108. -/
def plotBarBody {K : Type} [Field K] (toInt : K → Int) (tft : TFTState)
    (freqResponsePerBand : List K) (i : Nat) (s : PlotLoop) : Option PlotLoop :=
  let barTotalHeight : Int := 108
  let y : Int := toUInt8 10
  (rd freqResponsePerBand i).bind fun v =>
  let h := barHeight toInt v
  let w := toInt16 (toUInt32 (toUInt32 (TFT_ST7735_width tft) / 8 - 15))
  let c := s.calls ++
    [TftCall.fillRect (toInt16 (s.x + 6)) (toInt16 (y + (barTotalHeight - h))) w
      (toInt16 h) ST7735_GREEN,
     TftCall.fillRect (toInt16 (s.x + 6)) (toInt16 y) w
      (toInt16 (barTotalHeight - h)) ST7735_WHITE]
  some { x := toUInt8 (toUInt32 (s.x + toUInt32 (TFT_ST7735_width tft) / 8)), calls := c }

/-- Second block of `FFT_PlotFrequencyResponse`: remove the DC offset from entry 0, then
draw the bars. The result is the caller's array and the calls made. -/
def plotBars {K : Type} [Field K] (toInt : K → Int) (tft : TFTState)
    (freqResponsePerBand : List K) (calls : List TftCall) :
    Option (List K × List TftCall) :=
  (rd freqResponsePerBand 0).bind fun v0 =>
  (wr freqResponsePerBand 0 (v0 - 1.983)).bind fun freqResponsePerBand =>
  let x : Int := toUInt8 0
  (forLoop 0 FFT_FREQ_BANDS (plotBarBody toInt tft freqResponsePerBand)
    { x := x, calls := calls }).bind fun s => some (freqResponsePerBand, s.calls)

/-- Function `FFT_PlotFrequencyResponse(freqResponsePerBand)`. The result is the new
value of the static `initializedScreen`, the caller's array and the calls made to the
display driver, in order. -/
def FFT_PlotFrequencyResponse {K : Type} [Field K] (toInt : K → Int) (tft : TFTState)
    (st : FFTState K) (initializedScreen : Nat) (freqResponsePerBand : List K) :
    Option (Nat × List K × List TftCall) :=
  (if 0 = initializedScreen then
      (plotLabels toInt tft st.FFT_Frequency_Bands []).bind fun c => some (1, c)
    else some (initializedScreen, [])).bind fun p =>
  (plotBars toInt tft freqResponsePerBand p.2).bind fun r => some (p.1, r.1, r.2)

/-- Pixel `(px, py)` lies in the address window of a fill. -/
def FillEffect.covers (e : FillEffect) (px py : Int) : Prop :=
  e.x0 ≤ px ∧ px ≤ e.x1 ∧ e.y0 ≤ py ∧ py ≤ e.y1

/-! ## `TFT_ST7735_ltoa` -/

/-- Size of `long` in bytes on the target (S32K144, ARM Cortex-M4). -/
def SIZEOF_LONG : Nat := 4

def BUFSIZE : Nat := SIZEOF_LONG * 8 + 1

/-- Result of an arithmetic operation on `long` (two's complement, 32 bits). -/
def wrapLong (x : Int) : Int := (x + 2147483648) % 4294967296 - 2147483648

/-- Checked write through a pointer whose offset may have run below the array. -/
def wrI {α : Type} (a : List α) (i : Int) (v : α) : Option (List α) :=
  if 0 ≤ i then wr a i.toNat v else none

/-- Library function `memcpy(dst + d, src + s, n)` on checked arrays. -/
def memcpy {α : Type} (dst : List α) (d : Nat) (src : List α) (s n : Int) :
    Option (List α) :=
  if 0 ≤ s ∧ 0 ≤ n ∧ d + n.toNat ≤ dst.length ∧ s.toNat + n.toNat ≤ src.length then
    some (dst.take d ++ (src.drop s.toNat).take n.toNat ++ dst.drop (d + n.toNat))
  else none

/-- Locals `buf`, `tail`, `i`, `uarg` of `TFT_ST7735_ltoa`; `tail` is an offset into
`buf`. -/
structure LtoaState where
  buf : List Nat
  tail : Int
  i : Int
  uarg : Int

/-- Expression `(char)(r.rem + ((9L < r.rem) ? ('A' - 10L) : '0'))` of `TFT_ST7735_ltoa`,
as the code of the character stored. -/
def ltoaDigit (rem : Int) : Nat := (toUInt8 (rem + (if 9 < rem then 65 - 10 else 48))).toNat

/-- Body of the loop `for (i = 1; uarg; ++i)` of `TFT_ST7735_ltoa`, with `++i`; `ldiv`
truncates toward zero. -/
def ltoaBody (base : Int) (s : LtoaState) : Option LtoaState :=
  let quot := Int.tdiv s.uarg base
  let rem := Int.tmod s.uarg base
  (wrI s.buf s.tail (ltoaDigit rem)).bind fun b =>
  some { buf := b, tail := s.tail - 1, i := s.i + 1, uarg := quot }

/-- Result of `TFT_ST7735_ltoa`: the returned pointer (`some k` is `str + k`, `none` is
`NULL`) and the final contents of the caller's buffer. -/
structure LtoaResult where
  ret : Option Nat
  str : List Nat
deriving DecidableEq

/-- Function `TFT_ST7735_ltoa(N, str, base)`; `buf` is the local array with the
indeterminate contents it has on entry, characters are their codes. -/
def TFT_ST7735_ltoa (fuel : Nat) (N : Int) (str buf : List Nat) (base : Int) :
    Option LtoaResult :=
  let i : Int := 2
  let head : Nat := 0
  let base : Int := if 36 < base ∨ 2 > base then 10 else base
  let tail : Int := (BUFSIZE : Int) - 1
  (wrI buf tail 0).bind fun buf =>
  let tail := tail - 1
  (if 10 = base ∧ N < 0 then
      (wr str head 45).bind fun str1 => some (str1, head + 1, wrapLong (-N))
    else some (str, head, N)).bind fun p =>
  (if p.2.2 ≠ 0 then
      whileFuel (fun s => decide (s.uarg ≠ 0)) (ltoaBody base) fuel
        { buf := buf, tail := tail, i := 1, uarg := p.2.2 }
    else
      (wrI buf tail 48).bind fun b =>
      some { buf := b, tail := tail - 1, i := i, uarg := p.2.2 }).bind fun s =>
  let tail := s.tail + 1
  (memcpy p.1 p.2.1 s.buf tail s.i).bind fun str2 =>
  some { ret := some 0, str := str2 }

/-- Function `TFT_ST7735_drawNumber(long_num, ...)` up to the call of the string
drawing: the 12-byte local `str` is handed to `TFT_ST7735_ltoa` with base 10. -/
def drawNumberText (fuel : Nat) (long_num : Int) (str buf : List Nat) : Option LtoaResult :=
  TFT_ST7735_ltoa fuel long_num str buf 10

/-- Value of a digit character: `'0'..'9'` are 0..9 and `'A'..'Z'` are 10..35. -/
def digitVal (c : Nat) : Nat := if c ≤ 57 then c - 48 else c - 55

/-- Character of a digit value, `0-9` then `A-Z`. -/
def digitChar (d : Nat) : Nat := if 9 < d then d + 55 else d + 48

/-- Specification: the number read from a string of digit characters in a base, most
significant digit first. -/
def parseDigits (base : Nat) (cs : List Nat) : Nat :=
  cs.foldl (fun acc c => acc * base + digitVal c) 0

/-- Specification: the digits of a positive number in a base, most significant first, as
characters. -/
def digitsText (base n : Nat) : List Nat := ((Nat.digits base n).map digitChar).reverse

/-- Specification: the text of `N` in a base: `"0"` for zero, the digits for a positive
number, `'-'` followed by the digits of `-N` for a negative one. -/
def ltoaText (base : Nat) (N : Int) : List Nat :=
  if N = 0 then [48]
  else if N < 0 then 45 :: digitsText base (-N).toNat
  else digitsText base N.toNat

/-- Conversion `(int)` of a rational value: truncation toward zero. -/
def truncQ (x : ℚ) : Int := Int.tdiv x.num x.den

/-- The display state after `TFT_ST7735_Construct(ST7735_TFTWIDTH, ST7735_TFTHEIGHT)`. -/
def tftInit : TFTState := { _width := ST7735_TFTWIDTH, _height := ST7735_TFTHEIGHT, rotation := 0 }

/-! ## The band loop with `float` rounding -/

/-- Function `FFT_Initialize_Hamming` with the conversion made by the assignment
`v = 0.54 - (...)` to the `float` variable `v` made explicit: `fl` is applied to the value
of the expression, and the result is what `FFT_HammingWindow[n] = v` stores. -/
def FFT_Initialize_HammingF {K : Type} [Field K] (fl cos : K → K) (st : FFTState K) :
    Option (FFTState K) :=
  let N := FFT_SAMPLE_MAX
  (forLoop 0 N (fun n w =>
    let v := fl (0.54 - (0.46 * cos ((2.0 * FFT_PI * (n : K)) / ((N : K) - 1.0))))
    wr w n v) st.FFT_HammingWindow).bind fun w =>
  some { st with FFT_HammingWindow := w }

/-- Function `FFT_Initialize_Frequency_Bands` with the conversion made by the store into
the `float` array `FFT_Frequency_Bands` made explicit. -/
def FFT_Initialize_Frequency_BandsF {K : Type} [Field K] (fl : K → K) (st : FFTState K) :
    Option (FFTState K) :=
  let epb := (FFT_FREQUENCY_RESP_SIZE / FFT_FREQ_BANDS) % 256
  (forLoop 0 FFT_FREQ_BANDS (fun currentBand b =>
    wr b currentBand (fl ((FFT_SAMPLING_FREQUENCY_HZ / (FFT_SAMPLE_MAX : K))
      * (((epb : K) / 2) + ((currentBand : K) * (epb : K)))))) st.FFT_Frequency_Bands).bind
  fun b => some { st with FFT_elementsPerBand := epb, FFT_Frequency_Bands := b }

/-- Function `FFT_Initialize` with the `float` stores made explicit; with the identity for
`fl` it is `FFT_Initialize`. -/
def FFT_InitializeF {K : Type} [Field K] (fl cos : K → K) (st : FFTState K) :
    Option (FFTState K) :=
  let st1 := { st with FFT_AudioSamples := memsetZero st.FFT_AudioSamples }
  let st2 := { st1 with FFT_currentSample := 0, FFT_bufferReady := 0, FFT_elementsPerBand := 0 }
  (FFT_Initialize_HammingF fl cos st2).bind fun st3 =>
  FFT_Initialize_Frequency_BandsF fl st3

/-! # Theorems -/

/-! ## Loop rules -/

theorem forCount_spec {σ : Type} (body : Nat → σ → Option σ) (I : Nat → σ → Prop) :
    ∀ (cnt i : Nat) (s : σ), I i s →
      (∀ k t, i ≤ k → k < i + cnt → I k t → ∃ t', body k t = some t' ∧ I (k + 1) t') →
      ∃ s', forCount body cnt i s = some s' ∧ I (i + cnt) s' := by
  intro cnt
  induction cnt with
  | zero => intro i s h _; exact ⟨s, rfl, by simpa using h⟩
  | succ c ih =>
    intro i s h hb
    obtain ⟨t, ht, hIt⟩ := hb i s (Nat.le_refl i) (by omega) h
    obtain ⟨s', hs', hI'⟩ := ih (i + 1) t hIt
      (fun k u hk1 hk2 hu => hb k u (by omega) (by omega) hu)
    refine ⟨s', ?_, ?_⟩
    · simp [forCount, ht, hs']
    · have : i + (c + 1) = i + 1 + c := by omega
      rw [this]; exact hI'

theorem forLoop_spec {σ : Type} (body : Nat → σ → Option σ) (I : Nat → σ → Prop)
    (lo hi : Nat) (s : σ) (hle : lo ≤ hi) (h0 : I lo s)
    (hb : ∀ k t, lo ≤ k → k < hi → I k t → ∃ t', body k t = some t' ∧ I (k + 1) t') :
    ∃ s', forLoop lo hi body s = some s' ∧ I hi s' := by
  obtain ⟨s', h1, h2⟩ := forCount_spec body I (hi - lo) lo s h0
    (fun k t hk1 hk2 ht => hb k t hk1 (by omega) ht)
  refine ⟨s', h1, ?_⟩
  have : lo + (hi - lo) = hi := by omega
  rw [this] at h2; exact h2

theorem whileFuel_spec {σ : Type} (cond : σ → Bool) (body : σ → Option σ)
    (I : σ → Prop) (μ : σ → Nat)
    (hb : ∀ s, I s → cond s = true → ∃ s', body s = some s' ∧ I s' ∧ μ s' < μ s) :
    ∀ (fuel : Nat) (s : σ), I s → μ s < fuel →
      ∃ s', whileFuel cond body fuel s = some s' ∧ I s' ∧ cond s' = false := by
  intro fuel
  induction fuel with
  | zero => intro s _ h; omega
  | succ f ih =>
    intro s hI hμ
    by_cases hc : cond s = true
    · obtain ⟨t, ht, hIt, hlt⟩ := hb s hI hc
      obtain ⟨s', hs', hI', hc'⟩ := ih t hIt (by omega)
      exact ⟨s', by simp [whileFuel, hc, ht, hs'], hI', hc'⟩
    · exact ⟨s, by simp [whileFuel, hc], hI, by simpa using hc⟩

/-! ## Acquisition buffer -/

theorem FFT_GetSample_filling {K : Type} (st : FFTState K) (x : Nat)
    (hlen : st.FFT_AudioSamples.length = FFT_SAMPLE_MAX) (hr : st.FFT_bufferReady = 0)
    (hc : st.FFT_currentSample < FFT_SAMPLE_MAX) :
    FFT_GetSample st x = some
      (if st.FFT_currentSample + 1 = FFT_SAMPLE_MAX then
        { st with FFT_AudioSamples := st.FFT_AudioSamples.set st.FFT_currentSample x,
                  FFT_currentSample := 0, FFT_bufferReady := 1, adcIrqEnabled := false }
       else
        { st with FFT_AudioSamples := st.FFT_AudioSamples.set st.FFT_currentSample x,
                  FFT_currentSample := st.FFT_currentSample + 1 }) := by
  have h1 : (st.FFT_currentSample + 1) % 65536 = st.FFT_currentSample + 1 := by
    apply Nat.mod_eq_of_lt; simp [FFT_SAMPLE_MAX] at hc; omega
  simp only [FFT_GetSample, hr, wr, hlen, hc, if_true, Option.some_bind, h1, INT_SYS_DisableIRQ]
  by_cases h : st.FFT_currentSample + 1 = FFT_SAMPLE_MAX
  · simp [h]
  · have h' : ¬ FFT_SAMPLE_MAX = st.FFT_currentSample + 1 := fun e => h e.symm
    simp [h, h']

theorem FFT_GetSample_step {K : Type} (st : FFTState K) (x : Nat)
    (hlen : st.FFT_AudioSamples.length = FFT_SAMPLE_MAX) (hr : st.FFT_bufferReady = 0)
    (hc : st.FFT_currentSample < FFT_SAMPLE_MAX) :
    ∃ st1, FFT_GetSample st x = some st1 ∧
      st1.FFT_AudioSamples = st.FFT_AudioSamples.set st.FFT_currentSample x ∧
      (st.FFT_currentSample + 1 = FFT_SAMPLE_MAX →
        st1.FFT_bufferReady = 1 ∧ st1.FFT_currentSample = 0 ∧ st1.adcIrqEnabled = false) ∧
      (st.FFT_currentSample + 1 ≠ FFT_SAMPLE_MAX →
        st1.FFT_bufferReady = 0 ∧ st1.FFT_currentSample = st.FFT_currentSample + 1 ∧
        st1.adcIrqEnabled = st.adcIrqEnabled) := by
  refine ⟨_, FFT_GetSample_filling st x hlen hr hc, ?_, ?_, ?_⟩
  · split <;> rfl
  · intro h; rw [if_pos h]; exact ⟨rfl, rfl, rfl⟩
  · intro h; rw [if_neg h]; exact ⟨hr, rfl, rfl⟩

theorem ingestAll_spec {K : Type} (xs : List Nat) :
    ∀ (st : FFTState K), st.FFT_AudioSamples.length = FFT_SAMPLE_MAX →
      st.FFT_bufferReady = 0 → st.FFT_currentSample + xs.length ≤ FFT_SAMPLE_MAX →
      ∃ st', ingestAll st xs = some st' ∧
        st'.FFT_AudioSamples.length = FFT_SAMPLE_MAX ∧
        (∀ i, st'.FFT_AudioSamples[i]? =
          if st.FFT_currentSample ≤ i ∧ i < st.FFT_currentSample + xs.length
          then xs[i - st.FFT_currentSample]? else st.FFT_AudioSamples[i]?) ∧
        (st.FFT_currentSample + xs.length < FFT_SAMPLE_MAX →
          st'.FFT_bufferReady = 0 ∧ st'.FFT_currentSample = st.FFT_currentSample + xs.length ∧
          st'.adcIrqEnabled = st.adcIrqEnabled) ∧
        (st.FFT_currentSample + xs.length = FFT_SAMPLE_MAX → xs ≠ [] →
          st'.FFT_bufferReady = 1 ∧ st'.FFT_currentSample = 0 ∧ st'.adcIrqEnabled = false) := by
  induction xs with
  | nil =>
    intro st hlen hr hc
    refine ⟨st, rfl, hlen, ?_, fun _ => ⟨hr, rfl, rfl⟩, fun _ h => absurd rfl h⟩
    intro i; rw [if_neg]; simp
  | cons x xs ih =>
    intro st hlen hr hc
    simp only [List.length_cons] at hc
    have hc' : st.FFT_currentSample < FFT_SAMPLE_MAX := by omega
    obtain ⟨st1, hstep, hbuf, hA, hB⟩ := FFT_GetSample_step st x hlen hr hc'
    have hlen1 : st1.FFT_AudioSamples.length = FFT_SAMPLE_MAX := by rw [hbuf]; simpa using hlen
    have hfold : ingestAll st (x :: xs) = ingestAll st1 xs := by
      simp [ingestAll, List.foldlM, hstep]
    have hget : ∀ i, st1.FFT_AudioSamples[i]? =
        if i = st.FFT_currentSample then some x else st.FFT_AudioSamples[i]? := by
      intro i
      rw [hbuf, List.getElem?_set]
      by_cases hi : st.FFT_currentSample = i
      · subst hi; simp [hlen, hc']
      · simp [hi, Ne.symm hi]
    by_cases hfull : st.FFT_currentSample + 1 = FFT_SAMPLE_MAX
    · have hnil : xs = [] := by
        apply List.eq_nil_of_length_eq_zero; omega
      subst hnil
      obtain ⟨a, b, c⟩ := hA hfull
      refine ⟨st1, by rw [hfold]; rfl, hlen1, ?_, ?_, ?_⟩
      · intro i
        rw [hget i]
        simp only [List.length_cons, List.length_nil]
        by_cases hi : i = st.FFT_currentSample
        · subst hi; simp
        · have : ¬ (st.FFT_currentSample ≤ i ∧ i < st.FFT_currentSample + (0 + 1)) := by omega
          rw [if_neg this, if_neg hi]
      · intro h; simp at h; omega
      · intro _ _; exact ⟨a, b, c⟩
    · obtain ⟨a, b, c⟩ := hB hfull
      obtain ⟨st', h1, h2, h3, h4, h5⟩ := ih st1 hlen1 a (by rw [b]; omega)
      rw [b] at h3 h4 h5
      refine ⟨st', by rw [hfold]; exact h1, h2, ?_, ?_, ?_⟩
      · intro i
        rw [h3 i]
        simp only [List.length_cons]
        by_cases hi : i = st.FFT_currentSample
        · subst hi; simp [hget]
        · by_cases hin : st.FFT_currentSample + 1 ≤ i ∧ i < st.FFT_currentSample + 1 + xs.length
          · have hin' : st.FFT_currentSample ≤ i ∧ i < st.FFT_currentSample + (xs.length + 1) := by
              omega
            rw [if_pos hin, if_pos hin']
            have : i - st.FFT_currentSample = (i - (st.FFT_currentSample + 1)) + 1 := by omega
            rw [this, List.getElem?_cons_succ]
          · have hin' : ¬ (st.FFT_currentSample ≤ i ∧ i < st.FFT_currentSample + (xs.length + 1)) := by
              omega
            rw [if_neg hin, if_neg hin', hget i, if_neg hi]
      · intro h
        simp only [List.length_cons] at h
        obtain ⟨a', b', c'⟩ := h4 (by omega)
        exact ⟨a', by rw [b']; simp only [List.length_cons]; omega, by rw [c', c]⟩
      · intro h _
        simp only [List.length_cons] at h
        have hne : xs ≠ [] := by
          intro e; subst e; simp at h; exact hfull h
        exact h5 (by omega) hne

/-- C1: from a FILLING state with write cursor 0, after `k ≤ 2048` calls of
`FFT_GetSample` (one per element of `xs`, `k = xs.length`) the ready flag is 1 if
`k = 2048` and 0 otherwise, and while `k < 2048` the cursor equals `k`. -/
theorem C1_fill_reaches_ready_at_2048 {K : Type} (st : FFTState K)
    (hlen : st.FFT_AudioSamples.length = FFT_SAMPLE_MAX)
    (hready : st.FFT_bufferReady = 0) (hcur : st.FFT_currentSample = 0)
    (xs : List Nat) (hk : xs.length ≤ FFT_SAMPLE_MAX) :
    ∃ st', ingestAll st xs = some st' ∧
      (st'.FFT_bufferReady ≠ 0 ↔ xs.length = FFT_SAMPLE_MAX) ∧
      st'.FFT_bufferReady = (if xs.length = FFT_SAMPLE_MAX then 1 else 0) ∧
      (xs.length < FFT_SAMPLE_MAX → st'.FFT_currentSample = xs.length) := by
  obtain ⟨st', h1, _, _, h4, h5⟩ := ingestAll_spec xs st hlen hready (by rw [hcur]; omega)
  rw [hcur] at h4 h5
  simp only [Nat.zero_add] at h4 h5
  have hflag : st'.FFT_bufferReady = (if xs.length = FFT_SAMPLE_MAX then 1 else 0) := by
    by_cases h : xs.length = FFT_SAMPLE_MAX
    · rw [if_pos h]
      have hne : xs ≠ [] := by
        intro e; subst e; simp [FFT_SAMPLE_MAX] at h
      exact (h5 h hne).1
    · rw [if_neg h]; exact (h4 (by omega)).1
  refine ⟨st', h1, ?_, hflag, fun h => (h4 h).2.1⟩
  rw [hflag]
  by_cases h : xs.length = FFT_SAMPLE_MAX <;> simp [h]

theorem C1_fill_reaches_ready_at_2048_witness :
    ∃ st', ingestAll zeroState [7, 8, 9] = some st' ∧
      (st'.FFT_bufferReady ≠ 0 ↔ [7, 8, 9].length = FFT_SAMPLE_MAX) ∧
      st'.FFT_bufferReady = (if [7, 8, 9].length = FFT_SAMPLE_MAX then 1 else 0) ∧
      ([7, 8, 9].length < FFT_SAMPLE_MAX → st'.FFT_currentSample = [7, 8, 9].length) :=
  C1_fill_reaches_ready_at_2048 zeroState (List.length_replicate 2048 0) rfl rfl
    [7, 8, 9] (by simp [FFT_SAMPLE_MAX])

/-- C2: in every state whose ready flag is set, `FFT_GetSample` returns the state
unchanged, whatever the sample: buffer, cursor, flag and all other variables are kept and
the sample is not written. -/
theorem C2_ingest_while_ready_is_noop {K : Type} (st : FFTState K) (sample : Nat)
    (hready : st.FFT_bufferReady ≠ 0) : FFT_GetSample st sample = some st := by
  have h : ¬ (0 = st.FFT_bufferReady) := fun e => hready e.symm
  simp [FFT_GetSample, h]

theorem C2_ingest_while_ready_is_noop_witness :
    FFT_GetSample { zeroState with FFT_bufferReady := 1 } 1234 =
      some { zeroState with FFT_bufferReady := 1 } :=
  C2_ingest_while_ready_is_noop { zeroState with FFT_bufferReady := 1 } 1234 (by decide)

/-- C3: from a FILLING state with cursor 0, whatever the buffer holds, 2048 calls of
`FFT_GetSample` with the samples `xs` leave the buffer equal to `xs`: sample `i` is at
index `i` for every `i < 2048`. -/
theorem C3_block_holds_samples_in_order {K : Type} (st : FFTState K)
    (hlen : st.FFT_AudioSamples.length = FFT_SAMPLE_MAX)
    (hready : st.FFT_bufferReady = 0) (hcur : st.FFT_currentSample = 0)
    (xs : List Nat) (hk : xs.length = FFT_SAMPLE_MAX) :
    ∃ st', ingestAll st xs = some st' ∧ st'.FFT_AudioSamples = xs ∧
      ∀ i : Nat, i < FFT_SAMPLE_MAX → st'.FFT_AudioSamples[i]? = xs[i]? := by
  obtain ⟨st', h1, h2, h3, _, _⟩ := ingestAll_spec xs st hlen hready (by rw [hcur]; omega)
  rw [hcur] at h3
  have hall : ∀ i : Nat, st'.FFT_AudioSamples[i]? = xs[i]? := by
    intro i
    rw [h3 i]
    by_cases hi : i < xs.length
    · simp [hi]
    · have : ¬ (0 ≤ i ∧ i < 0 + xs.length) := by omega
      rw [if_neg this]
      rw [List.getElem?_eq_none (by omega), List.getElem?_eq_none (by omega)]
  exact ⟨st', h1, List.ext_getElem? hall, fun i _ => hall i⟩

theorem C3_block_holds_samples_in_order_witness :
    ∃ st', ingestAll { zeroState with FFT_AudioSamples := List.replicate 2048 77 }
        (List.range 2048) = some st' ∧
      st'.FFT_AudioSamples = List.range 2048 ∧
      ∀ i : Nat, i < FFT_SAMPLE_MAX → st'.FFT_AudioSamples[i]? = (List.range 2048)[i]? :=
  C3_block_holds_samples_in_order { zeroState with FFT_AudioSamples := List.replicate 2048 77 }
    (List.length_replicate 2048 77) rfl rfl (List.range 2048) (List.length_range 2048)

/-! ## Bit reversal -/


theorem bitrev_lt (m : Nat) : ∀ i, bitrev m i < 2 ^ m := by
  induction m with
  | zero => intro i; simp [bitrev]
  | succ m ih =>
    intro i
    have h1 := ih (i / 2)
    have h2 : i % 2 < 2 := Nat.mod_lt _ (by decide)
    have h3 : i % 2 * 2 ^ m ≤ 1 * 2 ^ m := Nat.mul_le_mul_right _ (by omega)
    simp only [bitrev, pow_succ]
    omega

theorem bitrev_high (m : Nat) : ∀ a b, a < 2 → b < 2 ^ m →
    bitrev (m + 1) (a * 2 ^ m + b) = 2 * bitrev m b + a := by
  induction m with
  | zero =>
    intro a b ha hb
    have : b = 0 := by simpa using hb
    subst this
    simp [bitrev]; omega
  | succ m ih =>
    intro a b ha hb
    have e0 : a * 2 ^ (m + 1) = 2 * (a * 2 ^ m) := by rw [pow_succ]; ring
    have e1 : (a * 2 ^ (m + 1) + b) % 2 = b % 2 := by
      rw [e0]; omega
    have e2 : (a * 2 ^ (m + 1) + b) / 2 = a * 2 ^ m + b / 2 := by
      rw [e0]; omega
    have hb2 : b / 2 < 2 ^ m := by rw [pow_succ] at hb; omega
    have h := ih a (b / 2) ha hb2
    calc bitrev (m + 1 + 1) (a * 2 ^ (m + 1) + b)
        = (a * 2 ^ (m + 1) + b) % 2 * 2 ^ (m + 1) + bitrev (m + 1) ((a * 2 ^ (m + 1) + b) / 2) := rfl
      _ = b % 2 * 2 ^ (m + 1) + (2 * bitrev m (b / 2) + a) := by rw [e1, e2, h]
      _ = 2 * (b % 2 * 2 ^ m + bitrev m (b / 2)) + a := by rw [pow_succ]; ring
      _ = 2 * bitrev (m + 1) b + a := rfl

theorem bitrev_bitrev (m : Nat) : ∀ i, i < 2 ^ m → bitrev m (bitrev m i) = i := by
  induction m with
  | zero => intro i hi; simp at hi; simp [bitrev, hi]
  | succ m ih =>
    intro i hi
    have hi2 : i / 2 < 2 ^ m := by rw [pow_succ] at hi; omega
    have h2 : i % 2 < 2 := Nat.mod_lt _ (by decide)
    calc bitrev (m + 1) (bitrev (m + 1) i)
        = bitrev (m + 1) (i % 2 * 2 ^ m + bitrev m (i / 2)) := rfl
      _ = 2 * bitrev m (bitrev m (i / 2)) + i % 2 := bitrev_high m _ _ h2 (bitrev_lt m _)
      _ = 2 * (i / 2) + i % 2 := by rw [ih _ hi2]
      _ = i := by omega

theorem bitrev_testBit (m : Nat) : ∀ i b, b < m →
    (bitrev m i).testBit b = i.testBit (m - 1 - b) := by
  induction m with
  | zero => intro i b hb; omega
  | succ m ih =>
    intro i b hb
    have hlt := bitrev_lt m (i / 2)
    have e : bitrev (m + 1) i = 2 ^ m * (i % 2) + bitrev m (i / 2) := by
      simp only [bitrev]; ring
    rw [e, Nat.testBit_mul_pow_two_add _ hlt]
    by_cases hbm : b < m
    · rw [if_pos hbm, ih _ _ hbm]
      have : m + 1 - 1 - b = (m - 1 - b) + 1 := by omega
      rw [this, Nat.testBit_succ]
    · have hb' : b = m := by omega
      subst hb'
      rw [if_neg hbm]
      simp only [Nat.sub_self, Nat.add_sub_cancel]
      rcases Nat.mod_two_eq_zero_or_one i with h | h <;> simp [Nat.testBit, h, Nat.and_one_is_mod]

theorem revWhile_spec (m : Nat) : ∀ (i fuel : Nat), i + 1 < 2 ^ (m + 1) → m < fuel →
    ∃ jk, revWhile fuel (bitrev (m + 1) i, 2 ^ m) = some jk ∧
      jk.1 + jk.2 = bitrev (m + 1) (i + 1) := by
  induction m with
  | zero =>
    intro i fuel hi hf
    have hi0 : i = 0 := by simp at hi; omega
    subst hi0
    obtain ⟨f, rfl⟩ : ∃ f, fuel = f + 1 := ⟨fuel - 1, by omega⟩
    exact ⟨(0, 1), by simp [revWhile, whileFuel, bitrev], by simp [bitrev]⟩
  | succ m ih =>
    intro i fuel hi hf
    obtain ⟨f, rfl⟩ : ∃ f, fuel = f + 1 := ⟨fuel - 1, by omega⟩
    have hb := bitrev_lt (m + 1) (i / 2)
    have hunf : ∀ x, bitrev (m + 1 + 1) x = x % 2 * 2 ^ (m + 1) + bitrev (m + 1) (x / 2) :=
      fun _ => rfl
    rcases Nat.mod_two_eq_zero_or_one i with h | h
    · refine ⟨(bitrev (m + 1) (i / 2), 2 ^ (m + 1)), ?_, ?_⟩
      · rw [hunf, h]
        simp only [revWhile, whileFuel, Nat.zero_mul, Nat.zero_add]
        have : ¬ (2 ^ (m + 1) ≤ bitrev (m + 1) (i / 2)) := by omega
        simp [this]
      · rw [hunf (i + 1)]
        have e1 : (i + 1) % 2 = 1 := by omega
        have e2 : (i + 1) / 2 = i / 2 := by omega
        rw [e1, e2]; simp only [Nat.one_mul]; omega
    · have hi2 : i / 2 + 1 < 2 ^ (m + 1) := by
        rw [pow_succ] at hi; omega
      obtain ⟨jk, h1, h2⟩ := ih (i / 2) f hi2 (by omega)
      refine ⟨jk, ?_, ?_⟩
      · rw [hunf, h]
        simp only [revWhile, whileFuel, Nat.one_mul]
        have hc : 2 ^ (m + 1) ≤ 2 ^ (m + 1) + bitrev (m + 1) (i / 2) := by omega
        have hs : 2 ^ (m + 1) >>> 1 = 2 ^ m := by
          rw [Nat.shiftRight_eq_div_pow, pow_succ]; simp
        simp only [hc, decide_True, if_true, Option.some_bind, Nat.add_sub_cancel_left, hs]
        exact h1
      · rw [h2, hunf (i + 1)]
        have e1 : (i + 1) % 2 = 0 := by omega
        have e2 : (i + 1) / 2 = i / 2 + 1 := by omega
        rw [e1, e2]; simp

theorem RevInv_init {α : Type} (m : Nat) (a : List α) (h : a.length = 2 ^ m) :
    RevInv m 0 a a := by
  refine ⟨h, fun p _ => ?_⟩
  simp

theorem RevInv_keep {α : Type} (m i : Nat) (a0 a : List α) (h : RevInv m i a0 a)
    (hi : i < 2 ^ m) (hle : ¬ i < bitrev m i) : RevInv m (i + 1) a0 a := by
  obtain ⟨hlen, hp⟩ := h
  refine ⟨hlen, fun p hpn => ?_⟩
  rw [hp p hpn]
  by_cases hc : p < i ∨ bitrev m p < i
  · have hc' : p < i + 1 ∨ bitrev m p < i + 1 := by omega
    rw [if_pos hc, if_pos hc']
  · rw [if_neg hc]
    by_cases hc' : p < i + 1 ∨ bitrev m p < i + 1
    · rw [if_pos hc']
      -- then `p = i` or `bitrev m p = i`; in both cases `bitrev m p = p`
      have hfix : bitrev m p = p := by
        rcases hc' with h1 | h1
        · have hpi : p = i := by omega
          subst hpi
          have : bitrev m p ≥ p := by omega
          omega
        · have hbi : bitrev m p = i := by omega
          have hpi : p = bitrev m i := by rw [← hbi, bitrev_bitrev m p hpn]
          have : ¬ p < i := by omega
          omega
      rw [hfix]
    · rw [if_neg hc']

theorem RevInv_swap {α : Type} (m i : Nat) (a0 a : List α) (h : RevInv m i a0 a)
    (hi : i < 2 ^ m) (hlt : i < bitrev m i) :
    ∃ tx rj, a[i]? = some tx ∧ a[bitrev m i]? = some rj ∧
      RevInv m (i + 1) a0 ((a.set i rj).set (bitrev m i) tx) := by
  obtain ⟨hlen, hp⟩ := h
  have hr := bitrev_lt m i
  have hil : i < a.length := by omega
  have hrl : bitrev m i < a.length := by omega
  refine ⟨a[i], a[bitrev m i], List.getElem?_eq_getElem hil, List.getElem?_eq_getElem hrl,
    by simpa using hlen, fun p hpn => ?_⟩
  have hpl : p < a.length := by omega
  rw [List.getElem?_set]
  by_cases h1 : bitrev m i = p
  · -- position `bitrev m i` now holds the old `a[i]`
    subst h1
    have hbb : bitrev m (bitrev m i) = i := bitrev_bitrev m i hi
    have hc' : bitrev m i < i + 1 ∨ bitrev m (bitrev m i) < i + 1 := by omega
    rw [if_pos rfl, if_pos hc', hbb]
    simp only [List.length_set, hrl, if_true]
    have := hp i hi
    rw [if_neg (by omega)] at this
    rw [← this, List.getElem?_eq_getElem hil]
  · rw [if_neg h1, List.getElem?_set]
    by_cases h2 : i = p
    · subst h2
      have hc' : i < i + 1 ∨ bitrev m i < i + 1 := by omega
      rw [if_pos rfl, if_pos hc']
      simp only [hil, if_true]
      have := hp (bitrev m i) hr
      rw [bitrev_bitrev m i hi, if_neg (by omega)] at this
      rw [← this, List.getElem?_eq_getElem hrl]
    · rw [if_neg h2, hp p hpn]
      have hne : bitrev m p ≠ i := by
        intro e
        apply h1
        rw [← e, bitrev_bitrev m p hpn]
      by_cases hc : p < i ∨ bitrev m p < i
      · have hc' : p < i + 1 ∨ bitrev m p < i + 1 := by omega
        rw [if_pos hc, if_pos hc']
      · have hc' : ¬ (p < i + 1 ∨ bitrev m p < i + 1) := by omega
        rw [if_neg hc, if_neg hc']

theorem RevInv_final {α : Type} (m : Nat) (a0 a : List α) (h : RevInv m (2 ^ m - 1) a0 a) :
    a.length = 2 ^ m ∧ ∀ p, p < 2 ^ m → a[p]? = a0[bitrev m p]? := by
  obtain ⟨hlen, hp⟩ := h
  refine ⟨hlen, fun p hpn => ?_⟩
  rw [hp p hpn]
  by_cases hc : p < 2 ^ m - 1 ∨ bitrev m p < 2 ^ m - 1
  · rw [if_pos hc]
  · rw [if_neg hc]
    have := bitrev_lt m p
    have : bitrev m p = p := by omega
    rw [this]

theorem bitRevBody_spec {α : Type} (m i fuel : Nat) (re0 im0 : List α) (s : RevState α)
    (hi : i + 1 < 2 ^ (m + 1)) (hf : m < fuel)
    (hre : RevInv (m + 1) i re0 s.re) (him : RevInv (m + 1) i im0 s.im)
    (hj : s.j = bitrev (m + 1) i) :
    ∃ s', bitRevBody (2 ^ m) fuel i s = some s' ∧
      RevInv (m + 1) (i + 1) re0 s'.re ∧ RevInv (m + 1) (i + 1) im0 s'.im ∧
      s'.j = bitrev (m + 1) (i + 1) := by
  obtain ⟨jk, hw, hjk⟩ := revWhile_spec m i fuel hi hf
  have hi' : i < 2 ^ (m + 1) := by omega
  by_cases hlt : i < bitrev (m + 1) i
  · obtain ⟨tx, rj, h1, h2, h3⟩ := RevInv_swap (m + 1) i re0 s.re hre hi' hlt
    obtain ⟨ty, ij, h4, h5, h6⟩ := RevInv_swap (m + 1) i im0 s.im him hi' hlt
    have hr := bitrev_lt (m + 1) i
    have l1 : i < s.re.length := by rw [hre.1]; exact hi'
    have l2 : i < s.im.length := by rw [him.1]; exact hi'
    have l3 : bitrev (m + 1) i < s.re.length := by rw [hre.1]; exact hr
    have l4 : bitrev (m + 1) i < s.im.length := by rw [him.1]; exact hr
    refine ⟨{ re := (s.re.set i rj).set (bitrev (m + 1) i) tx,
              im := (s.im.set i ij).set (bitrev (m + 1) i) ty,
              j := jk.1 + jk.2 }, ?_, h3, h6, hjk⟩
    simp only [bitRevBody, hj, hlt, if_true, rd, wr, h1, h2, h4, h5, Option.some_bind,
      l1, l2, l3, l4, List.length_set, hw]
  · refine ⟨{ s with j := jk.1 + jk.2 }, ?_,
      RevInv_keep (m + 1) i re0 s.re hre hi' hlt, RevInv_keep (m + 1) i im0 s.im him hi' hlt, hjk⟩
    simp only [bitRevBody, hj, hlt, if_false, Option.some_bind, hw]

theorem bitReversal_spec {α : Type} (m fuel : Nat) (re im : List α)
    (hre : re.length = 2 ^ m) (him : im.length = 2 ^ m) (hf : m ≤ fuel) :
    ∃ re' im', bitReversal fuel (2 ^ m) re im = some (re', im') ∧
      re'.length = 2 ^ m ∧ im'.length = 2 ^ m ∧
      (∀ p, p < 2 ^ m → re'[p]? = re[bitrev m p]?) ∧
      (∀ p, p < 2 ^ m → im'[p]? = im[bitrev m p]?) := by
  cases m with
  | zero =>
    refine ⟨re, im, by simp [bitReversal, forLoop, forCount], hre, him, ?_, ?_⟩ <;>
    · intro p hp
      have : p = 0 := by simpa using hp
      subst this; simp [bitrev]
  | succ m =>
    have hs : 2 ^ (m + 1) >>> 1 = 2 ^ m := by
      rw [Nat.shiftRight_eq_div_pow, pow_succ]; simp
    obtain ⟨s', h1, h2, h3, _⟩ := forLoop_spec (bitRevBody (2 ^ m) fuel)
      (fun k s => RevInv (m + 1) k re s.re ∧ RevInv (m + 1) k im s.im ∧ s.j = bitrev (m + 1) k)
      0 (2 ^ (m + 1) - 1) { re := re, im := im, j := 0 } (Nat.zero_le _)
      ⟨RevInv_init _ _ hre, RevInv_init _ _ him, by
        show 0 = bitrev (m + 1) 0
        have : ∀ k, bitrev k 0 = 0 := by
          intro k; induction k with
          | zero => rfl
          | succ k ih => simp [bitrev, ih]
        exact (this _).symm⟩
      (fun k t _ hk ht => by
        obtain ⟨t', e1, e2, e3, e4⟩ := bitRevBody_spec m k fuel re im t (by omega) (by omega)
          ht.1 ht.2.1 ht.2.2
        exact ⟨t', e1, e2, e3, e4⟩)
    obtain ⟨a1, a2⟩ := RevInv_final (m + 1) re s'.re h2
    obtain ⟨b1, b2⟩ := RevInv_final (m + 1) im s'.im h3
    refine ⟨s'.re, s'.im, ?_, a1, b1, a2, b2⟩
    simp only [bitReversal, hs, h1, Option.some_bind]

/-! ## Butterfly stages -/

theorem rd_eq {K : Type} [Field K] (a : List K) (i : Nat) (h : i < a.length) :
    rd a i = some (a.getD i 0) := by
  simp [rd, List.getD_eq_getElem?_getD, List.getElem?_eq_getElem h]

theorem wr_eq {α : Type} (a : List α) (i : Nat) (v : α) (h : i < a.length) :
    wr a i v = some (a.set i v) := by
  simp [wr, h]

theorem getD_set {K : Type} [Field K] (a : List K) (i p : Nat) (v : K) (h : i < a.length) :
    (a.set i v).getD p 0 = if p = i then v else a.getD p 0 := by
  simp only [List.getD_eq_getElem?_getD, List.getElem?_set]
  by_cases hp : i = p
  · subst hp; simp [h]
  · simp [hp, Ne.symm hp]

theorem butterfly_eq {K : Type} [Field K] (l1 l2 n : Nat) (u1 u2 : K) (s : StrideState K)
    (hre : s.re.length = n) (him : s.im.length = n) (hl1 : 0 < l1) (hi : s.i + l1 < n) :
    butterfly l1 l2 u1 u2 s = some
      { re := (s.re.set (s.i + l1) (s.re.getD s.i 0 -
                (u1 * s.re.getD (s.i + l1) 0 - u2 * s.im.getD (s.i + l1) 0))).set s.i
                (s.re.getD s.i 0 + (u1 * s.re.getD (s.i + l1) 0 - u2 * s.im.getD (s.i + l1) 0)),
        im := (s.im.set (s.i + l1) (s.im.getD s.i 0 -
                (u1 * s.im.getD (s.i + l1) 0 + u2 * s.re.getD (s.i + l1) 0))).set s.i
                (s.im.getD s.i 0 + (u1 * s.im.getD (s.i + l1) 0 + u2 * s.re.getD (s.i + l1) 0)),
        i := s.i + l2 } := by
  have h1 : s.i + l1 < s.re.length := by omega
  have h2 : s.i + l1 < s.im.length := by omega
  have h3 : s.i < s.re.length := by omega
  have h4 : s.i < s.im.length := by omega
  have hne : s.i ≠ s.i + l1 := by omega
  simp only [butterfly]
  rw [rd_eq _ _ h1, rd_eq _ _ h2, rd_eq _ _ h3, rd_eq _ _ h4]
  simp only [Option.some_bind]
  rw [wr_eq _ _ _ h1, wr_eq _ _ _ h2]
  simp only [Option.some_bind]
  rw [rd_eq _ _ (by simpa using h3), rd_eq _ _ (by simpa using h4)]
  simp only [Option.some_bind]
  rw [wr_eq _ _ _ (by simpa using h3), wr_eq _ _ _ (by simpa using h4)]
  simp only [Option.some_bind]
  rw [getD_set _ _ _ _ h1, getD_set _ _ _ _ h2, if_neg hne, if_neg hne]

theorem butterfly_spec {K : Type} [Field K] (l1 l2 n : Nat) (u1 u2 : K) (s : StrideState K)
    (hre : s.re.length = n) (him : s.im.length = n) (hl1 : 0 < l1) (hi : s.i + l1 < n) :
    ∃ s', butterfly l1 l2 u1 u2 s = some s' ∧ s'.i = s.i + l2 ∧
      s'.re.length = n ∧ s'.im.length = n ∧
      ∀ p, cview s'.re s'.im p =
        if p = s.i then cview s.re s.im s.i + cmul (u1, u2) (cview s.re s.im (s.i + l1))
        else if p = s.i + l1 then
          cview s.re s.im s.i - cmul (u1, u2) (cview s.re s.im (s.i + l1))
        else cview s.re s.im p := by
  have h1 : s.i + l1 < s.re.length := by omega
  have h2 : s.i + l1 < s.im.length := by omega
  have h3 : s.i < s.re.length := by omega
  have h4 : s.i < s.im.length := by omega
  have hne : s.i ≠ s.i + l1 := by omega
  refine ⟨_, butterfly_eq l1 l2 n u1 u2 s hre him hl1 hi, rfl, by simpa using hre,
    by simpa using him, fun p => ?_⟩
  simp only [cview, cmul]
  rw [getD_set _ _ _ _ (by simpa using h3), getD_set _ _ _ _ h1,
    getD_set _ _ _ _ (by simpa using h4), getD_set _ _ _ _ h2]
  by_cases hp : p = s.i
  · simp only [if_pos hp, Prod.mk_add_mk]
  · by_cases hp1 : p = s.i + l1
    · simp only [if_neg hp, if_pos hp1, Prod.mk_sub_mk]
    · simp only [if_neg hp, if_neg hp1]

theorem divmod_of_eq (l1 q k p : Nat) (hk : k < l1) (h : p = l1 * q + k) :
    p / l1 = q ∧ p % l1 = k := by
  have hl : 0 < l1 := by omega
  subst h
  constructor
  · rw [Nat.mul_add_div hl, Nat.div_eq_of_lt hk]; rfl
  · rw [Nat.mul_add_mod, Nat.mod_eq_of_lt hk]

theorem stagePure_upper {K : Type} [Field K] (l1 b k : Nat) (tw : Nat → K × K)
    (A : Nat → K × K) (hk : k < l1) :
    stagePure l1 tw A (l1 * (2 * b) + k) =
      A (l1 * (2 * b) + k) + cmul (tw k) (A (l1 * (2 * b) + k + l1)) := by
  obtain ⟨h1, h2⟩ := divmod_of_eq l1 (2 * b) k _ hk rfl
  simp only [stagePure, h1, h2]
  rw [if_pos (by omega)]

theorem stagePure_lower {K : Type} [Field K] (l1 b k : Nat) (tw : Nat → K × K)
    (A : Nat → K × K) (hk : k < l1) :
    stagePure l1 tw A (l1 * (2 * b) + k + l1) =
      A (l1 * (2 * b) + k) - cmul (tw k) (A (l1 * (2 * b) + k + l1)) := by
  have e : l1 * (2 * b) + k + l1 = l1 * (2 * b + 1) + k := by ring
  obtain ⟨h1, h2⟩ := divmod_of_eq l1 (2 * b + 1) k _ hk e
  simp only [stagePure, h1, h2]
  rw [if_neg (by omega), Nat.add_sub_cancel]

theorem strideLoop_spec {K : Type} [Field K] (l1 l2 B j n fuel : Nat) (tw : Nat → K × K)
    (A : Nat → K × K) (re im : List K)
    (hj : j < l1) (hn : n = l1 * (2 * B))
    (hre : re.length = n) (him : im.length = n) (hf : n < fuel)
    (hl2' : l2 = l1 * 2)
    (hV : ∀ p, p < n → cview re im p = if p % l1 < j then stagePure l1 tw A p else A p) :
    ∃ t, whileFuel (fun t => decide (t.i < n)) (butterfly l1 l2 (tw j).1 (tw j).2) fuel
        { re := re, im := im, i := j } = some t ∧
      t.re.length = n ∧ t.im.length = n ∧
      ∀ p, p < n → cview t.re t.im p =
        if p % l1 < j + 1 then stagePure l1 tw A p else A p := by
  have hl1 : 0 < l1 := by omega
  obtain ⟨t, ht, ⟨b, hb, hti, hr, hi, hv⟩, hc⟩ := whileFuel_spec
    (fun t : StrideState K => decide (t.i < n)) (butterfly l1 l2 (tw j).1 (tw j).2)
    (fun t => ∃ b, b ≤ B ∧ t.i = l1 * (2 * b) + j ∧ t.re.length = n ∧ t.im.length = n ∧
      ∀ p, p < n → cview t.re t.im p =
        if p % l1 < j ∨ (p % l1 = j ∧ p / l1 / 2 < b) then stagePure l1 tw A p else A p)
    (fun t => n - t.i)
    (by
      rintro t ⟨b, hb, hti, hr, hi, hv⟩ hc
      have hlt : t.i < n := by simpa using hc
      have hbB : b < B := by
        by_contra hcon
        have : l1 * (2 * B) ≤ l1 * (2 * b) := Nat.mul_le_mul_left _ (by omega)
        omega
      have hmul : l1 * (2 * (b + 1)) ≤ l1 * (2 * B) := Nat.mul_le_mul_left _ (by omega)
      have hexp : l1 * (2 * (b + 1)) = l1 * (2 * b) + l1 + l1 := by ring
      have hi1 : t.i + l1 < n := by omega
      obtain ⟨s', e1, e2, e3, e4, e5⟩ :=
        butterfly_spec l1 l2 n (tw j).1 (tw j).2 t hr hi hl1 hi1
      obtain ⟨d1, d2⟩ := divmod_of_eq l1 (2 * b) j t.i hj hti
      have e : t.i + l1 = l1 * (2 * b + 1) + j := by rw [hti]; ring
      obtain ⟨d3, d4⟩ := divmod_of_eq l1 (2 * b + 1) j (t.i + l1) hj e
      have hVi : cview t.re t.im t.i = A t.i := by
        rw [hv _ hlt, if_neg]; rw [d1, d2]; omega
      have hVi1 : cview t.re t.im (t.i + l1) = A (t.i + l1) := by
        rw [hv _ hi1, if_neg]; rw [d3, d4]; omega
      refine ⟨s', e1, ⟨b + 1, by omega, by rw [e2, hti, hl2']; ring, e3, e4, fun p hp => ?_⟩, by
        show n - s'.i < n - t.i
        rw [e2]; omega⟩
      rw [e5 p, hVi, hVi1]
      by_cases hp0 : p = t.i
      · rw [if_pos hp0, if_pos (by rw [hp0, d1, d2]; omega), hp0]
        have := stagePure_upper l1 b j tw A hj
        rw [← hti] at this
        rw [this]
      · rw [if_neg hp0]
        by_cases hp1 : p = t.i + l1
        · rw [if_pos hp1, if_pos (by rw [hp1, d3, d4]; omega), hp1]
          have := stagePure_lower l1 b j tw A hj
          rw [← hti] at this
          rw [this]
        · rw [if_neg hp1, hv p hp]
          have hdm := Nat.div_add_mod p l1
          have hiff : (p % l1 < j ∨ (p % l1 = j ∧ p / l1 / 2 < b)) ↔
              (p % l1 < j ∨ (p % l1 = j ∧ p / l1 / 2 < b + 1)) := by
            constructor
            · rintro (h | ⟨h, h'⟩)
              · exact Or.inl h
              · exact Or.inr ⟨h, by omega⟩
            · rintro (h | ⟨h, h'⟩)
              · exact Or.inl h
              · by_cases hbb : p / l1 / 2 < b
                · exact Or.inr ⟨h, hbb⟩
                · exfalso
                  have hq : p / l1 = 2 * b ∨ p / l1 = 2 * b + 1 := by omega
                  rcases hq with hq | hq
                  · apply hp0; rw [hti, ← hdm, hq, h]
                  · apply hp1; rw [e, ← hdm, hq, h]
          by_cases hc1 : p % l1 < j ∨ (p % l1 = j ∧ p / l1 / 2 < b)
          · rw [if_pos hc1, if_pos (hiff.mp hc1)]
          · rw [if_neg hc1, if_neg (fun h => hc1 (hiff.mpr h))])
    fuel { re := re, im := im, i := j }
    ⟨0, Nat.zero_le _, by simp, hre, him, fun p hp => by
      rw [hV p hp]
      by_cases h : p % l1 < j
      · rw [if_pos h, if_pos (Or.inl h)]
      · rw [if_neg h, if_neg]; rintro (h' | ⟨_, h'⟩)
        · exact h h'
        · exact absurd h' (Nat.not_lt_zero _)⟩
    (by show n - j < fuel; omega)
  refine ⟨t, ht, hr, hi, fun p hp => ?_⟩
  rw [hv p hp]
  have hge : n ≤ t.i := by simpa using hc
  have hbB : b = B := by
    by_contra hcon
    have hmul : l1 * (2 * (b + 1)) ≤ l1 * (2 * B) := Nat.mul_le_mul_left _ (by omega)
    have hexp : l1 * (2 * (b + 1)) = l1 * (2 * b) + l1 + l1 := by ring
    omega
  subst hbB
  have hpb : p / l1 / 2 < b := by
    rw [Nat.div_div_eq_div_mul]
    apply Nat.div_lt_of_lt_mul
    rw [hn] at hp
    calc p < l1 * (2 * b) := hp
      _ = l1 * 2 * b := by ring
  by_cases h : p % l1 < j
  · rw [if_pos (Or.inl h), if_pos (by omega)]
  · by_cases h' : p % l1 = j
    · rw [if_pos (Or.inr ⟨h', hpb⟩), if_pos (by omega)]
    · rw [if_neg, if_neg (by omega)]
      rintro (h1 | ⟨h1, _⟩)
      · exact h h1
      · exact h' h1

theorem stagePure_congr {K : Type} [Field K] (l1 B n : Nat) (tw : Nat → K × K)
    (A A' : Nat → K × K) (hl1 : 0 < l1) (hn : n = l1 * (2 * B))
    (hA : ∀ p, p < n → A p = A' p) (p : Nat) (hp : p < n) :
    stagePure l1 tw A p = stagePure l1 tw A' p := by
  simp only [stagePure]
  by_cases h : (p / l1) % 2 = 0
  · rw [if_pos h, if_pos h]
    have hq : p / l1 < 2 * B := by
      apply Nat.div_lt_of_lt_mul
      rw [← hn]; exact hp
    have hmul : l1 * (p / l1 + 2) ≤ l1 * (2 * B) := Nat.mul_le_mul_left _ (by omega)
    have hexp : l1 * (p / l1 + 2) = l1 * (p / l1) + l1 + l1 := by ring
    have hdm := Nat.div_add_mod p l1
    have hr : p % l1 < l1 := Nat.mod_lt _ hl1
    have hp1 : p + l1 < n := by omega
    rw [hA p hp, hA (p + l1) hp1]
  · rw [if_neg h, if_neg h]
    rw [hA p hp, hA (p - l1) (by omega)]

theorem twiddleLoop_spec {K : Type} [Field K] (l1 l2 B n fuel : Nat) (c1 c2 : K)
    (re im : List K) (hl1 : 0 < l1) (hn : n = l1 * (2 * B)) (hl2 : l2 = l1 * 2)
    (hre : re.length = n) (him : im.length = n) (hf : n < fuel) :
    ∃ t, forLoop 0 l1 (twiddleBody fuel n l1 l2 c1 c2)
        { re := re, im := im, u1 := 1, u2 := 0 } = some t ∧
      t.re.length = n ∧ t.im.length = n ∧
      ∀ p, p < n → cview t.re t.im p = stagePure l1 (twPow (c1, c2)) (cview re im) p := by
  obtain ⟨t, ht, h1, h2, _, h4⟩ := forLoop_spec (twiddleBody fuel n l1 l2 c1 c2)
    (fun j (s : TwState K) => s.re.length = n ∧ s.im.length = n ∧
      (s.u1, s.u2) = twPow (c1, c2) j ∧
      ∀ p, p < n → cview s.re s.im p =
        if p % l1 < j then stagePure l1 (twPow (c1, c2)) (cview re im) p else cview re im p)
    0 l1 { re := re, im := im, u1 := 1, u2 := 0 } (Nat.zero_le _)
    ⟨hre, him, rfl, fun p _ => by simp⟩
    (fun j s _ hj ⟨a1, a2, a3, a4⟩ => by
      obtain ⟨t, e1, e2, e3, e4⟩ := strideLoop_spec l1 l2 B j n fuel (twPow (c1, c2))
        (cview re im) s.re s.im hj hn a1 a2 hf hl2 a4
      have hu1 : (twPow (c1, c2) j).1 = s.u1 := by rw [← a3]
      have hu2 : (twPow (c1, c2) j).2 = s.u2 := by rw [← a3]
      rw [hu1, hu2] at e1
      refine ⟨{ re := t.re, im := t.im, u1 := s.u1 * c1 - s.u2 * c2,
                u2 := s.u1 * c2 + s.u2 * c1 }, ?_, e2, e3, ?_, e4⟩
      · simp only [twiddleBody, e1, Option.some_bind]
      · show (s.u1 * c1 - s.u2 * c2, s.u1 * c2 + s.u2 * c1) = cmul (twPow (c1, c2) j) (c1, c2)
        rw [← a3]; rfl)
  refine ⟨t, ht, h1, h2, fun p hp => ?_⟩
  rw [h4 p hp, if_pos (Nat.mod_lt _ hl1)]

theorem stageBody_spec {K : Type} [Field K] (sqrt : K → K) (fuel : Nat) (dir : Int)
    (m l : Nat) (A0 : Nat → K × K) (s : StageState K) (hl : l < m) (hf : 2 ^ m < fuel)
    (hre : s.re.length = 2 ^ m) (him : s.im.length = 2 ^ m) (hl2 : s.l2 = 2 ^ l)
    (hc : (s.c1, s.c2) = stageC sqrt dir l)
    (hv : ∀ p, p < 2 ^ m → cview s.re s.im p = stagesPure sqrt dir l A0 p) :
    ∃ s', stageBody sqrt fuel dir (2 ^ m) l s = some s' ∧
      s'.re.length = 2 ^ m ∧ s'.im.length = 2 ^ m ∧ s'.l2 = 2 ^ (l + 1) ∧
      (s'.c1, s'.c2) = stageC sqrt dir (l + 1) ∧
      ∀ p, p < 2 ^ m → cview s'.re s'.im p = stagesPure sqrt dir (l + 1) A0 p := by
  have hpos : 0 < 2 ^ l := Nat.two_pow_pos l
  have hn : 2 ^ m = 2 ^ l * (2 * 2 ^ (m - l - 1)) := by
    have e : m = l + (m - l - 1 + 1) := by omega
    calc 2 ^ m = 2 ^ (l + (m - l - 1 + 1)) := by rw [← e]
      _ = 2 ^ l * (2 * 2 ^ (m - l - 1)) := by rw [pow_add, pow_succ]; ring
  have hshift : (2 ^ l) <<< 1 = 2 ^ l * 2 := by
    rw [Nat.shiftLeft_eq, pow_one]
  obtain ⟨t, e1, e2, e3, e4⟩ := twiddleLoop_spec (2 ^ l) (2 ^ l * 2) (2 ^ (m - l - 1)) (2 ^ m)
    fuel s.c1 s.c2 s.re s.im hpos hn rfl hre him hf
  have hc1 : s.c1 = (stageC sqrt dir l).1 := by rw [← hc]
  refine ⟨{ re := t.re, im := t.im, c1 := sqrt ((1 + s.c1) / 2),
            c2 := if dir = 1 then -sqrt ((1 - s.c1) / 2) else sqrt ((1 - s.c1) / 2),
            l2 := 2 ^ l * 2 }, ?_, e2, e3, by rw [pow_succ], ?_, fun p hp => ?_⟩
  · simp only [stageBody, hl2, hshift, e1, Option.some_bind]
  · show (_, _) = stageC sqrt dir (l + 1)
    simp only [stageC, hc1]
  · rw [e4 p hp]
    show _ = stagePure (2 ^ l) (twPow (stageC sqrt dir l)) (stagesPure sqrt dir l A0) p
    rw [hc]
    exact stagePure_congr (2 ^ l) (2 ^ (m - l - 1)) (2 ^ m) _ _ _ hpos hn hv p hp

theorem butterflies_spec {K : Type} [Field K] (sqrt : K → K) (fuel : Nat) (dir : Int)
    (m : Nat) (A0 : Nat → K × K) (re im : List K) (hf : 2 ^ m < fuel)
    (hre : re.length = 2 ^ m) (him : im.length = 2 ^ m)
    (hv : ∀ p, p < 2 ^ m → cview re im p = A0 p) :
    ∃ re' im', butterflies sqrt fuel dir m (2 ^ m) re im = some (re', im') ∧
      re'.length = 2 ^ m ∧ im'.length = 2 ^ m ∧
      ∀ p, p < 2 ^ m → cview re' im' p = stagesPure sqrt dir m A0 p := by
  obtain ⟨s', h1, h2, h3, _, _, h6⟩ := forLoop_spec (stageBody sqrt fuel dir (2 ^ m))
    (fun l (s : StageState K) => s.re.length = 2 ^ m ∧ s.im.length = 2 ^ m ∧ s.l2 = 2 ^ l ∧
      (s.c1, s.c2) = stageC sqrt dir l ∧
      ∀ p, p < 2 ^ m → cview s.re s.im p = stagesPure sqrt dir l A0 p)
    0 m { re := re, im := im, c1 := -1, c2 := 0, l2 := 1 } (Nat.zero_le _)
    ⟨hre, him, rfl, rfl, hv⟩
    (fun l s _ hl ⟨a1, a2, a3, a4, a5⟩ =>
      stageBody_spec sqrt fuel dir m l A0 s hl hf a1 a2 a3 a4 a5)
  exact ⟨s'.re, s'.im, by simp only [butterflies, h1, Option.some_bind], h2, h3, h6⟩

theorem numPoints_spec (m : Nat) : forLoop 0 m (fun _ n => some (n * 2)) 1 = some (2 ^ m) := by
  obtain ⟨s', h1, h2⟩ := forLoop_spec (fun (_ : Nat) (n : Nat) => some (n * 2))
    (fun k n => n = 2 ^ k) 0 m 1 (Nat.zero_le _) rfl
    (fun k t _ _ ht => ⟨t * 2, rfl, by show t * 2 = 2 ^ (k + 1); rw [ht, pow_succ]⟩)
  rw [h1, h2]

theorem cview_of_getElem? {K : Type} [Field K] (re im re' im' : List K) (p q : Nat)
    (h1 : re'[p]? = re[q]?) (h2 : im'[p]? = im[q]?) :
    cview re' im' p = cview re im q := by
  simp only [cview, List.getD_eq_getElem?_getD, h1, h2]

theorem FFT_spec {K : Type} [Field K] (sqrt : K → K) (fuel : Nat) (dir : Int) (m : Nat)
    (re im : List K) (hre : re.length = 2 ^ m) (him : im.length = 2 ^ m)
    (hf : 2 ^ m < fuel) :
    ∃ re' im', FFT sqrt fuel dir m re im = some (re', im') ∧
      re'.length = 2 ^ m ∧ im'.length = 2 ^ m ∧
      ∀ p, p < 2 ^ m → cview re' im' p = fftPure sqrt dir m (cview re im) p := by
  have hm : m ≤ fuel := by
    have := Nat.lt_two_pow m
    omega
  obtain ⟨r1, r2, b1, b2, b3, b4, b5⟩ := bitReversal_spec m fuel re im hre him hm
  obtain ⟨re', im', c1, c2, c3, c4⟩ := butterflies_spec sqrt fuel dir m
    (fun p => cview re im (bitrev m p)) r1 r2 hf b2 b3
    (fun p hp => cview_of_getElem? re im r1 r2 p (bitrev m p) (b4 p hp) (b5 p hp))
  refine ⟨re', im', ?_, c2, c3, c4⟩
  simp only [FFT, numPoints_spec, Option.some_bind, b1, c1]

/-- C9: for arrays `re`, `im` of length `2^m` over any element type, the first phase of
`FFT` computes `n = 2^m` and its bit-reversal loop returns arrays of the same length in
which index `i` holds the original element of index `bitrev m i`, for both arrays alike;
`bitrev m i` is below `2^m` and its bit `b` is bit `m - 1 - b` of `i`. -/
theorem C9_bit_reversal_permutes_both_arrays {α : Type} (m fuel : Nat) (re im : List α)
    (hre : re.length = 2 ^ m) (him : im.length = 2 ^ m) (hf : m ≤ fuel) :
    forLoop 0 m (fun _ n => some (n * 2)) 1 = some (2 ^ m) ∧
    ∃ re' im', bitReversal fuel (2 ^ m) re im = some (re', im') ∧
      re'.length = 2 ^ m ∧ im'.length = 2 ^ m ∧
      (∀ i : Nat, i < 2 ^ m →
        bitrev m i < 2 ^ m ∧ re'[i]? = re[bitrev m i]? ∧ im'[i]? = im[bitrev m i]?) ∧
      (∀ i b : Nat, b < m → (bitrev m i).testBit b = i.testBit (m - 1 - b)) := by
  refine ⟨numPoints_spec m, ?_⟩
  obtain ⟨re', im', h1, h2, h3, h4, h5⟩ := bitReversal_spec m fuel re im hre him hf
  exact ⟨re', im', h1, h2, h3, fun i hi => ⟨bitrev_lt m i, h4 i hi, h5 i hi⟩,
    fun i b hb => bitrev_testBit m i b hb⟩

theorem C9_bit_reversal_permutes_both_arrays_witness :
    forLoop 0 3 (fun _ n => some (n * 2)) 1 = some (2 ^ 3) ∧
    ∃ re' im', bitReversal 3 (2 ^ 3) [10, 11, 12, 13, 14, 15, 16, 17]
        [20, 21, 22, 23, 24, 25, 26, 27] = some (re', im') ∧
      re'.length = 2 ^ 3 ∧ im'.length = 2 ^ 3 ∧
      (∀ i : Nat, i < 2 ^ 3 →
        bitrev 3 i < 2 ^ 3 ∧ re'[i]? = [10, 11, 12, 13, 14, 15, 16, 17][bitrev 3 i]? ∧
        im'[i]? = [20, 21, 22, 23, 24, 25, 26, 27][bitrev 3 i]?) ∧
      (∀ i b : Nat, b < 3 → (bitrev 3 i).testBit b = i.testBit (3 - 1 - b)) :=
  C9_bit_reversal_permutes_both_arrays 3 3 [10, 11, 12, 13, 14, 15, 16, 17]
    [20, 21, 22, 23, 24, 25, 26, 27] rfl rfl (Nat.le_refl 3)

/-! ## Phases of `FFT_GetFrequencyResponse` -/

theorem rd_nat_eq (a : List Nat) (i : Nat) (h : i < a.length) :
    rd a i = some (a.getD i 0) := by
  simp [rd, List.getD_eq_getElem?_getD, List.getElem?_eq_getElem h]

theorem forLoop_pointwise {K : Type} [Field K] (L lo hi : Nat)
    (body : Nat → List K → Option (List K)) (g : Nat → K → K) (hle : lo ≤ hi) (hhi : hi ≤ L)
    (hb : ∀ i a, lo ≤ i → i < hi → a.length = L →
      body i a = some (a.set i (g i (a.getD i 0))))
    (a : List K) (ha : a.length = L) :
    ∃ a', forLoop lo hi body a = some a' ∧ a'.length = L ∧
      ∀ p, a'.getD p 0 = if lo ≤ p ∧ p < hi then g p (a.getD p 0) else a.getD p 0 := by
  obtain ⟨a', h1, h2, h3⟩ := forLoop_spec body
    (fun k (s : List K) => s.length = L ∧
      ∀ p, s.getD p 0 = if lo ≤ p ∧ p < k then g p (a.getD p 0) else a.getD p 0)
    lo hi a hle ⟨ha, fun p => by rw [if_neg]; omega⟩
    (fun k s hk1 hk2 ⟨s1, s2⟩ => by
      refine ⟨_, hb k s hk1 hk2 s1, by simpa using s1, fun p => ?_⟩
      rw [getD_set _ _ _ _ (by omega)]
      by_cases hp : p = k
      · subst hp
        rw [if_pos rfl, if_pos (by omega), s2 p, if_neg (by omega)]
      · rw [if_neg hp, s2 p]
        by_cases hc : lo ≤ p ∧ p < k
        · rw [if_pos hc, if_pos (by omega)]
        · rw [if_neg hc, if_neg (by omega)])
  exact ⟨a', h1, h2, h3⟩

theorem gfrSnapshot_spec {K : Type} [Field K] (samples : List Nat) (a : List K)
    (hs : samples.length = FFT_SAMPLE_MAX) (ha : a.length = FFT_SAMPLE_MAX) :
    ∃ a', gfrSnapshot samples a = some a' ∧ a'.length = FFT_SAMPLE_MAX ∧
      ∀ p, p < FFT_SAMPLE_MAX → a'.getD p 0 = ((samples.getD p 0 : Nat) : K) := by
  obtain ⟨a', h1, h2, h3⟩ := forLoop_pointwise FFT_SAMPLE_MAX 0 FFT_SAMPLE_MAX
    (fun i a => (rd samples i).bind fun x => wr a i (x : K))
    (fun i _ => ((samples.getD i 0 : Nat) : K)) (Nat.zero_le _) (Nat.le_refl _)
    (fun i s _ hi hl => by
      simp only [rd_nat_eq samples i (by omega), Option.some_bind]
      exact wr_eq _ _ _ (by omega)) a ha
  exact ⟨a', h1, h2, fun p hp => by rw [h3 p, if_pos ⟨Nat.zero_le _, hp⟩]⟩

theorem gfrVoltages_spec {K : Type} [Field K] (window a : List K)
    (hw : window.length = FFT_SAMPLE_MAX) (ha : a.length = FFT_SAMPLE_MAX) :
    ∃ a', gfrVoltages window a = some a' ∧ a'.length = FFT_SAMPLE_MAX ∧
      ∀ p, p < FFT_SAMPLE_MAX →
        a'.getD p 0 = ((a.getD p 0 / (FFT_ADC_MAX : K)) * FFT_ADC_REFERENCE) * window.getD p 0 := by
  obtain ⟨a', h1, h2, h3⟩ := forLoop_pointwise FFT_SAMPLE_MAX 0 FFT_SAMPLE_MAX
    (fun i a =>
      (rd a i).bind fun x =>
      (wr a i ((x / (FFT_ADC_MAX : K)) * FFT_ADC_REFERENCE)).bind fun a1 =>
      (rd a1 i).bind fun y =>
      (rd window i).bind fun w =>
      wr a1 i (y * w))
    (fun i x => ((x / (FFT_ADC_MAX : K)) * FFT_ADC_REFERENCE) * window.getD i 0) (Nat.zero_le _)
    (Nat.le_refl _)
    (fun i s _ hi hl => by
      have hi' : i < s.length := by omega
      beta_reduce
      rw [rd_eq s i hi']
      simp only [Option.some_bind]
      rw [wr_eq _ _ _ hi']
      simp only [Option.some_bind]
      rw [rd_eq _ _ (by simpa using hi'), rd_eq window i (by omega)]
      simp only [Option.some_bind]
      rw [wr_eq _ _ _ (by simpa using hi'), getD_set _ _ _ _ hi', if_pos rfl, List.set_set])
    a ha
  exact ⟨a', h1, h2, fun p hp => by rw [h3 p, if_pos ⟨Nat.zero_le _, hp⟩]⟩

theorem gfrMagnitude_spec {K : Type} [Field K] (sqrt : K → K) (re im f : List K)
    (hre : re.length = FFT_SAMPLE_MAX) (him : im.length = FFT_SAMPLE_MAX)
    (hf : f.length = FFT_FREQUENCY_RESP_SIZE) :
    ∃ f', gfrMagnitude sqrt re im f = some f' ∧ f'.length = FFT_FREQUENCY_RESP_SIZE ∧
      ∀ p, p < FFT_FREQUENCY_RESP_SIZE →
        f'.getD p 0 = sqrt ((re.getD p 0 * re.getD p 0) + (im.getD p 0 * im.getD p 0))
          / (FFT_SAMPLE_MAX : K) := by
  have hsz : FFT_FREQUENCY_RESP_SIZE ≤ FFT_SAMPLE_MAX := by decide
  obtain ⟨f', h1, h2, h3⟩ := forLoop_pointwise FFT_FREQUENCY_RESP_SIZE 0
    FFT_FREQUENCY_RESP_SIZE
    (fun i f =>
      (rd re i).bind fun r =>
      (rd im i).bind fun x =>
      (wr f i (sqrt ((r * r) + (x * x)))).bind fun f1 =>
      (rd f1 i).bind fun v =>
      wr f1 i (v / (FFT_SAMPLE_MAX : K)))
    (fun i _ => sqrt ((re.getD i 0 * re.getD i 0) + (im.getD i 0 * im.getD i 0))
      / (FFT_SAMPLE_MAX : K)) (Nat.zero_le _) (Nat.le_refl _)
    (fun i s _ hi hl => by
      have hi' : i < s.length := by omega
      beta_reduce
      rw [rd_eq re i (by omega), rd_eq im i (by omega)]
      simp only [Option.some_bind]
      rw [wr_eq _ _ _ hi']
      simp only [Option.some_bind]
      rw [rd_eq _ _ (by simpa using hi')]
      simp only [Option.some_bind]
      rw [wr_eq _ _ _ (by simpa using hi'), getD_set _ _ _ _ hi', if_pos rfl, List.set_set])
    f hf
  exact ⟨f', h1, h2, fun p hp => by rw [h3 p, if_pos ⟨Nat.zero_le _, hp⟩]⟩

theorem gfrSingleSided_spec {K : Type} [Field K] (f : List K)
    (hf : f.length = FFT_FREQUENCY_RESP_SIZE) :
    ∃ f', gfrSingleSided f = some f' ∧ f'.length = FFT_FREQUENCY_RESP_SIZE ∧
      ∀ p, f'.getD p 0 =
        if 1 ≤ p ∧ p < FFT_FREQUENCY_RESP_SIZE - 1 then f.getD p 0 * 2 else f.getD p 0 := by
  have h1le : 1 ≤ FFT_FREQUENCY_RESP_SIZE - 1 := by decide
  exact forLoop_pointwise FFT_FREQUENCY_RESP_SIZE 1 (FFT_FREQUENCY_RESP_SIZE - 1)
    (fun i f => (rd f i).bind fun v => wr f i (v * 2))
    (fun _ v => v * 2) h1le (Nat.sub_le _ _)
    (fun i s _ hi hl => by
      have hi' : i < s.length := by omega
      beta_reduce
      rw [rd_eq s i hi']
      simp only [Option.some_bind]
      exact wr_eq _ _ _ hi') f hf

theorem gfrBands_spec {K : Type} [Field K] (epb : Nat) (freq out : List K)
    (hfreq : FFT_FREQ_BANDS * epb ≤ freq.length) (hout : FFT_FREQ_BANDS ≤ out.length) :
    ∃ out', gfrBands epb freq out = some out' ∧ out'.length = out.length ∧
      ∀ p, out'.getD p 0 =
        if p < FFT_FREQ_BANDS then ∑ e in Finset.range epb, freq.getD (e + p * epb) 0
        else out.getD p 0 := by
  obtain ⟨out', h1, h2, h3⟩ := forLoop_pointwise out.length 0 FFT_FREQ_BANDS
    (fun currentBand out =>
      (wr out currentBand 0).bind fun out0 =>
      forLoop 0 epb (fun currentElement o =>
        (rd o currentBand).bind fun acc =>
        (rd freq (currentElement + (currentBand * epb))).bind fun v =>
        wr o currentBand (acc + v)) out0)
    (fun b _ => ∑ e in Finset.range epb, freq.getD (e + b * epb) 0) (Nat.zero_le _) hout
    (fun b s _ hb hl => by
      have hb' : b < s.length := by omega
      beta_reduce
      rw [wr_eq _ _ _ hb']
      simp only [Option.some_bind]
      obtain ⟨o, e1, e2⟩ := forLoop_spec
        (fun currentElement (o : List K) =>
          (rd o b).bind fun acc =>
          (rd freq (currentElement + (b * epb))).bind fun v =>
          wr o b (acc + v))
        (fun e (o : List K) => o = s.set b (∑ e' in Finset.range e, freq.getD (e' + b * epb) 0))
        0 epb (s.set b 0) (Nat.zero_le _) (by simp)
        (fun e o _ he ho => by
          have hmul : (b + 1) * epb ≤ FFT_FREQ_BANDS * epb := Nat.mul_le_mul_right _ (by omega)
          have hexp : (b + 1) * epb = b * epb + epb := by ring
          have hidx : e + b * epb < freq.length := by omega
          have hbo : b < o.length := by rw [ho]; simpa using hb'
          have ho' : o = s.set b (∑ e' in Finset.range e, freq.getD (e' + b * epb) 0) := ho
          refine ⟨s.set b (∑ e' in Finset.range (e + 1), freq.getD (e' + b * epb) 0), ?_, rfl⟩
          beta_reduce
          rw [rd_eq o b hbo, rd_eq freq _ hidx]
          simp only [Option.some_bind]
          rw [wr_eq _ _ _ hbo, ho', getD_set _ _ _ _ hb', if_pos rfl, List.set_set,
            Finset.sum_range_succ])
      rw [e1, e2]) out rfl
  exact ⟨out', h1, h2, fun p => by rw [h3 p]; simp⟩

theorem FFT_SAMPLE_MAX_eq : FFT_SAMPLE_MAX = 2 ^ FFT_POWER_OF_TWO := by decide

theorem gfrRearm_eq {K : Type} (st : FFTState K) :
    gfrRearm st = { st with FFT_bufferReady := 0, adcIrqEnabled := true } := rfl

theorem gfrPrepare_spec {K : Type} [Field K] (st : FFTState K) (fr : StackFrame K)
    (hst : st.WF) (hfr : fr.WF) :
    ∃ vol, gfrPrepare st fr =
        some (gfrRearm st, vol, memsetZero fr.audioImag, memsetZero fr.freqResp) ∧
      vol.length = FFT_SAMPLE_MAX ∧
      ∀ p, p < FFT_SAMPLE_MAX →
        vol.getD p 0 = ((((st.FFT_AudioSamples.getD p 0 : Nat) : K) / (FFT_ADC_MAX : K)) * FFT_ADC_REFERENCE)
          * st.FFT_HammingWindow.getD p 0 := by
  obtain ⟨a, a1, a2, a3⟩ := gfrSnapshot_spec (K := K) st.FFT_AudioSamples fr.audioReal hst.1 hfr.1
  obtain ⟨v, v1, v2, v3⟩ := gfrVoltages_spec st.FFT_HammingWindow a hst.2.1 a2
  refine ⟨v, ?_, v2, fun p hp => by rw [v3 p hp, a3 p hp]⟩
  simp only [gfrPrepare, a1, Option.some_bind]
  have : (gfrRearm st).FFT_HammingWindow = st.FFT_HammingWindow := rfl
  rw [this, v1]
  simp only [Option.some_bind]

theorem gfrSpectrum_spec {K : Type} [Field K] (sqrt : K → K) (fuel : Nat)
    (st : FFTState K) (fr : StackFrame K)
    (hst : st.WF) (hfr : fr.WF) (hfuel : FFT_SAMPLE_MAX < fuel) :
    ∃ vol re' im' spec,
      gfrPrepare st fr =
        some (gfrRearm st, vol, memsetZero fr.audioImag, memsetZero fr.freqResp) ∧
      FFT sqrt fuel 1 FFT_POWER_OF_TWO vol (memsetZero fr.audioImag) = some (re', im') ∧
      gfrSpectrum sqrt fuel st fr = some (gfrRearm st, spec) ∧
      vol.length = FFT_SAMPLE_MAX ∧ re'.length = FFT_SAMPLE_MAX ∧
      im'.length = FFT_SAMPLE_MAX ∧ spec.length = FFT_FREQUENCY_RESP_SIZE ∧
      (∀ p, p < FFT_SAMPLE_MAX →
        vol.getD p 0 = ((((st.FFT_AudioSamples.getD p 0 : Nat) : K) / (FFT_ADC_MAX : K)) * FFT_ADC_REFERENCE)
          * st.FFT_HammingWindow.getD p 0) ∧
      (∀ p, p < FFT_SAMPLE_MAX → cview re' im' p =
        fftPure sqrt 1 FFT_POWER_OF_TWO (cview vol (memsetZero fr.audioImag)) p) ∧
      (∀ p, p < FFT_FREQUENCY_RESP_SIZE → spec.getD p 0 =
        if 1 ≤ p ∧ p < FFT_FREQUENCY_RESP_SIZE - 1 then
          sqrt ((re'.getD p 0 * re'.getD p 0) + (im'.getD p 0 * im'.getD p 0))
            / (FFT_SAMPLE_MAX : K) * 2
        else sqrt ((re'.getD p 0 * re'.getD p 0) + (im'.getD p 0 * im'.getD p 0))
            / (FFT_SAMPLE_MAX : K)) := by
  obtain ⟨vol, p1, p2, p3⟩ := gfrPrepare_spec st fr hst hfr
  have himag : (memsetZero fr.audioImag).length = 2 ^ FFT_POWER_OF_TWO := by
    rw [← FFT_SAMPLE_MAX_eq]; simp [memsetZero, hfr.2.1]
  have hresp : (memsetZero fr.freqResp).length = FFT_FREQUENCY_RESP_SIZE := by
    simp [memsetZero, hfr.2.2]
  obtain ⟨re', im', f1, f2, f3, f4⟩ := FFT_spec sqrt fuel 1 FFT_POWER_OF_TWO vol
    (memsetZero fr.audioImag) (by rw [← FFT_SAMPLE_MAX_eq]; exact p2) himag
    (by rw [← FFT_SAMPLE_MAX_eq]; exact hfuel)
  rw [← FFT_SAMPLE_MAX_eq] at f2 f3 f4
  obtain ⟨mag, m1, m2, m3⟩ := gfrMagnitude_spec sqrt re' im' (memsetZero fr.freqResp) f2 f3 hresp
  obtain ⟨spec, s1, s2, s3⟩ := gfrSingleSided_spec mag m2
  have hspec : gfrSpectrum sqrt fuel st fr = some (gfrRearm st, spec) := by
    simp only [gfrSpectrum, p1, Option.some_bind, f1, m1, s1]
  refine ⟨vol, re', im', spec, p1, f1, hspec, p2, f2, f3, s2, p3, f4, ?_⟩
  intro p hp
  rw [s3 p, m3 p hp]

theorem FFT_GetFrequencyResponse_ready {K : Type} [Field K] (sqrt : K → K) (fuel : Nat)
    (st st1 : FFTState K) (fr : StackFrame K) (out spec : List K)
    (hready : st.FFT_bufferReady = 1) (hspec : gfrSpectrum sqrt fuel st fr = some (st1, spec)) :
    FFT_GetFrequencyResponse sqrt fuel st fr out =
      (gfrBands st1.FFT_elementsPerBand spec out).bind fun o => some (st1, o) := by
  simp only [FFT_GetFrequencyResponse, hready, if_true, hspec, Option.some_bind]

theorem FFT_GetFrequencyResponse_spec {K : Type} [Field K] (sqrt : K → K) (fuel : Nat)
    (st : FFTState K) (fr : StackFrame K) (out : List K)
    (hst : st.WF) (hfr : fr.WF) (hready : st.FFT_bufferReady = 1)
    (hepb : FFT_FREQ_BANDS * st.FFT_elementsPerBand ≤ FFT_FREQUENCY_RESP_SIZE)
    (hout : FFT_FREQ_BANDS ≤ out.length) (hfuel : FFT_SAMPLE_MAX < fuel) :
    ∃ spec out',
      gfrSpectrum sqrt fuel st fr = some (gfrRearm st, spec) ∧
      gfrBands st.FFT_elementsPerBand spec out = some out' ∧
      FFT_GetFrequencyResponse sqrt fuel st fr out = some (gfrRearm st, out') ∧
      spec.length = FFT_FREQUENCY_RESP_SIZE ∧ out'.length = out.length ∧
      (∀ p, out'.getD p 0 =
        if p < FFT_FREQ_BANDS then
          ∑ e in Finset.range st.FFT_elementsPerBand,
            spec.getD (e + p * st.FFT_elementsPerBand) 0
        else out.getD p 0) := by
  obtain ⟨vol, re', im', spec, _, _, hspec, _, _, _, s2, _, _, _⟩ :=
    gfrSpectrum_spec sqrt fuel st fr hst hfr hfuel
  have hepb' : FFT_FREQ_BANDS * st.FFT_elementsPerBand ≤ spec.length := by
    rw [s2]; exact hepb
  obtain ⟨out', o1, o2, o3⟩ := gfrBands_spec st.FFT_elementsPerBand spec out hepb' hout
  refine ⟨spec, out', hspec, o1, ?_, s2, o2, o3⟩
  rw [FFT_GetFrequencyResponse_ready sqrt fuel st (gfrRearm st) fr out spec hready hspec]
  show (gfrBands st.FFT_elementsPerBand spec out).bind _ = _
  rw [o1]; rfl

/-! ## Initialisation and reachable states -/

theorem FFT_Initialize_spec {K : Type} [Field K] (cos : K → K) (st0 : FFTState K)
    (h0 : st0.WF) :
    ∃ st, FFT_Initialize cos st0 = some st ∧ st.WF ∧
      st.FFT_AudioSamples = List.replicate FFT_SAMPLE_MAX 0 ∧
      st.FFT_currentSample = 0 ∧ st.FFT_bufferReady = 0 ∧ st.FFT_elementsPerBand = 128 ∧
      st.adcIrqEnabled = st0.adcIrqEnabled ∧
      (∀ n, n < FFT_SAMPLE_MAX → st.FFT_HammingWindow.getD n 0 =
        0.54 - (0.46 * cos ((2.0 * FFT_PI * (n : K)) / ((FFT_SAMPLE_MAX : K) - 1.0)))) ∧
      (∀ b, b < FFT_FREQ_BANDS → st.FFT_Frequency_Bands.getD b 0 =
        (FFT_SAMPLING_FREQUENCY_HZ / (FFT_SAMPLE_MAX : K))
          * ((((128 : Nat) : K) / 2) + ((b : K) * ((128 : Nat) : K)))) := by
  obtain ⟨hs, hw, hb⟩ := h0
  obtain ⟨w, w1, w2, w3⟩ := forLoop_pointwise FFT_SAMPLE_MAX 0 FFT_SAMPLE_MAX
    (fun n (w : List K) =>
      let v := 0.54 - (0.46 * cos ((2.0 * FFT_PI * (n : K)) / ((FFT_SAMPLE_MAX : K) - 1.0)))
      wr w n v)
    (fun n _ => 0.54 - (0.46 * cos ((2.0 * FFT_PI * (n : K)) / ((FFT_SAMPLE_MAX : K) - 1.0))))
    (Nat.zero_le _) (Nat.le_refl _)
    (fun i s _ hi hl => wr_eq _ _ _ (by omega)) st0.FFT_HammingWindow hw
  have hepb : (FFT_FREQUENCY_RESP_SIZE / FFT_FREQ_BANDS) % 256 = 128 := by decide
  obtain ⟨b, b1, b2, b3⟩ := forLoop_pointwise FFT_FREQ_BANDS 0 FFT_FREQ_BANDS
    (fun currentBand (b : List K) =>
      wr b currentBand ((FFT_SAMPLING_FREQUENCY_HZ / (FFT_SAMPLE_MAX : K))
        * (((((FFT_FREQUENCY_RESP_SIZE / FFT_FREQ_BANDS) % 256 : Nat) : K) / 2)
          + ((currentBand : K) * (((FFT_FREQUENCY_RESP_SIZE / FFT_FREQ_BANDS) % 256 : Nat) : K)))))
    (fun currentBand _ => (FFT_SAMPLING_FREQUENCY_HZ / (FFT_SAMPLE_MAX : K))
        * (((((FFT_FREQUENCY_RESP_SIZE / FFT_FREQ_BANDS) % 256 : Nat) : K) / 2)
          + ((currentBand : K) * (((FFT_FREQUENCY_RESP_SIZE / FFT_FREQ_BANDS) % 256 : Nat) : K))))
    (Nat.zero_le _) (Nat.le_refl _)
    (fun i s _ hi hl => wr_eq _ _ _ (by omega)) st0.FFT_Frequency_Bands hb
  refine ⟨{ FFT_AudioSamples := memsetZero st0.FFT_AudioSamples, FFT_HammingWindow := w,
            FFT_Frequency_Bands := b,
            FFT_elementsPerBand := (FFT_FREQUENCY_RESP_SIZE / FFT_FREQ_BANDS) % 256,
            FFT_currentSample := 0, FFT_bufferReady := 0,
            adcIrqEnabled := st0.adcIrqEnabled }, ?_, ⟨?_, w2, b2⟩, ?_, rfl, rfl, hepb, rfl,
          fun n hn => by rw [w3 n, if_pos ⟨Nat.zero_le _, hn⟩], fun c hc => ?_⟩
  · simp only [FFT_Initialize, FFT_Initialize_Hamming, w1, Option.some_bind,
      FFT_Initialize_Frequency_Bands, b1]
  · simp [memsetZero, hs]
  · simp [memsetZero, hs]
  · show b.getD c 0 = _
    rw [b3 c, if_pos ⟨Nat.zero_le _, hc⟩, hepb]

theorem FFT_GetSample_ready {K : Type} (st : FFTState K) (sample : Nat)
    (hready : st.FFT_bufferReady ≠ 0) : FFT_GetSample st sample = some st := by
  have h : ¬ (0 = st.FFT_bufferReady) := fun e => hready e.symm
  simp [FFT_GetSample, h]

theorem FFT_GetFrequencyResponse_state {K : Type} [Field K] (sqrt : K → K) (fuel : Nat)
    (st st' : FFTState K) (fr : StackFrame K) (out out' : List K)
    (h : FFT_GetFrequencyResponse sqrt fuel st fr out = some (st', out')) :
    (st.FFT_bufferReady = 1 ∧ st' = gfrRearm st) ∨ (st.FFT_bufferReady ≠ 1 ∧ st' = st) := by
  by_cases hr : 1 = st.FFT_bufferReady
  · left
    refine ⟨hr.symm, ?_⟩
    simp only [FFT_GetFrequencyResponse, hr, if_true, gfrSpectrum, gfrPrepare] at h
    simp only [Option.bind_eq_some, Option.some.injEq, Prod.mk.injEq] at h
    obtain ⟨p, ⟨q, ⟨a, _, v, _, hq⟩, _, _, _, _, _, _, hp⟩, _, _, hst, _⟩ := h
    rw [← hst, ← hp, ← hq]
  · right
    simp only [FFT_GetFrequencyResponse, hr, if_false, Option.some.injEq, Prod.mk.injEq] at h
    exact ⟨fun e => hr e.symm, h.1.symm⟩

theorem StateInv_of_reachable {K : Type} [Field K] (cos sqrt : K → K) (st : FFTState K)
    (h : Reachable cos sqrt st) : StateInv st := by
  induction h with
  | init st0 st h0 hinit =>
    obtain ⟨st1, e, hwf, _, hc, hr, hepb, _, _, _⟩ := FFT_Initialize_spec cos st0 h0
    rw [hinit] at e
    cases e
    exact ⟨hwf, hepb, by rw [hc]; decide, Or.inl hr, fun h1 => by rw [hr] at h1; cases h1⟩
  | getSample st st' x _ hstep ih =>
    obtain ⟨hwf, hepb, hcur, hflag, himp⟩ := ih
    rcases hflag with h0 | h1
    · obtain ⟨st1, e, hbuf, hA, hB⟩ := FFT_GetSample_step st x hwf.1 h0 hcur
      rw [hstep] at e
      cases e
      have hfields : st'.FFT_HammingWindow = st.FFT_HammingWindow ∧
          st'.FFT_Frequency_Bands = st.FFT_Frequency_Bands ∧
          st'.FFT_elementsPerBand = st.FFT_elementsPerBand := by
        have := FFT_GetSample_filling st x hwf.1 h0 hcur
        rw [hstep] at this
        cases this
        split <;> exact ⟨rfl, rfl, rfl⟩
      refine ⟨⟨by rw [hbuf]; simpa using hwf.1, by rw [hfields.1]; exact hwf.2.1,
        by rw [hfields.2.1]; exact hwf.2.2⟩, by rw [hfields.2.2]; exact hepb, ?_, ?_, ?_⟩
      · by_cases hfull : st.FFT_currentSample + 1 = FFT_SAMPLE_MAX
        · rw [(hA hfull).2.1]; decide
        · rw [(hB hfull).2.1]; omega
      · by_cases hfull : st.FFT_currentSample + 1 = FFT_SAMPLE_MAX
        · exact Or.inr (hA hfull).1
        · exact Or.inl (hB hfull).1
      · intro hr
        by_cases hfull : st.FFT_currentSample + 1 = FFT_SAMPLE_MAX
        · exact (hA hfull).2
        · rw [(hB hfull).1] at hr; cases hr
    · have e := FFT_GetSample_ready st x (by rw [h1]; decide)
      rw [hstep] at e
      cases e
      exact ⟨hwf, hepb, hcur, Or.inr h1, himp⟩
  | setBufferAvailable st _ ih =>
    obtain ⟨hwf, hepb, hcur, _, _⟩ := ih
    exact ⟨hwf, hepb, hcur, Or.inl rfl, fun h1 => by cases h1⟩
  | getFrequencyResponse st st' fuel fr out out' _ hstep ih =>
    obtain ⟨hwf, hepb, hcur, hflag, himp⟩ := ih
    rcases FFT_GetFrequencyResponse_state sqrt fuel st st' fr out out' hstep with ⟨_, e⟩ | ⟨_, e⟩
    · rw [e]
      exact ⟨hwf, hepb, hcur, Or.inl rfl, fun h1 => by cases h1⟩
    · rw [e]
      exact ⟨hwf, hepb, hcur, hflag, himp⟩

/-! ## Claims on `FFT_GetFrequencyResponse` and the hand-over protocol -/

theorem ext_getD {K : Type} [Field K] (a b : List K) (hl : a.length = b.length)
    (h : ∀ p, a.getD p 0 = b.getD p 0) : a = b := by
  apply List.ext_getElem hl
  intro n h1 h2
  have := h n
  simp only [List.getD_eq_getElem?_getD, List.getElem?_eq_getElem h1,
    List.getElem?_eq_getElem h2, Option.getD_some] at this
  exact this

theorem Reachable_ingestAll {K : Type} [Field K] (cos sqrt : K → K) (xs : List Nat) :
    ∀ (st st' : FFTState K), Reachable cos sqrt st → ingestAll st xs = some st' →
      Reachable cos sqrt st' := by
  induction xs with
  | nil =>
    intro st st' h e
    simp only [ingestAll, List.foldlM, pure, Option.some.injEq] at e
    rw [← e]; exact h
  | cons x xs ih =>
    intro st st' h e
    simp only [ingestAll, List.foldlM, Option.bind_eq_bind, Option.bind_eq_some] at e
    obtain ⟨st1, e1, e2⟩ := e
    exact ih st1 st' (Reachable.getSample st st1 x h e1) e2

theorem zeroState_WF : zeroState.WF :=
  ⟨List.length_replicate 2048 0, List.length_replicate 2048 0, List.length_replicate 8 0⟩

theorem readyState_WF : readyState.WF :=
  ⟨List.length_replicate 2048 1024, List.length_replicate 2048 1, List.length_replicate 8 0⟩

theorem junkFrame_WF : junkFrame.WF :=
  ⟨List.length_replicate 2048 7, List.length_replicate 2048 8, List.length_replicate 1025 9⟩

theorem exists_reachable_ready :
    ∃ st : FFTState ℚ, Reachable (fun x => x) (fun x => x) st ∧ st.FFT_bufferReady ≠ 0 := by
  obtain ⟨st1, e1, hwf, _, hc, hr, _⟩ := FFT_Initialize_spec (fun x : ℚ => x) zeroState zeroState_WF
  have h1 : Reachable (fun x : ℚ => x) (fun x => x) st1 := Reachable.init zeroState st1 zeroState_WF e1
  obtain ⟨st2, e2, _, _, _, h5⟩ := ingestAll_spec (List.replicate 2048 5) st1 hwf.1 hr
    (by rw [hc, List.length_replicate]; decide)
  have h2 := Reachable_ingestAll _ _ _ st1 st2 h1 e2
  have hne : List.replicate 2048 5 ≠ [] := by
    intro e
    have := congrArg List.length e
    rw [List.length_replicate] at this
    cases this
  have := h5 (by rw [hc, List.length_replicate]; decide) hne
  exact ⟨st2, h2, by rw [this.1]; decide⟩

/-- C5: with the buffer ready (state of the declared sizes, 128 bins per band as set by
`FFT_Initialize`), `FFT_GetFrequencyResponse` returns, and entry `b` of the caller's array
is, for every band `b < 8`, the plain sum of the 128 single-sided magnitudes
`spec[128*b] .. spec[128*b+127]`; the band loop gives the same result on every spectrum
that agrees with `spec` on bins `0..1023`, so bin 1024 contributes to no band. -/
theorem C5_band_is_sum_of_128_bins {K : Type} [Field K] (sqrt : K → K) (fuel : Nat)
    (st : FFTState K) (fr : StackFrame K) (out : List K)
    (hst : st.WF) (hfr : fr.WF) (hready : st.FFT_bufferReady = 1)
    (hepb : st.FFT_elementsPerBand = 128)
    (hout : FFT_FREQ_BANDS ≤ out.length) (hfuel : FFT_SAMPLE_MAX < fuel) :
    ∃ st' spec out',
      gfrSpectrum sqrt fuel st fr = some (st', spec) ∧ spec.length = 1025 ∧
      FFT_GetFrequencyResponse sqrt fuel st fr out = some (st', out') ∧
      (∀ b : Nat, b < 8 →
        out'.getD b 0 = ∑ e in Finset.range 128, spec.getD (128 * b + e) 0) ∧
      (∀ spec2 : List K, spec2.length = 1025 →
        (∀ i : Nat, i < 1024 → spec2.getD i 0 = spec.getD i 0) →
        gfrBands st'.FFT_elementsPerBand spec2 out = some out') := by
  have h8 : FFT_FREQ_BANDS * st.FFT_elementsPerBand ≤ FFT_FREQUENCY_RESP_SIZE := by
    rw [hepb]; decide
  obtain ⟨spec, out', s1, s2, s3, s4, s5, s6⟩ :=
    FFT_GetFrequencyResponse_spec sqrt fuel st fr out hst hfr hready h8 hout hfuel
  rw [hepb] at s2 s6
  refine ⟨gfrRearm st, spec, out', s1, s4, s3, fun b hb => ?_, fun spec2 hl hagree => ?_⟩
  · have hb' : b < FFT_FREQ_BANDS := hb
    rw [s6 b, if_pos hb']
    apply Finset.sum_congr rfl
    intro e _
    congr 1; ring
  · show gfrBands st.FFT_elementsPerBand spec2 out = some out'
    rw [hepb]
    obtain ⟨o2, t1, t2, t3⟩ := gfrBands_spec 128 spec2 out (by rw [hl]; decide) hout
    rw [t1]
    congr 1
    apply ext_getD _ _ (by rw [t2, s5])
    intro p
    rw [t3 p, s6 p]
    by_cases hp : p < FFT_FREQ_BANDS
    · rw [if_pos hp, if_pos hp]
      apply Finset.sum_congr rfl
      intro e he
      have he' : e < 128 := Finset.mem_range.mp he
      have hp' : p < 8 := hp
      exact hagree _ (by omega)
    · rw [if_neg hp, if_neg hp]

theorem C5_band_is_sum_of_128_bins_witness :
    ∃ st' spec out',
      gfrSpectrum (fun x : ℚ => x) 2049 readyState junkFrame = some (st', spec) ∧
      spec.length = 1025 ∧
      FFT_GetFrequencyResponse (fun x : ℚ => x) 2049 readyState junkFrame
        [1, 2, 3, 4, 5, 6, 7, 8] = some (st', out') ∧
      (∀ b : Nat, b < 8 →
        out'.getD b 0 = ∑ e in Finset.range 128, spec.getD (128 * b + e) 0) ∧
      (∀ spec2 : List ℚ, spec2.length = 1025 →
        (∀ i : Nat, i < 1024 → spec2.getD i 0 = spec.getD i 0) →
        gfrBands st'.FFT_elementsPerBand spec2 [1, 2, 3, 4, 5, 6, 7, 8] = some out') :=
  C5_band_is_sum_of_128_bins (fun x : ℚ => x) 2049 readyState junkFrame
    [1, 2, 3, 4, 5, 6, 7, 8] readyState_WF junkFrame_WF rfl rfl (by decide) (by decide)

/-- C6: with the buffer ready, `FFT_GetFrequencyResponse` runs `FFT` on the prepared block
and for every bin `i` in `0..1024` the single-sided magnitude it computes is
`sqrt(re[i]*re[i] + im[i]*im[i]) / 2048`, times 2 exactly when `1 ≤ i ≤ 1023`; `re`, `im`
are the arrays left by `FFT`, and the band loop runs on exactly this spectrum. -/
theorem C6_single_sided_magnitude {K : Type} [Field K] (sqrt : K → K) (fuel : Nat)
    (st : FFTState K) (fr : StackFrame K)
    (hst : st.WF) (hfr : fr.WF) (hready : st.FFT_bufferReady = 1)
    (hfuel : FFT_SAMPLE_MAX < fuel) :
    ∃ st1 vol imag resp re' im' spec,
      gfrPrepare st fr = some (st1, vol, imag, resp) ∧
      FFT sqrt fuel 1 FFT_POWER_OF_TWO vol imag = some (re', im') ∧
      gfrSpectrum sqrt fuel st fr = some (st1, spec) ∧
      (∀ out : List K, FFT_GetFrequencyResponse sqrt fuel st fr out =
        (gfrBands st1.FFT_elementsPerBand spec out).bind fun o => some (st1, o)) ∧
      ∀ i : Nat, i ≤ 1024 → spec.getD i 0 =
        if 1 ≤ i ∧ i ≤ 1023 then
          sqrt ((re'.getD i 0 * re'.getD i 0) + (im'.getD i 0 * im'.getD i 0))
            / (FFT_SAMPLE_MAX : K) * 2
        else sqrt ((re'.getD i 0 * re'.getD i 0) + (im'.getD i 0 * im'.getD i 0))
            / (FFT_SAMPLE_MAX : K) := by
  obtain ⟨vol, re', im', spec, p1, f1, hspec, _, _, _, _, _, _, hs⟩ :=
    gfrSpectrum_spec sqrt fuel st fr hst hfr hfuel
  refine ⟨_, vol, _, _, re', im', spec, p1, f1, hspec,
    fun out => FFT_GetFrequencyResponse_ready sqrt fuel st _ fr out spec hready hspec,
    fun i hi => ?_⟩
  have hsz : FFT_FREQUENCY_RESP_SIZE = 1025 := by decide
  rw [hs i (by rw [hsz]; omega), hsz]
  by_cases hc : 1 ≤ i ∧ i ≤ 1023
  · rw [if_pos hc, if_pos (by omega)]
  · rw [if_neg hc, if_neg (by omega)]

theorem C6_single_sided_magnitude_witness :
    ∃ st1 vol imag resp re' im' spec,
      gfrPrepare readyState junkFrame = some (st1, vol, imag, resp) ∧
      FFT (fun x : ℚ => x) 2049 1 FFT_POWER_OF_TWO vol imag = some (re', im') ∧
      gfrSpectrum (fun x : ℚ => x) 2049 readyState junkFrame = some (st1, spec) ∧
      (∀ out : List ℚ, FFT_GetFrequencyResponse (fun x : ℚ => x) 2049 readyState junkFrame out =
        (gfrBands st1.FFT_elementsPerBand spec out).bind fun o => some (st1, o)) ∧
      ∀ i : Nat, i ≤ 1024 → spec.getD i 0 =
        if 1 ≤ i ∧ i ≤ 1023 then
          (fun x : ℚ => x) ((re'.getD i 0 * re'.getD i 0) + (im'.getD i 0 * im'.getD i 0))
            / (FFT_SAMPLE_MAX : ℚ) * 2
        else (fun x : ℚ => x) ((re'.getD i 0 * re'.getD i 0) + (im'.getD i 0 * im'.getD i 0))
            / (FFT_SAMPLE_MAX : ℚ) :=
  C6_single_sided_magnitude (fun x : ℚ => x) 2049 readyState junkFrame
    readyState_WF junkFrame_WF rfl (by decide)

/-- C7: in every reachable state whose ready flag is set, `FFT_GetFrequencyResponse`
returns, and it ends with the ready flag cleared, the write cursor at 0 and the ADC
interrupt enabled, the 2048 stored samples being unchanged. -/
theorem C7_snapshot_and_rearm {K : Type} [Field K] (cos sqrt : K → K) (fuel : Nat)
    (st : FFTState K) (fr : StackFrame K) (out : List K)
    (hreach : Reachable cos sqrt st) (hfr : fr.WF) (hready : st.FFT_bufferReady ≠ 0)
    (hout : FFT_FREQ_BANDS ≤ out.length) (hfuel : FFT_SAMPLE_MAX < fuel) :
    ∃ st' out', FFT_GetFrequencyResponse sqrt fuel st fr out = some (st', out') ∧
      st'.FFT_bufferReady = 0 ∧ st'.FFT_currentSample = 0 ∧ st'.adcIrqEnabled = true ∧
      st'.FFT_AudioSamples = st.FFT_AudioSamples ∧
      st'.FFT_AudioSamples.length = FFT_SAMPLE_MAX := by
  obtain ⟨hwf, hepb, _, hflag, himp⟩ := StateInv_of_reachable cos sqrt st hreach
  have h1 : st.FFT_bufferReady = 1 := by
    rcases hflag with h | h
    · exact absurd h hready
    · exact h
  obtain ⟨spec, out', _, _, s3, _, _, _⟩ :=
    FFT_GetFrequencyResponse_spec sqrt fuel st fr out hwf hfr h1 (by rw [hepb]; decide) hout hfuel
  exact ⟨gfrRearm st, out', s3, rfl, (himp h1).1, rfl, rfl, hwf.1⟩

theorem C7_snapshot_and_rearm_witness :
    ∃ st : FFTState ℚ, Reachable (fun x => x) (fun x => x) st ∧ st.FFT_bufferReady ≠ 0 ∧
      ∃ st' out', FFT_GetFrequencyResponse (fun x => x) 2049 st junkFrame
          [1, 2, 3, 4, 5, 6, 7, 8] = some (st', out') ∧
        st'.FFT_bufferReady = 0 ∧ st'.FFT_currentSample = 0 ∧ st'.adcIrqEnabled = true ∧
        st'.FFT_AudioSamples = st.FFT_AudioSamples ∧
        st'.FFT_AudioSamples.length = FFT_SAMPLE_MAX :=
  exists_reachable_ready.elim fun st h =>
    ⟨st, h.1, h.2, C7_snapshot_and_rearm (fun x => x) (fun x => x) 2049 st junkFrame
      [1, 2, 3, 4, 5, 6, 7, 8] h.1 junkFrame_WF h.2 (by decide) (by decide)⟩

/-- C8: in every reachable state a set ready flag implies that the ADC interrupt is
disabled. The `FFT_GetSample` call that sets the flag leaves the interrupt disabled; and
along the statements of `FFT_SetBufferAvailable` and of the re-arm in
`FFT_GetFrequencyResponse` (disable, clear the flag, enable, enable) the interrupt is
enabled only in states whose flag is already cleared. -/
theorem C8_ready_implies_adc_irq_disabled {K : Type} [Field K] (cos sqrt : K → K)
    (st : FFTState K) (hreach : Reachable cos sqrt st) :
    (st.FFT_bufferReady ≠ 0 → st.adcIrqEnabled = false) ∧
    (∀ (sample : Nat) (st' : FFTState K), st.FFT_bufferReady = 0 →
      FFT_GetSample st sample = some st' → st'.FFT_bufferReady ≠ 0 →
      st'.adcIrqEnabled = false) ∧
    ((INT_SYS_DisableIRQ st).adcIrqEnabled = false ∧
      ({ INT_SYS_DisableIRQ st with FFT_bufferReady := 0 } : FFTState K).adcIrqEnabled = false ∧
      ({ INT_SYS_DisableIRQ st with FFT_bufferReady := 0 } : FFTState K).FFT_bufferReady = 0 ∧
      FFT_SetBufferAvailable st =
        INT_SYS_EnableIRQ { INT_SYS_DisableIRQ st with FFT_bufferReady := 0 } ∧
      (FFT_SetBufferAvailable st).FFT_bufferReady = 0 ∧
      (FFT_SetBufferAvailable st).adcIrqEnabled = true ∧
      (gfrRearm st).FFT_bufferReady = 0 ∧ (gfrRearm st).adcIrqEnabled = true) ∧
    (∀ (fuel : Nat) (fr : StackFrame K) (out out' : List K) (st' : FFTState K),
      FFT_GetFrequencyResponse sqrt fuel st fr out = some (st', out') →
      st'.adcIrqEnabled = true → st'.FFT_bufferReady = 0) := by
  have hinv := StateInv_of_reachable cos sqrt st hreach
  obtain ⟨_, _, _, hflag, himp⟩ := hinv
  have hmain : ∀ s : FFTState K, Reachable cos sqrt s →
      s.FFT_bufferReady ≠ 0 → s.adcIrqEnabled = false := by
    intro s hs hne
    obtain ⟨_, _, _, hf, hi⟩ := StateInv_of_reachable cos sqrt s hs
    rcases hf with h | h
    · exact absurd h hne
    · exact (hi h).2
  refine ⟨hmain st hreach, ?_, ⟨rfl, rfl, rfl, rfl, rfl, rfl, rfl, rfl⟩, ?_⟩
  · intro x st' _ hstep hne
    exact hmain st' (Reachable.getSample st st' x hreach hstep) hne
  · intro fuel fr out out' st' hstep hirq
    have hr' := Reachable.getFrequencyResponse st st' fuel fr out out' hreach hstep
    by_contra hne
    have := hmain st' hr' hne
    rw [this] at hirq
    cases hirq

theorem C8_ready_implies_adc_irq_disabled_witness :
    ∃ st : FFTState ℚ, Reachable (fun x => x) (fun x => x) st ∧ st.FFT_bufferReady ≠ 0 ∧
      st.adcIrqEnabled = false :=
  exists_reachable_ready.elim fun st h =>
    ⟨st, h.1, h.2, (C8_ready_implies_adc_irq_disabled (fun x => x) (fun x => x) st h.1).1 h.2⟩

/-! ## The transform over the real numbers computes the discrete Fourier transform -/

theorem toC_add (a b : ℝ × ℝ) : toC (a + b) = toC a + toC b := by
  apply Complex.ext <;> simp [toC]

theorem toC_sub (a b : ℝ × ℝ) : toC (a - b) = toC a - toC b := by
  apply Complex.ext <;> simp [toC]

theorem toC_cmul (u z : ℝ × ℝ) : toC (cmul u z) = toC u * toC z := by
  apply Complex.ext <;> simp [toC, cmul]

theorem toC_twPow (c : ℝ × ℝ) (j : Nat) : toC (twPow c j) = toC c ^ j := by
  induction j with
  | zero => apply Complex.ext <;> simp [toC, twPow]
  | succ j ih => rw [twPow, toC_cmul, ih, pow_succ]

theorem stageC_real (dir : Int) (l : Nat) :
    stageC Real.sqrt dir l =
      (Real.cos (Real.pi / 2 ^ l),
        if dir = 1 then -Real.sin (Real.pi / 2 ^ l) else Real.sin (Real.pi / 2 ^ l)) := by
  induction l with
  | zero => simp [stageC]
  | succ l ih =>
    have hpos : (0 : ℝ) < 2 ^ l := by positivity
    have h0 : 0 ≤ Real.pi / 2 ^ l := by positivity
    have h1 : Real.pi / 2 ^ l ≤ Real.pi := by
      apply div_le_self Real.pi_pos.le
      exact one_le_pow₀ (by norm_num)
    have hhalf : Real.pi / 2 ^ (l + 1) = (Real.pi / 2 ^ l) / 2 := by
      rw [pow_succ]; field_simp
    have hc := Real.cos_half (x := Real.pi / 2 ^ l) (by linarith [Real.pi_pos]) h1
    have hs := Real.sin_half_eq_sqrt (x := Real.pi / 2 ^ l) h0 (by linarith [Real.pi_pos])
    simp only [stageC, ih]
    rw [hhalf, hc, hs]

theorem sum_range_even_odd (L : Nat) (f : Nat → ℂ) :
    ∑ s in Finset.range (2 * L), f s =
      ∑ t in Finset.range L, f (2 * t) + ∑ t in Finset.range L, f (2 * t + 1) := by
  induction L with
  | zero => simp
  | succ L ih =>
    have : 2 * (L + 1) = 2 * L + 1 + 1 := by ring
    rw [this, Finset.sum_range_succ, Finset.sum_range_succ, ih, Finset.sum_range_succ,
      Finset.sum_range_succ]
    ring

theorem root_facts (W R : Nat → ℂ) (hW0 : W 0 = -1) (hWsq : ∀ l, W (l + 1) ^ 2 = W l)
    (hR0 : R 0 = 1) (hRs : ∀ l, R (l + 1) = W l) :
    (∀ l, W l ^ (2 ^ l) = -1) ∧ (∀ l, R (l + 1) ^ 2 = R l) ∧ (∀ l, R l ^ (2 ^ l) = 1) := by
  have h1 : ∀ l, W l ^ (2 ^ l) = -1 := by
    intro l
    induction l with
    | zero => simp [hW0]
    | succ l ih => rw [pow_succ', pow_mul, hWsq, ih]
  have h2 : ∀ l, R (l + 1) ^ 2 = R l := by
    intro l
    cases l with
    | zero => rw [hRs, hW0, hR0]; norm_num
    | succ l => rw [hRs, hWsq, hRs]
  refine ⟨h1, h2, fun l => ?_⟩
  cases l with
  | zero => simp [hR0]
  | succ l => rw [hRs, pow_succ, pow_mul, h1]; norm_num

theorem stagesPure_dft (dir : Int) (W R x : Nat → ℂ) (A0 : Nat → ℝ × ℝ) (m : Nat)
    (hW : ∀ l, toC (stageC Real.sqrt dir l) = W l)
    (hW0 : W 0 = -1) (hWsq : ∀ l, W (l + 1) ^ 2 = W l)
    (hR0 : R 0 = 1) (hRs : ∀ l, R (l + 1) = W l) :
    ∀ l d, l + d = m → (∀ p, p < 2 ^ m → toC (A0 p) = x (bitrev m p)) →
      ∀ b k, b < 2 ^ d → k < 2 ^ l →
        toC (stagesPure Real.sqrt dir l A0 (2 ^ l * b + k)) =
          ∑ t in Finset.range (2 ^ l), x (bitrev d b + 2 ^ d * t) * R l ^ (k * t) := by
  obtain ⟨hWL, hRsq, hRL⟩ := root_facts W R hW0 hWsq hR0 hRs
  intro l
  induction l with
  | zero =>
    intro d hd hA b k hb hk
    have hk0 : k = 0 := by simpa using hk
    have hdm : d = m := by omega
    subst hk0; subst hdm
    simp [stagesPure, hA b hb]
  | succ l ih =>
    intro d hd hA b k' hb hk'
    have hIH := ih (d + 1) (by omega) hA
    have h2b : 2 * b < 2 ^ (d + 1) := by rw [pow_succ]; omega
    have h2b1 : 2 * b + 1 < 2 ^ (d + 1) := by rw [pow_succ]; omega
    have hrev0 : bitrev (d + 1) (2 * b) = bitrev d b := by
      have e1 : 2 * b % 2 = 0 := by omega
      have e2 : 2 * b / 2 = b := by omega
      simp only [bitrev, e1, e2]; omega
    have hrev1 : bitrev (d + 1) (2 * b + 1) = 2 ^ d + bitrev d b := by
      have e1 : (2 * b + 1) % 2 = 1 := by omega
      have e2 : (2 * b + 1) / 2 = b := by omega
      simp only [bitrev, e1, e2]; omega
    have hsplit : (2 : Nat) ^ (l + 1) = 2 * 2 ^ l := by rw [pow_succ]; ring
    -- the two halves of the size-`2^(l+1)` transform
    have hE : ∀ k, k < 2 ^ l →
        toC (stagesPure Real.sqrt dir l A0 (2 ^ l * (2 * b) + k)) =
          ∑ t in Finset.range (2 ^ l), x (bitrev d b + 2 ^ d * (2 * t)) * R l ^ (k * t) := by
      intro k hk
      rw [hIH (2 * b) k h2b hk, hrev0]
      apply Finset.sum_congr rfl
      intro t _
      congr 2
      rw [pow_succ]; ring
    have hO : ∀ k, k < 2 ^ l →
        toC (stagesPure Real.sqrt dir l A0 (2 ^ l * (2 * b) + k + 2 ^ l)) =
          ∑ t in Finset.range (2 ^ l), x (bitrev d b + 2 ^ d * (2 * t + 1)) * R l ^ (k * t) := by
      intro k hk
      have e : 2 ^ l * (2 * b) + k + 2 ^ l = 2 ^ l * (2 * b + 1) + k := by ring
      rw [e, hIH (2 * b + 1) k h2b1 hk, hrev1]
      apply Finset.sum_congr rfl
      intro t _
      congr 2
      rw [pow_succ]; ring
    rw [hsplit, sum_range_even_odd]
    show toC (stagePure (2 ^ l) (twPow (stageC Real.sqrt dir l))
      (stagesPure Real.sqrt dir l A0) (2 * 2 ^ l * b + k')) = _
    by_cases hlow : k' < 2 ^ l
    · have eidx : 2 * 2 ^ l * b + k' = 2 ^ l * (2 * b) + k' := by ring
      rw [eidx, stagePure_upper _ _ _ _ _ hlow, toC_add, toC_cmul, toC_twPow, hW,
        hE k' hlow, hO k' hlow, Finset.mul_sum]
      congr 1
      · apply Finset.sum_congr rfl
        intro t _
        congr 1
        rw [← hRsq l, ← pow_mul]; congr 1; ring
      · apply Finset.sum_congr rfl
        intro t _
        rw [← hRsq l, hRs l, ← pow_mul]
        have : k' * (2 * t + 1) = k' + 2 * (k' * t) := by ring
        rw [this, pow_add]; ring
    · have hk : k' - 2 ^ l < 2 ^ l := by omega
      have eidx : 2 * 2 ^ l * b + k' = 2 ^ l * (2 * b) + (k' - 2 ^ l) + 2 ^ l := by
        have : k' = (k' - 2 ^ l) + 2 ^ l := by omega
        rw [this, Nat.add_sub_cancel]; ring
      have ek : k' = 2 ^ l + (k' - 2 ^ l) := by omega
      rw [eidx, stagePure_lower _ _ _ _ _ hk, toC_sub, toC_cmul, toC_twPow, hW,
        hE _ hk, hO _ hk, Finset.mul_sum, sub_eq_add_neg, ← Finset.sum_neg_distrib]
      generalize k' - 2 ^ l = k at ek hk
      subst ek
      congr 1
      · apply Finset.sum_congr rfl
        intro t _
        congr 1
        rw [← hRsq l, ← pow_mul]
        have : (2 ^ l + k) * (2 * t) = 2 ^ (l + 1) * t + 2 * (k * t) := by
          rw [pow_succ]; ring
        rw [this, pow_add, pow_mul (R (l + 1)) (2 ^ (l + 1)), hRL (l + 1), one_pow, one_mul]
      · apply Finset.sum_congr rfl
        intro t _
        rw [← hRsq l, hRs l, ← pow_mul]
        have : (2 ^ l + k) * (2 * t + 1) = 2 ^ l * (2 * t + 1) + (k + 2 * (k * t)) := by ring
        have hodd : ((-1 : ℂ)) ^ (2 * t + 1) = -1 := by
          rw [pow_succ, pow_mul]; norm_num
        rw [this, pow_add, pow_mul (W l) (2 ^ l), hWL l, hodd, pow_add]
        ring

theorem FFT_real_dft (fuel : Nat) (dir : Int) (σ : ℝ) (m : Nat) (re im : List ℝ)
    (hσ : σ = if dir = 1 then -1 else 1)
    (hre : re.length = 2 ^ m) (him : im.length = 2 ^ m) (hf : 2 ^ m < fuel) :
    ∃ re' im', FFT Real.sqrt fuel dir m re im = some (re', im') ∧
      re'.length = 2 ^ m ∧ im'.length = 2 ^ m ∧
      ∀ k, k < 2 ^ m → (⟨re'.getD k 0, im'.getD k 0⟩ : ℂ) =
        ∑ n in Finset.range (2 ^ m), (⟨re.getD n 0, im.getD n 0⟩ : ℂ) *
          Complex.exp (σ * 2 * Real.pi * Complex.I * k * n / 2 ^ m) := by
  obtain ⟨re', im', h1, h2, h3, h4⟩ := FFT_spec Real.sqrt fuel dir m re im hre him hf
  refine ⟨re', im', h1, h2, h3, fun k hk => ?_⟩
  have hσ2 : σ = 1 ∨ σ = -1 := by
    rw [hσ]; split
    · exact Or.inr rfl
    · exact Or.inl rfl
  have hW : ∀ l, toC (stageC Real.sqrt dir l) =
      Complex.exp (((σ * (Real.pi / 2 ^ l) : ℝ) : ℂ) * Complex.I) := by
    intro l
    rw [stageC_real]
    apply Complex.ext
    · rw [Complex.exp_ofReal_mul_I_re]
      rcases hσ2 with h | h <;> simp [toC, h]
    · rw [Complex.exp_ofReal_mul_I_im, hσ]
      by_cases hd : dir = 1 <;> simp [toC, hd]
  have hW0 : Complex.exp (((σ * (Real.pi / 2 ^ 0) : ℝ) : ℂ) * Complex.I) = -1 := by
    rcases hσ2 with h | h
    · simp [h, Complex.exp_pi_mul_I]
    · rw [h]
      have : (((-1 * (Real.pi / 2 ^ 0) : ℝ) : ℂ) * Complex.I) = -(Real.pi * Complex.I) := by
        push_cast; ring
      rw [this, Complex.exp_neg, Complex.exp_pi_mul_I]; norm_num
  have hWsq : ∀ l, Complex.exp (((σ * (Real.pi / 2 ^ (l + 1)) : ℝ) : ℂ) * Complex.I) ^ 2 =
      Complex.exp (((σ * (Real.pi / 2 ^ l) : ℝ) : ℂ) * Complex.I) := by
    intro l
    rw [← Complex.exp_nat_mul]
    congr 1
    push_cast
    rw [pow_succ]; field_simp; ring
  have hR0 : Complex.exp (((σ * (2 * Real.pi / 2 ^ 0) : ℝ) : ℂ) * Complex.I) = 1 := by
    rcases hσ2 with h | h
    · have : (((σ * (2 * Real.pi / 2 ^ 0) : ℝ) : ℂ) * Complex.I) = 2 * Real.pi * Complex.I := by
        rw [h]; push_cast; ring
      rw [this, Complex.exp_two_pi_mul_I]
    · have : (((σ * (2 * Real.pi / 2 ^ 0) : ℝ) : ℂ) * Complex.I) =
          -(2 * Real.pi * Complex.I) := by
        rw [h]; push_cast; ring
      rw [this, Complex.exp_neg, Complex.exp_two_pi_mul_I]; norm_num
  have hRs : ∀ l, Complex.exp (((σ * (2 * Real.pi / 2 ^ (l + 1)) : ℝ) : ℂ) * Complex.I) =
      Complex.exp (((σ * (Real.pi / 2 ^ l) : ℝ) : ℂ) * Complex.I) := by
    intro l
    congr 2
    rw [pow_succ]; field_simp; ring
  have hmain := stagesPure_dft dir
    (fun l => Complex.exp (((σ * (Real.pi / 2 ^ l) : ℝ) : ℂ) * Complex.I))
    (fun l => Complex.exp (((σ * (2 * Real.pi / 2 ^ l) : ℝ) : ℂ) * Complex.I))
    (fun n => toC (cview re im n)) (fun p => cview re im (bitrev m p)) m
    hW hW0 hWsq hR0 hRs m 0 (by omega) (fun p _ => rfl) 0 k (by simp) hk
  have hidx : 2 ^ m * 0 + k = k := by ring
  rw [hidx] at hmain
  have hview : (⟨re'.getD k 0, im'.getD k 0⟩ : ℂ) = toC (cview re' im' k) := rfl
  rw [hview, h4 k hk]
  show toC (stagesPure Real.sqrt dir m (fun p => cview re im (bitrev m p)) k) = _
  rw [hmain]
  apply Finset.sum_congr rfl
  intro n _
  have hb : bitrev 0 0 + 2 ^ 0 * n = n := by simp [bitrev]
  rw [hb]
  show (⟨re.getD n 0, im.getD n 0⟩ : ℂ) * _ = _
  congr 1
  beta_reduce
  rw [← Complex.exp_nat_mul]
  congr 1
  push_cast
  ring

/-- C4: over exact real arithmetic (`K = ℝ`, `sqrt = Real.sqrt`), for every `m` and arrays
`re`, `im` of length `N = 2^m`, `FFT(1, m, re, im)` returns and leaves in the arrays the
unnormalised discrete Fourier transform of the input:
`out[k] = Σ_{n<N} in[n] * exp(-2πi·k·n/N)` for every `k < N`. -/
theorem C4_forward_FFT_is_DFT (fuel m : Nat) (re im : List ℝ)
    (hre : re.length = 2 ^ m) (him : im.length = 2 ^ m) (hf : 2 ^ m < fuel) :
    ∃ re' im', FFT Real.sqrt fuel 1 m re im = some (re', im') ∧
      re'.length = 2 ^ m ∧ im'.length = 2 ^ m ∧
      ∀ k : Nat, k < 2 ^ m → (⟨re'.getD k 0, im'.getD k 0⟩ : ℂ) =
        ∑ n in Finset.range (2 ^ m), (⟨re.getD n 0, im.getD n 0⟩ : ℂ) *
          Complex.exp (-2 * Real.pi * Complex.I * k * n / 2 ^ m) := by
  obtain ⟨re', im', h1, h2, h3, h4⟩ := FFT_real_dft fuel 1 (-1) m re im (by simp) hre him hf
  refine ⟨re', im', h1, h2, h3, fun k hk => ?_⟩
  rw [h4 k hk]
  apply Finset.sum_congr rfl
  intro n _
  congr 2
  push_cast
  ring

theorem C4_forward_FFT_is_DFT_witness :
    ∃ re' im', FFT Real.sqrt 3 1 1 [1, 2] [0, 0] = some (re', im') ∧
      re'.length = 2 ^ 1 ∧ im'.length = 2 ^ 1 ∧
      ∀ k : Nat, k < 2 ^ 1 → (⟨re'.getD k 0, im'.getD k 0⟩ : ℂ) =
        ∑ n in Finset.range (2 ^ 1),
          (⟨([1, 2] : List ℝ).getD n 0, ([0, 0] : List ℝ).getD n 0⟩ : ℂ) *
          Complex.exp (-2 * Real.pi * Complex.I * k * n / 2 ^ 1) :=
  C4_forward_FFT_is_DFT 3 1 [1, 2] [0, 0] rfl rfl (by decide)

theorem dft_orthogonality (N : Nat) (hN : N ≠ 0) (t n : Nat) (ht : t < N) (hn : n < N) :
    ∑ k in Finset.range N,
      Complex.exp (((-1 : ℝ) : ℂ) * 2 * Real.pi * Complex.I * k * t / N) *
      Complex.exp (((1 : ℝ) : ℂ) * 2 * Real.pi * Complex.I * n * k / N) =
      if t = n then (N : ℂ) else 0 := by
  have hprim := Complex.isPrimitiveRoot_exp N hN
  have hNc : (N : ℂ) ≠ 0 := Nat.cast_ne_zero.mpr hN
  have hterm : ∀ k : Nat,
      Complex.exp (((-1 : ℝ) : ℂ) * 2 * Real.pi * Complex.I * k * t / N) *
      Complex.exp (((1 : ℝ) : ℂ) * 2 * Real.pi * Complex.I * n * k / N) =
      (Complex.exp (2 * Real.pi * Complex.I / N) ^ n *
        (Complex.exp (2 * Real.pi * Complex.I / N) ^ t)⁻¹) ^ k := by
    intro k
    have hr : (Complex.exp (2 * Real.pi * Complex.I / N) ^ n *
        (Complex.exp (2 * Real.pi * Complex.I / N) ^ t)⁻¹) ^ k =
        Complex.exp (k * (n * (2 * Real.pi * Complex.I / N)
          + -(t * (2 * Real.pi * Complex.I / N)))) := by
      rw [Complex.exp_nat_mul, Complex.exp_add, Complex.exp_neg, Complex.exp_nat_mul,
        Complex.exp_nat_mul]
    rw [hr, ← Complex.exp_add]
    congr 1
    push_cast
    ring
  rw [Finset.sum_congr rfl (fun k _ => hterm k)]
  by_cases htn : t = n
  · subst htn
    rw [if_pos rfl, mul_inv_cancel₀ (pow_ne_zero _ (Complex.exp_ne_zero _))]
    simp
  · rw [if_neg htn]
    have hne : Complex.exp (2 * Real.pi * Complex.I / N) ^ n *
        (Complex.exp (2 * Real.pi * Complex.I / N) ^ t)⁻¹ ≠ 1 := by
      intro h
      have h' : Complex.exp (2 * Real.pi * Complex.I / N) ^ n =
          Complex.exp (2 * Real.pi * Complex.I / N) ^ t := by
        have hz := pow_ne_zero t (Complex.exp_ne_zero (2 * Real.pi * Complex.I / N))
        field_simp at h
        exact h
      exact htn (hprim.pow_inj hn ht h').symm
    have hzN : (Complex.exp (2 * Real.pi * Complex.I / N) ^ n *
        (Complex.exp (2 * Real.pi * Complex.I / N) ^ t)⁻¹) ^ N = 1 := by
      rw [mul_pow, inv_pow, ← pow_mul, ← pow_mul, mul_comm n N, mul_comm t N, pow_mul, pow_mul,
        hprim.pow_eq_one, one_pow, one_pow, inv_one, mul_one]
    rw [geom_sum_eq hne, hzN, sub_self, zero_div]

/-- C10: over exact real arithmetic, for every `m` and every complex block `(re, im)` of
length `N = 2^m`, `FFT` with `dir = 1` followed by `FFT` with `dir = -1` returns and yields
`N` times the block in every component, so scaling the result by `1/N` reproduces it. -/
theorem C10_forward_then_inverse_scales_by_N (fuel m : Nat) (re im : List ℝ)
    (hre : re.length = 2 ^ m) (him : im.length = 2 ^ m) (hf : 2 ^ m < fuel) :
    ∃ re1 im1 re2 im2,
      FFT Real.sqrt fuel 1 m re im = some (re1, im1) ∧
      FFT Real.sqrt fuel (-1) m re1 im1 = some (re2, im2) ∧
      re2.length = 2 ^ m ∧ im2.length = 2 ^ m ∧
      ∀ n : Nat, n < 2 ^ m →
        re2.getD n 0 = 2 ^ m * re.getD n 0 ∧ im2.getD n 0 = 2 ^ m * im.getD n 0 ∧
        re2.getD n 0 / 2 ^ m = re.getD n 0 ∧ im2.getD n 0 / 2 ^ m = im.getD n 0 := by
  obtain ⟨re1, im1, f1, f2, f3, f4⟩ := FFT_real_dft fuel 1 (-1) m re im (by simp) hre him hf
  obtain ⟨re2, im2, g1, g2, g3, g4⟩ := FFT_real_dft fuel (-1) 1 m re1 im1 (by simp) f2 f3 hf
  refine ⟨re1, im1, re2, im2, f1, g1, g2, g3, fun n hn => ?_⟩
  have hNne : (2 ^ m : Nat) ≠ 0 := by positivity
  have horth : ∀ t : Nat, t < 2 ^ m →
      ∑ k in Finset.range (2 ^ m),
        Complex.exp (((-1 : ℝ) : ℂ) * 2 * Real.pi * Complex.I * k * t / 2 ^ m) *
        Complex.exp (((1 : ℝ) : ℂ) * 2 * Real.pi * Complex.I * n * k / 2 ^ m) =
        if t = n then (2 ^ m : ℂ) else 0 := by
    intro t ht
    have := dft_orthogonality (2 ^ m) hNne t n ht hn
    simp only [Nat.cast_pow, Nat.cast_ofNat] at this
    exact this
  have hY : (⟨re2.getD n 0, im2.getD n 0⟩ : ℂ) =
      (⟨re.getD n 0, im.getD n 0⟩ : ℂ) * (2 ^ m : ℂ) := by
    rw [g4 n hn]
    have hstep : ∀ k ∈ Finset.range (2 ^ m),
        (⟨re1.getD k 0, im1.getD k 0⟩ : ℂ) *
          Complex.exp (((1 : ℝ) : ℂ) * 2 * Real.pi * Complex.I * n * k / 2 ^ m) =
        ∑ t in Finset.range (2 ^ m), (⟨re.getD t 0, im.getD t 0⟩ : ℂ) *
          (Complex.exp (((-1 : ℝ) : ℂ) * 2 * Real.pi * Complex.I * k * t / 2 ^ m) *
           Complex.exp (((1 : ℝ) : ℂ) * 2 * Real.pi * Complex.I * n * k / 2 ^ m)) := by
      intro k hk
      rw [f4 k (Finset.mem_range.mp hk), Finset.sum_mul]
      apply Finset.sum_congr rfl
      intro t _
      ring
    rw [Finset.sum_congr rfl hstep, Finset.sum_comm]
    have hinner : ∀ t ∈ Finset.range (2 ^ m),
        ∑ k in Finset.range (2 ^ m), (⟨re.getD t 0, im.getD t 0⟩ : ℂ) *
          (Complex.exp (((-1 : ℝ) : ℂ) * 2 * Real.pi * Complex.I * k * t / 2 ^ m) *
           Complex.exp (((1 : ℝ) : ℂ) * 2 * Real.pi * Complex.I * n * k / 2 ^ m)) =
        if t = n then (⟨re.getD t 0, im.getD t 0⟩ : ℂ) * (2 ^ m : ℂ) else 0 := by
      intro t ht
      rw [← Finset.mul_sum, horth t (Finset.mem_range.mp ht)]
      split <;> simp
    rw [Finset.sum_congr rfl hinner, Finset.sum_ite_eq' (Finset.range (2 ^ m)) n,
      if_pos (Finset.mem_range.mpr hn)]
  have h2 : ((2 : ℂ) ^ m) = (((2 : ℝ) ^ m : ℝ) : ℂ) := by push_cast; rfl
  rw [h2] at hY
  have hre2 : re2.getD n 0 = 2 ^ m * re.getD n 0 := by
    have := congrArg Complex.re hY
    simp only [Complex.mul_re, Complex.ofReal_re, Complex.ofReal_im, mul_zero, sub_zero] at this
    rw [this]; ring
  have him2 : im2.getD n 0 = 2 ^ m * im.getD n 0 := by
    have := congrArg Complex.im hY
    simp only [Complex.mul_im, Complex.ofReal_re, Complex.ofReal_im, mul_zero, add_zero] at this
    rw [this]; ring
  have hpos : (2 : ℝ) ^ m ≠ 0 := by positivity
  refine ⟨hre2, him2, ?_, ?_⟩
  · rw [hre2]; field_simp
  · rw [him2]; field_simp

theorem C10_forward_then_inverse_scales_by_N_witness :
    ∃ re1 im1 re2 im2,
      FFT Real.sqrt 5 1 2 [1, 2, 3, 4] [5, 6, 7, 9] = some (re1, im1) ∧
      FFT Real.sqrt 5 (-1) 2 re1 im1 = some (re2, im2) ∧
      re2.length = 2 ^ 2 ∧ im2.length = 2 ^ 2 ∧
      ∀ n : Nat, n < 2 ^ 2 →
        re2.getD n 0 = 2 ^ 2 * ([1, 2, 3, 4] : List ℝ).getD n 0 ∧
        im2.getD n 0 = 2 ^ 2 * ([5, 6, 7, 9] : List ℝ).getD n 0 ∧
        re2.getD n 0 / 2 ^ 2 = ([1, 2, 3, 4] : List ℝ).getD n 0 ∧
        im2.getD n 0 / 2 ^ 2 = ([5, 6, 7, 9] : List ℝ).getD n 0 :=
  C10_forward_then_inverse_scales_by_N 5 2 [1, 2, 3, 4] [5, 6, 7, 9] rfl rfl (by decide)

/-! ## Claims on initialisation constants and on the call made while not ready -/

theorem FFT_GetFrequencyResponse_not_ready {K : Type} [Field K] (sqrt : K → K) (fuel : Nat)
    (st : FFTState K) (fr : StackFrame K) (out : List K) (h : st.FFT_bufferReady ≠ 1) :
    FFT_GetFrequencyResponse sqrt fuel st fr out = some (st, out) := by
  have h1 : ¬ (1 = st.FFT_bufferReady) := fun e => h e.symm
  simp only [FFT_GetFrequencyResponse, h1, if_false]

/-- C11: `FFT_Initialize` (run on storage of the declared sizes) returns, and the value it
leaves in `FFT_elementsPerBand` is `(2048/2 + 1) / 8 = 1025 / 8 = 128` in integer
division; the value is below 256, so the reduction to 8 bits made by the store into the
`uint8_t` variable does not change it. -/
theorem C11_bins_per_band_is_128 {K : Type} [Field K] (cos : K → K) (st0 : FFTState K)
    (h0 : st0.WF) :
    ∃ st, FFT_Initialize cos st0 = some st ∧
      st.FFT_elementsPerBand = (FFT_SAMPLE_MAX / 2 + 1) / FFT_FREQ_BANDS ∧
      (FFT_SAMPLE_MAX / 2 + 1) / FFT_FREQ_BANDS = 1025 / 8 ∧ 1025 / 8 = 128 ∧
      st.FFT_elementsPerBand = 128 ∧ st.FFT_elementsPerBand < 256 ∧
      (FFT_FREQUENCY_RESP_SIZE / FFT_FREQ_BANDS) % 256 =
        FFT_FREQUENCY_RESP_SIZE / FFT_FREQ_BANDS := by
  obtain ⟨st, e, _, _, _, _, hepb, _⟩ := FFT_Initialize_spec cos st0 h0
  refine ⟨st, e, ?_, by decide, by decide, hepb, ?_, by decide⟩
  · rw [hepb]; decide
  · rw [hepb]; decide

theorem C11_bins_per_band_is_128_witness :
    ∃ st, FFT_Initialize (fun x : ℚ => x) zeroState = some st ∧
      st.FFT_elementsPerBand = (FFT_SAMPLE_MAX / 2 + 1) / FFT_FREQ_BANDS ∧
      (FFT_SAMPLE_MAX / 2 + 1) / FFT_FREQ_BANDS = 1025 / 8 ∧ 1025 / 8 = 128 ∧
      st.FFT_elementsPerBand = 128 ∧ st.FFT_elementsPerBand < 256 ∧
      (FFT_FREQUENCY_RESP_SIZE / FFT_FREQ_BANDS) % 256 =
        FFT_FREQUENCY_RESP_SIZE / FFT_FREQ_BANDS :=
  C11_bins_per_band_is_128 (fun x : ℚ => x) zeroState zeroState_WF

/-- C18 (as stated, refuted): in the state `zeroState`, whose ready flag is 0,
`FFT_GetFrequencyResponse` does not fail; it returns normally, with the state and the
caller's array as they were. -/
theorem C18_not_ready_call_returns_counterexample :
    zeroState.FFT_bufferReady = 0 ∧
    FFT_GetFrequencyResponse (fun x : ℚ => x) 2049 zeroState junkFrame
        [1, 2, 3, 4, 5, 6, 7, 8] ≠ none ∧
    FFT_GetFrequencyResponse (fun x : ℚ => x) 2049 zeroState junkFrame
        [1, 2, 3, 4, 5, 6, 7, 8] = some (zeroState, [1, 2, 3, 4, 5, 6, 7, 8]) := by
  have h := FFT_GetFrequencyResponse_not_ready (fun x : ℚ => x) 2049 zeroState junkFrame
    [1, 2, 3, 4, 5, 6, 7, 8] (by decide)
  refine ⟨rfl, ?_, h⟩
  rw [h]
  exact fun e => Option.noConfusion e

/-- C18 (amended): a call of `FFT_GetFrequencyResponse` made while the ready flag is not 1
does not fail fast: whatever the local arrays hold and whatever the loop budget, no error
is raised and the call returns to its caller. -/
theorem C18_not_ready_call_returns {K : Type} [Field K] (sqrt : K → K) (fuel : Nat)
    (st : FFTState K) (fr : StackFrame K) (out : List K) (h : st.FFT_bufferReady ≠ 1) :
    FFT_GetFrequencyResponse sqrt fuel st fr out ≠ none ∧
    ∃ r, FFT_GetFrequencyResponse sqrt fuel st fr out = some r := by
  have e := FFT_GetFrequencyResponse_not_ready sqrt fuel st fr out h
  refine ⟨?_, ⟨_, e⟩⟩
  rw [e]
  exact fun e => Option.noConfusion e

theorem C18_not_ready_call_returns_witness :
    zeroState.FFT_bufferReady ≠ 1 ∧
    (FFT_GetFrequencyResponse (fun x : ℚ => x) 0 zeroState junkFrame [] ≠ none ∧
      ∃ r, FFT_GetFrequencyResponse (fun x : ℚ => x) 0 zeroState junkFrame [] = some r) :=
  ⟨by decide, C18_not_ready_call_returns (fun x : ℚ => x) 0 zeroState junkFrame []
    (by decide)⟩

/-- C19: when the ready flag is not 1, `FFT_GetFrequencyResponse` returns the state it was
given (sample buffer, cursor, ready flag, interrupt enable and every other variable
unchanged) and the caller's array exactly as it was, entry for entry. -/
theorem C19_not_ready_call_changes_nothing {K : Type} [Field K] (sqrt : K → K) (fuel : Nat)
    (st : FFTState K) (fr : StackFrame K) (out : List K) (h : st.FFT_bufferReady ≠ 1) :
    ∃ st' out', FFT_GetFrequencyResponse sqrt fuel st fr out = some (st', out') ∧
      st' = st ∧ out' = out ∧
      st'.FFT_AudioSamples = st.FFT_AudioSamples ∧
      st'.FFT_currentSample = st.FFT_currentSample ∧
      st'.FFT_bufferReady = st.FFT_bufferReady ∧
      st'.adcIrqEnabled = st.adcIrqEnabled ∧
      ∀ i : Nat, out'[i]? = out[i]? :=
  ⟨st, out, FFT_GetFrequencyResponse_not_ready sqrt fuel st fr out h, rfl, rfl, rfl, rfl, rfl,
    rfl, fun _ => rfl⟩

theorem C19_not_ready_call_changes_nothing_witness :
    zeroState.FFT_bufferReady ≠ 1 ∧
    ∃ st' out', FFT_GetFrequencyResponse (fun x : ℚ => x) 2049 zeroState junkFrame
        [1, 2, 3, 4, 5, 6, 7, 8] = some (st', out') ∧
      st' = zeroState ∧ out' = [1, 2, 3, 4, 5, 6, 7, 8] ∧
      st'.FFT_AudioSamples = zeroState.FFT_AudioSamples ∧
      st'.FFT_currentSample = zeroState.FFT_currentSample ∧
      st'.FFT_bufferReady = zeroState.FFT_bufferReady ∧
      st'.adcIrqEnabled = zeroState.adcIrqEnabled ∧
      ∀ i : Nat, out'[i]? = ([1, 2, 3, 4, 5, 6, 7, 8] : List ℚ)[i]? :=
  ⟨by decide, C19_not_ready_call_changes_nothing (fun x : ℚ => x) 2049 zeroState junkFrame
    [1, 2, 3, 4, 5, 6, 7, 8] (by decide)⟩

/-! ## Independence of the local arrays and of the caller's array -/

theorem memsetZero_eq {K : Type} [Field K] (a : List K) (n : Nat) (h : a.length = n) :
    memsetZero a = List.replicate n 0 := by
  rw [memsetZero, h]

theorem gfrPrepare_zero {K : Type} [Field K] (st : FFTState K) (fr : StackFrame K)
    (hst : st.WF) (hfr : fr.WF) :
    ∃ vol, gfrPrepare st fr =
        some (gfrRearm st, vol, List.replicate FFT_SAMPLE_MAX 0,
          List.replicate FFT_FREQUENCY_RESP_SIZE 0) ∧
      vol.length = FFT_SAMPLE_MAX ∧
      ∀ p, p < FFT_SAMPLE_MAX →
        vol.getD p 0 = ((((st.FFT_AudioSamples.getD p 0 : Nat) : K) / (FFT_ADC_MAX : K))
          * FFT_ADC_REFERENCE) * st.FFT_HammingWindow.getD p 0 := by
  obtain ⟨vol, p1, p2, p3⟩ := gfrPrepare_spec st fr hst hfr
  rw [memsetZero_eq fr.audioImag _ hfr.2.1, memsetZero_eq fr.freqResp _ hfr.2.2] at p1
  exact ⟨vol, p1, p2, p3⟩

theorem getD_of_le {K : Type} [Field K] (a : List K) (p : Nat) (h : a.length ≤ p) :
    a.getD p 0 = 0 := by
  rw [List.getD_eq_getElem?_getD, List.getElem?_eq_none h]
  rfl

theorem gfrPrepare_frame {K : Type} [Field K] (st : FFTState K) (fr1 fr2 : StackFrame K)
    (hst : st.WF) (h1 : fr1.WF) (h2 : fr2.WF) : gfrPrepare st fr1 = gfrPrepare st fr2 := by
  obtain ⟨v1, a1, a2, a3⟩ := gfrPrepare_zero st fr1 hst h1
  obtain ⟨v2, b1, b2, b3⟩ := gfrPrepare_zero st fr2 hst h2
  have hv : v1 = v2 := by
    apply ext_getD _ _ (by rw [a2, b2])
    intro p
    by_cases hp : p < FFT_SAMPLE_MAX
    · rw [a3 p hp, b3 p hp]
    · rw [getD_of_le v1 p (by omega), getD_of_le v2 p (by omega)]
  rw [a1, b1, hv]

theorem gfrSpectrum_frame {K : Type} [Field K] (sqrt : K → K) (fuel : Nat) (st : FFTState K)
    (fr1 fr2 : StackFrame K) (hst : st.WF) (h1 : fr1.WF) (h2 : fr2.WF) :
    gfrSpectrum sqrt fuel st fr1 = gfrSpectrum sqrt fuel st fr2 := by
  simp only [gfrSpectrum, gfrPrepare_frame st fr1 fr2 hst h1 h2]

/-- C13: with the buffer ready (state of the declared sizes, 128 bins per band), two calls
of `FFT_GetFrequencyResponse` from the same state, on caller arrays `outA`, `outB` with
arbitrary contents (and with arbitrary contents of the local arrays), both return; each
writes entries `0..7` of its array and leaves every entry from index 8 on as it was; the
8 values written are sums over the spectrum and are the same in both runs, so for arrays
of 8 entries the two final arrays are equal. -/
theorem C13_output_fully_overwritten {K : Type} [Field K] (sqrt : K → K) (fuel : Nat)
    (st : FFTState K) (frA frB : StackFrame K) (outA outB : List K)
    (hst : st.WF) (hfrA : frA.WF) (hfrB : frB.WF) (hready : st.FFT_bufferReady = 1)
    (hepb : st.FFT_elementsPerBand = 128)
    (hA : FFT_FREQ_BANDS ≤ outA.length) (hB : FFT_FREQ_BANDS ≤ outB.length)
    (hfuel : FFT_SAMPLE_MAX < fuel) :
    ∃ st' spec oA oB,
      gfrSpectrum sqrt fuel st frA = some (st', spec) ∧
      gfrSpectrum sqrt fuel st frB = some (st', spec) ∧
      FFT_GetFrequencyResponse sqrt fuel st frA outA = some (st', oA) ∧
      FFT_GetFrequencyResponse sqrt fuel st frB outB = some (st', oB) ∧
      oA.length = outA.length ∧ oB.length = outB.length ∧
      (∀ b : Nat, b < 8 →
        oA.getD b 0 = ∑ e in Finset.range 128, spec.getD (e + b * 128) 0) ∧
      (∀ b : Nat, b < 8 → oA.getD b 0 = oB.getD b 0) ∧
      (∀ p : Nat, 8 ≤ p → oA[p]? = outA[p]? ∧ oB[p]? = outB[p]?) ∧
      (outA.length = 8 → outB.length = 8 → oA = oB) := by
  have h8 : FFT_FREQ_BANDS * st.FFT_elementsPerBand ≤ FFT_FREQUENCY_RESP_SIZE := by
    rw [hepb]; decide
  obtain ⟨spec, oA, a1, _, a3, _, a5, a6⟩ :=
    FFT_GetFrequencyResponse_spec sqrt fuel st frA outA hst hfrA hready h8 hA hfuel
  obtain ⟨spec2, oB, b1, _, b3, _, b5, b6⟩ :=
    FFT_GetFrequencyResponse_spec sqrt fuel st frB outB hst hfrB hready h8 hB hfuel
  have hs : spec2 = spec := by
    have := gfrSpectrum_frame sqrt fuel st frA frB hst hfrA hfrB
    rw [a1, b1] at this
    simp only [Option.some.injEq, Prod.mk.injEq, true_and] at this
    exact this.symm
  subst hs
  rw [hepb] at a6 b6
  have hlow : ∀ b : Nat, b < 8 → oA.getD b 0 = oB.getD b 0 := by
    intro b hb
    have hb' : b < FFT_FREQ_BANDS := hb
    rw [a6 b, b6 b, if_pos hb', if_pos hb']
  have hhigh : ∀ (o out : List K), o.length = out.length →
      (∀ p, o.getD p 0 = if p < FFT_FREQ_BANDS
        then ∑ e in Finset.range 128, spec2.getD (e + p * 128) 0 else out.getD p 0) →
      ∀ p : Nat, 8 ≤ p → o[p]? = out[p]? := by
    intro o out hl ho p hp
    have hp' : ¬ p < FFT_FREQ_BANDS := by
      have : FFT_FREQ_BANDS = 8 := rfl
      omega
    have := ho p
    rw [if_neg hp'] at this
    by_cases hlt : p < out.length
    · have hlt' : p < o.length := by omega
      simp only [List.getD_eq_getElem?_getD, List.getElem?_eq_getElem hlt,
        List.getElem?_eq_getElem hlt', Option.getD_some] at this
      rw [List.getElem?_eq_getElem hlt, List.getElem?_eq_getElem hlt', this]
    · rw [List.getElem?_eq_none (by omega), List.getElem?_eq_none (by omega)]
  refine ⟨gfrRearm st, spec2, oA, oB, a1, b1, a3, b3, a5, b5, fun b hb => ?_, hlow,
    fun p hp => ⟨hhigh oA outA a5 a6 p hp, hhigh oB outB b5 b6 p hp⟩, fun lA lB => ?_⟩
  · have hb' : b < FFT_FREQ_BANDS := hb
    rw [a6 b, if_pos hb']
  · apply ext_getD _ _ (by rw [a5, b5, lA, lB])
    intro p
    by_cases hp : p < 8
    · exact hlow p hp
    · rw [getD_of_le oA p (by omega), getD_of_le oB p (by omega)]

theorem C13_output_fully_overwritten_witness :
    ∃ st' spec oA oB,
      gfrSpectrum (fun x : ℚ => x) 2049 readyState junkFrame = some (st', spec) ∧
      gfrSpectrum (fun x : ℚ => x) 2049 readyState
        { junkFrame with audioImag := List.replicate 2048 3 } = some (st', spec) ∧
      FFT_GetFrequencyResponse (fun x : ℚ => x) 2049 readyState junkFrame
        [1, 2, 3, 4, 5, 6, 7, 8] = some (st', oA) ∧
      FFT_GetFrequencyResponse (fun x : ℚ => x) 2049 readyState
        { junkFrame with audioImag := List.replicate 2048 3 }
        [9, 9, 9, 9, 9, 9, 9, 9, 9] = some (st', oB) ∧
      oA.length = ([1, 2, 3, 4, 5, 6, 7, 8] : List ℚ).length ∧
      oB.length = ([9, 9, 9, 9, 9, 9, 9, 9, 9] : List ℚ).length ∧
      (∀ b : Nat, b < 8 →
        oA.getD b 0 = ∑ e in Finset.range 128, spec.getD (e + b * 128) 0) ∧
      (∀ b : Nat, b < 8 → oA.getD b 0 = oB.getD b 0) ∧
      (∀ p : Nat, 8 ≤ p → oA[p]? = ([1, 2, 3, 4, 5, 6, 7, 8] : List ℚ)[p]? ∧
        oB[p]? = ([9, 9, 9, 9, 9, 9, 9, 9, 9] : List ℚ)[p]?) ∧
      (([1, 2, 3, 4, 5, 6, 7, 8] : List ℚ).length = 8 →
        ([9, 9, 9, 9, 9, 9, 9, 9, 9] : List ℚ).length = 8 → oA = oB) :=
  C13_output_fully_overwritten (fun x : ℚ => x) 2049 readyState junkFrame
    { junkFrame with audioImag := List.replicate 2048 3 }
    [1, 2, 3, 4, 5, 6, 7, 8] [9, 9, 9, 9, 9, 9, 9, 9, 9] readyState_WF junkFrame_WF
    ⟨List.length_replicate 2048 7, List.length_replicate 2048 3, List.length_replicate 1025 9⟩
    rfl rfl (by decide) (by decide) (by decide)

theorem getD_replicate_zero {K : Type} [Field K] (n i : Nat) :
    (List.replicate n (0 : K)).getD i 0 = 0 := by
  rw [List.getD_eq_getElem?_getD, List.getElem?_replicate]
  split <;> rfl

/-- C14: with the buffer ready, the arrays handed to `FFT` are these: the real part has
2048 entries, entry `i` being `(sample[i] / 4095) * 5.0 * window[i]` with sample `i` of
the buffer and coefficient `i` of the window; the imaginary part is 2048 zeros. Both are
the same whatever the local arrays held on entry, and the result of the call is what the
rest of the function computes from `FFT(1, 11, real, imaginary)` run on them. -/
theorem C14_transform_input {K : Type} [Field K] (sqrt : K → K) (fuel : Nat)
    (st : FFTState K) (fr : StackFrame K) (out : List K)
    (hst : st.WF) (hfr : fr.WF) (hready : st.FFT_bufferReady = 1) :
    ∃ vol,
      gfrPrepare st fr = some (gfrRearm st, vol, List.replicate 2048 0,
        List.replicate 1025 0) ∧
      FFT_GetFrequencyResponse sqrt fuel st fr out =
        (FFT sqrt fuel 1 FFT_POWER_OF_TWO vol (List.replicate 2048 0)).bind (fun t =>
          (gfrMagnitude sqrt t.1 t.2 (List.replicate 1025 0)).bind (fun f =>
          (gfrSingleSided f).bind (fun g =>
          (gfrBands st.FFT_elementsPerBand g out).bind (fun o =>
          some (gfrRearm st, o))))) ∧
      vol.length = 2048 ∧
      (∀ i : Nat, i < 2048 →
        vol.getD i 0 = ((((st.FFT_AudioSamples.getD i 0 : Nat) : K) / (4095 : K)) * 5.0)
          * st.FFT_HammingWindow.getD i 0) ∧
      (∀ i : Nat, i < 2048 → (List.replicate 2048 (0 : K)).getD i 0 = 0) ∧
      (List.replicate 2048 (0 : K)).length = 2048 ∧
      (∀ fr2 : StackFrame K, fr2.WF → gfrPrepare st fr2 = gfrPrepare st fr) := by
  obtain ⟨vol, p1, p2, p3⟩ := gfrPrepare_zero st fr hst hfr
  refine ⟨vol, p1, ?_, p2, fun i hi => ?_, fun i hi => ?_, List.length_replicate _ _,
    fun fr2 h2 => gfrPrepare_frame st fr2 fr hst h2 hfr⟩
  · have hr : (1 = st.FFT_bufferReady) = True := by rw [hready]; simp
    simp only [FFT_GetFrequencyResponse, hr, if_true, gfrSpectrum, p1, Option.some_bind,
      Option.bind_assoc]
    rfl
  · have h := p3 i hi
    have e1 : ((FFT_ADC_MAX : Nat) : K) = 4095 := by norm_num [FFT_ADC_MAX]
    rw [e1] at h
    exact h
  · exact getD_replicate_zero 2048 i

theorem C14_transform_input_witness :
    ∃ vol,
      gfrPrepare readyState junkFrame = some (gfrRearm readyState, vol,
        List.replicate 2048 0, List.replicate 1025 0) ∧
      FFT_GetFrequencyResponse (fun x : ℚ => x) 2049 readyState junkFrame
          [1, 2, 3, 4, 5, 6, 7, 8] =
        (FFT (fun x : ℚ => x) 2049 1 FFT_POWER_OF_TWO vol (List.replicate 2048 0)).bind
          (fun t =>
          (gfrMagnitude (fun x : ℚ => x) t.1 t.2 (List.replicate 1025 0)).bind (fun f =>
          (gfrSingleSided f).bind (fun g =>
          (gfrBands readyState.FFT_elementsPerBand g [1, 2, 3, 4, 5, 6, 7, 8]).bind (fun o =>
          some (gfrRearm readyState, o))))) ∧
      vol.length = 2048 ∧
      (∀ i : Nat, i < 2048 →
        vol.getD i 0 = ((((readyState.FFT_AudioSamples.getD i 0 : Nat) : ℚ) / (4095 : ℚ))
          * 5.0) * readyState.FFT_HammingWindow.getD i 0) ∧
      (∀ i : Nat, i < 2048 → (List.replicate 2048 (0 : ℚ)).getD i 0 = 0) ∧
      (List.replicate 2048 (0 : ℚ)).length = 2048 ∧
      (∀ fr2 : StackFrame ℚ, fr2.WF → gfrPrepare readyState fr2 =
        gfrPrepare readyState junkFrame) :=
  C14_transform_input (fun x : ℚ => x) 2049 readyState junkFrame [1, 2, 3, 4, 5, 6, 7, 8]
    readyState_WF junkFrame_WF rfl

/-! ## Repeated initialisation -/

theorem FFT_Initialize_determined {K : Type} [Field K] (cos : K → K) (sa sb a b : FFTState K)
    (ha : sa.WF) (hb : sb.WF) (ea : FFT_Initialize cos sa = some a)
    (eb : FFT_Initialize cos sb = some b) :
    a.FFT_AudioSamples = b.FFT_AudioSamples ∧ a.FFT_HammingWindow = b.FFT_HammingWindow ∧
    a.FFT_Frequency_Bands = b.FFT_Frequency_Bands ∧
    a.FFT_elementsPerBand = b.FFT_elementsPerBand ∧
    a.FFT_currentSample = b.FFT_currentSample ∧ a.FFT_bufferReady = b.FFT_bufferReady ∧
    a.adcIrqEnabled = sa.adcIrqEnabled ∧ b.adcIrqEnabled = sb.adcIrqEnabled := by
  obtain ⟨a', e1, wa, a1, a2, a3, a4, a5, a6, a7⟩ := FFT_Initialize_spec cos sa ha
  obtain ⟨b', e2, wb, b1, b2, b3, b4, b5, b6, b7⟩ := FFT_Initialize_spec cos sb hb
  rw [ea] at e1
  rw [eb] at e2
  cases e1
  cases e2
  refine ⟨by rw [a1, b1], ?_, ?_, by rw [a4, b4], by rw [a2, b2], by rw [a3, b3], a5, b5⟩
  · apply ext_getD _ _ (by rw [wa.2.1, wb.2.1])
    intro p
    by_cases hp : p < FFT_SAMPLE_MAX
    · rw [a6 p hp, b6 p hp]
    · rw [getD_of_le _ p (by rw [wa.2.1]; omega), getD_of_le _ p (by rw [wb.2.1]; omega)]
  · apply ext_getD _ _ (by rw [wa.2.2, wb.2.2])
    intro p
    by_cases hp : p < FFT_FREQ_BANDS
    · rw [a7 p hp, b7 p hp]
    · rw [getD_of_le _ p (by rw [wa.2.2]; omega), getD_of_le _ p (by rw [wb.2.2]; omega)]

theorem FFTState_ext {K : Type} (a b : FFTState K)
    (h1 : a.FFT_AudioSamples = b.FFT_AudioSamples)
    (h2 : a.FFT_HammingWindow = b.FFT_HammingWindow)
    (h3 : a.FFT_Frequency_Bands = b.FFT_Frequency_Bands)
    (h4 : a.FFT_elementsPerBand = b.FFT_elementsPerBand)
    (h5 : a.FFT_currentSample = b.FFT_currentSample)
    (h6 : a.FFT_bufferReady = b.FFT_bufferReady)
    (h7 : a.adcIrqEnabled = b.adcIrqEnabled) : a = b := by
  cases a
  cases b
  simp only at h1 h2 h3 h4 h5 h6 h7
  simp only [FFTState.mk.injEq]
  exact ⟨h1, h2, h3, h4, h5, h6, h7⟩

/-- C20: `FFT_Initialize` is idempotent. From any prior state (with storage of the
declared sizes) it returns a state `st1`, and run again on `st1` it returns `st1` itself:
window table, sample buffer, cursor, ready flag, bins-per-band and band centre table are
all as after the first run. Moreover the result depends on the prior state only through
the interrupt enable bit, which `FFT_Initialize` does not touch. -/
theorem C20_initialize_idempotent {K : Type} [Field K] (cos : K → K) (st0 : FFTState K)
    (h0 : st0.WF) :
    ∃ st1, FFT_Initialize cos st0 = some st1 ∧ FFT_Initialize cos st1 = some st1 ∧
      ((FFT_Initialize cos st0).bind (FFT_Initialize cos)) = FFT_Initialize cos st0 ∧
      ∀ stB stB1 : FFTState K, stB.WF → FFT_Initialize cos stB = some stB1 →
        stB1.FFT_HammingWindow = st1.FFT_HammingWindow ∧
        stB1.FFT_AudioSamples = st1.FFT_AudioSamples ∧
        stB1.FFT_currentSample = st1.FFT_currentSample ∧
        stB1.FFT_bufferReady = st1.FFT_bufferReady ∧
        stB1.FFT_elementsPerBand = st1.FFT_elementsPerBand ∧
        stB1.FFT_Frequency_Bands = st1.FFT_Frequency_Bands := by
  obtain ⟨st1, e1, w1, _⟩ := FFT_Initialize_spec cos st0 h0
  obtain ⟨st2, e2, _⟩ := FFT_Initialize_spec cos st1 w1
  obtain ⟨d1, d2, d3, d4, d5, d6, _, d8⟩ :=
    FFT_Initialize_determined cos st0 st1 st1 st2 h0 w1 e1 e2
  have h21 : st2 = st1 :=
    FFTState_ext st2 st1 d1.symm d2.symm d3.symm d4.symm d5.symm d6.symm d8
  rw [h21] at e2
  refine ⟨st1, e1, e2, ?_, fun stB stB1 hB eB => ?_⟩
  · rw [e1, Option.some_bind, e2]
  · obtain ⟨c1, c2, c3, c4, c5, c6, _, _⟩ :=
      FFT_Initialize_determined cos stB st0 stB1 st1 hB h0 eB e1
    exact ⟨c2, c1, c5, c6, c4, c3⟩

theorem C20_initialize_idempotent_witness :
    ∃ st1, FFT_Initialize (fun x : ℚ => x) readyState = some st1 ∧
      FFT_Initialize (fun x : ℚ => x) st1 = some st1 ∧
      ((FFT_Initialize (fun x : ℚ => x) readyState).bind (FFT_Initialize (fun x : ℚ => x))) =
        FFT_Initialize (fun x : ℚ => x) readyState ∧
      ∀ stB stB1 : FFTState ℚ, stB.WF → FFT_Initialize (fun x : ℚ => x) stB = some stB1 →
        stB1.FFT_HammingWindow = st1.FFT_HammingWindow ∧
        stB1.FFT_AudioSamples = st1.FFT_AudioSamples ∧
        stB1.FFT_currentSample = st1.FFT_currentSample ∧
        stB1.FFT_bufferReady = st1.FFT_bufferReady ∧
        stB1.FFT_elementsPerBand = st1.FFT_elementsPerBand ∧
        stB1.FFT_Frequency_Bands = st1.FFT_Frequency_Bands :=
  C20_initialize_idempotent (fun x : ℚ => x) readyState readyState_WF

/-! ## Band energies against the whole spectrum -/

theorem cmul_zero {K : Type} [Field K] (u : K × K) : cmul u 0 = 0 := by
  simp [cmul]

theorem stagesPure_zero {K : Type} [Field K] (sqrt : K → K) (dir : Int) : ∀ l : Nat,
    stagesPure sqrt dir l (fun _ => 0) = fun _ => 0 := by
  intro l
  induction l with
  | zero => rfl
  | succ l ih =>
    funext p
    simp only [stagesPure, ih, stagePure, cmul_zero, add_zero, sub_zero, ite_self]

theorem fftPure_zero {K : Type} [Field K] (sqrt : K → K) (dir : Int) (m : Nat)
    (x : Nat → K × K) (hx : ∀ p, x p = 0) (p : Nat) : fftPure sqrt dir m x p = 0 := by
  have : (fun q => x (bitrev m q)) = fun _ => 0 := by
    funext q
    exact hx _
  rw [fftPure, this, stagesPure_zero]

/-- C16: if the buffer is ready and every one of the 2048 stored samples is 0, then
`FFT_GetFrequencyResponse` returns, every one of the 1025 magnitudes of the spectrum it
computes is 0, and it writes 0 to all 8 band energies. (The library `sqrt` enters only
through `sqrt(0) = 0`.) -/
theorem C16_zero_block_gives_zero_bands {K : Type} [Field K] (sqrt : K → K) (fuel : Nat)
    (st : FFTState K) (fr : StackFrame K) (out : List K)
    (hst : st.WF) (hfr : fr.WF) (hready : st.FFT_bufferReady = 1)
    (hepb : st.FFT_elementsPerBand = 128)
    (hout : FFT_FREQ_BANDS ≤ out.length) (hfuel : FFT_SAMPLE_MAX < fuel)
    (hsqrt : sqrt 0 = 0)
    (hzero : ∀ i : Nat, i < 2048 → st.FFT_AudioSamples.getD i 0 = 0) :
    ∃ st' spec out',
      gfrSpectrum sqrt fuel st fr = some (st', spec) ∧ spec.length = 1025 ∧
      (∀ i : Nat, i < 1025 → spec.getD i 0 = 0) ∧
      FFT_GetFrequencyResponse sqrt fuel st fr out = some (st', out') ∧
      (∀ b : Nat, b < 8 → out'.getD b 0 = 0) := by
  have h8 : FFT_FREQ_BANDS * st.FFT_elementsPerBand ≤ FFT_FREQUENCY_RESP_SIZE := by
    rw [hepb]; decide
  obtain ⟨vol, re', im', spec, _, _, hspec, v2, _, _, _, v3, hf, hs⟩ :=
    gfrSpectrum_spec sqrt fuel st fr hst hfr hfuel
  obtain ⟨spec2, out', s1, _, s3, s4, _, s6⟩ :=
    FFT_GetFrequencyResponse_spec sqrt fuel st fr out hst hfr hready h8 hout hfuel
  have hs2 : spec2 = spec := by
    rw [hspec] at s1
    simp only [Option.some.injEq, Prod.mk.injEq, true_and] at s1
    exact s1.symm
  subst hs2
  have hvol : ∀ p, vol.getD p 0 = 0 := by
    intro p
    by_cases hp : p < FFT_SAMPLE_MAX
    · rw [v3 p hp, hzero p hp, Nat.cast_zero, zero_div, zero_mul, zero_mul]
    · exact getD_of_le vol p (by omega)
  have hin : ∀ p, cview vol (memsetZero fr.audioImag) p = 0 := by
    intro p
    have : (memsetZero fr.audioImag).getD p 0 = 0 := getD_replicate_zero _ p
    simp only [cview, hvol p, this]
    rfl
  have hre : ∀ p, p < FFT_SAMPLE_MAX → re'.getD p 0 = 0 ∧ im'.getD p 0 = 0 := by
    intro p hp
    have h := hf p hp
    rw [fftPure_zero sqrt 1 FFT_POWER_OF_TWO _ hin p] at h
    exact ⟨congrArg Prod.fst h, congrArg Prod.snd h⟩
  have hspec0 : ∀ i : Nat, i < 1025 → spec2.getD i 0 = 0 := by
    intro i hi
    have hi' : i < FFT_FREQUENCY_RESP_SIZE := hi
    have hi2 : i < FFT_SAMPLE_MAX := by
      have : FFT_SAMPLE_MAX = 2048 := rfl
      omega
    rw [hs i hi', (hre i hi2).1, (hre i hi2).2, mul_zero, add_zero, hsqrt, zero_div, zero_mul,
      ite_self]
  refine ⟨gfrRearm st, spec2, out', hspec, s4, hspec0, s3, fun b hb => ?_⟩
  have hb' : b < FFT_FREQ_BANDS := hb
  rw [s6 b, if_pos hb', hepb]
  apply Finset.sum_eq_zero
  intro e he
  have he' : e < 128 := Finset.mem_range.mp he
  exact hspec0 _ (by omega)

theorem C16_zero_block_gives_zero_bands_witness :
    ∃ st' spec out',
      gfrSpectrum (fun x : ℚ => x) 2049
        { readyState with FFT_AudioSamples := List.replicate 2048 0 } junkFrame =
          some (st', spec) ∧ spec.length = 1025 ∧
      (∀ i : Nat, i < 1025 → spec.getD i 0 = 0) ∧
      FFT_GetFrequencyResponse (fun x : ℚ => x) 2049
        { readyState with FFT_AudioSamples := List.replicate 2048 0 } junkFrame
        [1, 2, 3, 4, 5, 6, 7, 8] = some (st', out') ∧
      (∀ b : Nat, b < 8 → out'.getD b 0 = 0) :=
  C16_zero_block_gives_zero_bands (fun x : ℚ => x) 2049
    { readyState with FFT_AudioSamples := List.replicate 2048 0 } junkFrame
    [1, 2, 3, 4, 5, 6, 7, 8]
    ⟨List.length_replicate 2048 0, List.length_replicate 2048 1, List.length_replicate 8 0⟩
    junkFrame_WF rfl rfl (by decide) (by decide) rfl
    (fun i _ => by
      show (List.replicate 2048 0).getD i 0 = 0
      rw [List.getD_eq_getElem?_getD, List.getElem?_replicate]
      split <;> rfl)

/-! ## The sample block across cycles -/

theorem replicate_ne_replicate (n a b : Nat) (hn : 0 < n) (hab : a ≠ b) :
    List.replicate n a ≠ List.replicate n b := by
  intro e
  have h := congrArg (fun l : List Nat => l[0]?) e
  simp only [List.getElem?_replicate, hn, if_true, Option.some.injEq] at h
  exact hab h

theorem ingestAll_full_block {K : Type} (st st' : FFTState K) (x : Nat)
    (hlen : st.FFT_AudioSamples.length = FFT_SAMPLE_MAX) (hr : st.FFT_bufferReady = 0)
    (hc : st.FFT_currentSample = 0)
    (e : ingestAll st (List.replicate FFT_SAMPLE_MAX x) = some st') :
    st'.FFT_AudioSamples = List.replicate FFT_SAMPLE_MAX x ∧ st'.FFT_bufferReady = 1 ∧
    st'.FFT_currentSample = 0 := by
  have hxl : (List.replicate FFT_SAMPLE_MAX x).length = FFT_SAMPLE_MAX :=
    List.length_replicate _ _
  obtain ⟨st2, e2, l2, h3, _, h5⟩ := ingestAll_spec (List.replicate FFT_SAMPLE_MAX x) st hlen hr
    (by rw [hc, hxl]; omega)
  rw [e] at e2
  cases e2
  have hne : List.replicate FFT_SAMPLE_MAX x ≠ [] := by
    intro e0
    have := congrArg List.length e0
    rw [hxl] at this
    cases this
  have h5' := h5 (by rw [hc, hxl]; omega) hne
  refine ⟨?_, h5'.1, h5'.2.1⟩
  apply List.ext_getElem?
  intro i
  rw [h3 i, hc, hxl]
  by_cases hi : i < FFT_SAMPLE_MAX
  · rw [if_pos ⟨Nat.zero_le _, by omega⟩, Nat.sub_zero]
  · rw [if_neg (by omega), List.getElem?_eq_none (by omega),
      List.getElem?_eq_none (by rw [hxl]; omega)]

/-- C17 (as stated, refuted): initialise from `zeroState`, ingest 2048 samples of value 5
(the buffer becomes ready), then call `FFT_GetFrequencyResponse`: the new filling phase
starts with cursor 0 and the flag cleared, but the sample block still holds the 2048
fives, not zeros; the same holds after `FFT_SetBufferAvailable`. -/
theorem C17_block_not_cleared_at_rearm_counterexample :
    ∃ st1 st2 st3 out',
      FFT_Initialize (fun x : ℚ => x) zeroState = some st1 ∧
      ingestAll st1 (List.replicate 2048 5) = some st2 ∧ st2.FFT_bufferReady = 1 ∧
      FFT_GetFrequencyResponse (fun x : ℚ => x) 2049 st2 junkFrame
        [1, 2, 3, 4, 5, 6, 7, 8] = some (st3, out') ∧
      st3.FFT_bufferReady = 0 ∧ st3.FFT_currentSample = 0 ∧
      st3.FFT_AudioSamples = List.replicate 2048 5 ∧
      st3.FFT_AudioSamples ≠ List.replicate 2048 0 ∧
      (FFT_SetBufferAvailable st2).FFT_bufferReady = 0 ∧
      (FFT_SetBufferAvailable st2).FFT_currentSample = 0 ∧
      (FFT_SetBufferAvailable st2).FFT_AudioSamples = List.replicate 2048 5 ∧
      (FFT_SetBufferAvailable st2).FFT_AudioSamples ≠ List.replicate 2048 0 := by
  obtain ⟨st1, e1, w1, _, c1, r1, epb1, _⟩ :=
    FFT_Initialize_spec (fun x : ℚ => x) zeroState zeroState_WF
  obtain ⟨st2, e2, _⟩ := ingestAll_spec (List.replicate 2048 5) st1 w1.1 r1
    (by rw [c1, List.length_replicate]; decide)
  obtain ⟨a2, r2, c2⟩ := ingestAll_full_block st1 st2 5 w1.1 r1 c1 e2
  have a2' : st2.FFT_AudioSamples = List.replicate 2048 5 := a2
  have w2 : st2.WF := by
    have hreach : Reachable (fun x : ℚ => x) (fun x : ℚ => x) st2 :=
      Reachable_ingestAll _ _ _ st1 st2 (Reachable.init zeroState st1 zeroState_WF e1) e2
    exact (StateInv_of_reachable _ _ st2 hreach).1
  have epb2 : st2.FFT_elementsPerBand = 128 := by
    have hreach : Reachable (fun x : ℚ => x) (fun x : ℚ => x) st2 :=
      Reachable_ingestAll _ _ _ st1 st2 (Reachable.init zeroState st1 zeroState_WF e1) e2
    exact (StateInv_of_reachable _ _ st2 hreach).2.1
  obtain ⟨spec, out', _, _, s3, _, _, _⟩ :=
    FFT_GetFrequencyResponse_spec (fun x : ℚ => x) 2049 st2 junkFrame
      [1, 2, 3, 4, 5, 6, 7, 8] w2 junkFrame_WF r2 (by rw [epb2]; decide) (by decide)
      (by decide)
  have hne : List.replicate 2048 5 ≠ List.replicate 2048 0 :=
    replicate_ne_replicate 2048 5 0 (by decide) (by decide)
  refine ⟨st1, st2, gfrRearm st2, out', e1, e2, r2, s3, rfl, c2, a2', ?_, rfl, c2, a2', ?_⟩
  · show st2.FFT_AudioSamples ≠ _
    rw [a2']; exact hne
  · show st2.FFT_AudioSamples ≠ _
    rw [a2']; exact hne

/-- C17 (amended): after `FFT_Initialize` the sample block is 2048 zeros and the write
cursor is 0. At the start of each new filling phase, that is after the re-arm made by
`FFT_GetFrequencyResponse` or by `FFT_SetBufferAvailable` in a reachable state whose
buffer is ready, the write cursor is 0 and the flag is cleared, but the block is not
zero-filled: it still holds the 2048 samples of the block just handed over. -/
theorem C17_block_reset_at_init_only {K : Type} [Field K] (cos sqrt : K → K) (fuel : Nat)
    (st0 st : FFTState K) (fr : StackFrame K) (out : List K)
    (h0 : st0.WF) (hreach : Reachable cos sqrt st) (hready : st.FFT_bufferReady ≠ 0)
    (hfr : fr.WF) (hout : FFT_FREQ_BANDS ≤ out.length) (hfuel : FFT_SAMPLE_MAX < fuel) :
    (∃ st1, FFT_Initialize cos st0 = some st1 ∧
      st1.FFT_AudioSamples = List.replicate 2048 0 ∧ st1.FFT_currentSample = 0) ∧
    (∃ st' out', FFT_GetFrequencyResponse sqrt fuel st fr out = some (st', out') ∧
      st'.FFT_bufferReady = 0 ∧ st'.FFT_currentSample = 0 ∧
      st'.FFT_AudioSamples = st.FFT_AudioSamples) ∧
    ((FFT_SetBufferAvailable st).FFT_bufferReady = 0 ∧
      (FFT_SetBufferAvailable st).FFT_currentSample = 0 ∧
      (FFT_SetBufferAvailable st).FFT_AudioSamples = st.FFT_AudioSamples) := by
  obtain ⟨st1, e1, _, a1, c1, _⟩ := FFT_Initialize_spec cos st0 h0
  obtain ⟨hwf, hepb, _, hflag, himp⟩ := StateInv_of_reachable cos sqrt st hreach
  have h1 : st.FFT_bufferReady = 1 := by
    rcases hflag with h | h
    · exact absurd h hready
    · exact h
  obtain ⟨spec, out', _, _, s3, _, _, _⟩ :=
    FFT_GetFrequencyResponse_spec sqrt fuel st fr out hwf hfr h1 (by rw [hepb]; decide) hout hfuel
  exact ⟨⟨st1, e1, a1, c1⟩, ⟨gfrRearm st, out', s3, rfl, (himp h1).1, rfl⟩,
    ⟨rfl, (himp h1).1, rfl⟩⟩

theorem C17_block_reset_at_init_only_witness :
    ∃ st : FFTState ℚ, Reachable (fun x => x) (fun x => x) st ∧ st.FFT_bufferReady ≠ 0 ∧
      ((∃ st1, FFT_Initialize (fun x : ℚ => x) zeroState = some st1 ∧
        st1.FFT_AudioSamples = List.replicate 2048 0 ∧ st1.FFT_currentSample = 0) ∧
      (∃ st' out', FFT_GetFrequencyResponse (fun x : ℚ => x) 2049 st junkFrame
          [1, 2, 3, 4, 5, 6, 7, 8] = some (st', out') ∧
        st'.FFT_bufferReady = 0 ∧ st'.FFT_currentSample = 0 ∧
        st'.FFT_AudioSamples = st.FFT_AudioSamples) ∧
      ((FFT_SetBufferAvailable st).FFT_bufferReady = 0 ∧
        (FFT_SetBufferAvailable st).FFT_currentSample = 0 ∧
        (FFT_SetBufferAvailable st).FFT_AudioSamples = st.FFT_AudioSamples)) :=
  exists_reachable_ready.elim fun st h =>
    ⟨st, h.1, h.2, C17_block_reset_at_init_only (fun x => x) (fun x => x) 2049 zeroState st
      junkFrame [1, 2, 3, 4, 5, 6, 7, 8] zeroState_WF h.1 h.2 junkFrame_WF (by decide)
      (by decide)⟩

/-! ## The Hamming window over the real numbers -/

/-- C21: over an ordered field (exact arithmetic) the sampling rate constant is 20000 Hz,
`FFT_Initialize` returns, and the centre frequency it stores for band `b` is
`(20000 / 2048) * (128 / 2 + 128 * b) = 625 + 1250 * b` for every `b` in `0..7`; each of
these values is non-negative and below 10000. -/
theorem C21_band_centre_frequencies {K : Type} [LinearOrderedField K] (cos : K → K)
    (st0 : FFTState K) (h0 : st0.WF) :
    (FFT_SAMPLING_FREQUENCY_HZ : K) = 20000 ∧
    ∃ st, FFT_Initialize cos st0 = some st ∧
      ∀ b : Nat, b < 8 →
        st.FFT_Frequency_Bands.getD b 0 = (20000 / 2048) * (128 / 2 + 128 * (b : K)) ∧
        st.FFT_Frequency_Bands.getD b 0 = 625 + 1250 * (b : K) ∧
        0 ≤ st.FFT_Frequency_Bands.getD b 0 ∧
        st.FFT_Frequency_Bands.getD b 0 < 10000 := by
  have hf : (FFT_SAMPLING_FREQUENCY_HZ : K) = 20000 := by
    rw [FFT_SAMPLING_FREQUENCY_HZ]; norm_num
  obtain ⟨st, e, _, _, _, _, _, _, _, hb⟩ := FFT_Initialize_spec cos st0 h0
  refine ⟨hf, st, e, fun b hlt => ?_⟩
  have hv : st.FFT_Frequency_Bands.getD b 0 = 625 + 1250 * (b : K) := by
    rw [hb b hlt, hf]
    have : ((FFT_SAMPLE_MAX : Nat) : K) = 2048 := by norm_num [FFT_SAMPLE_MAX]
    rw [this]
    push_cast
    ring
  have hb0 : (0 : K) ≤ (b : K) := Nat.cast_nonneg b
  have hb7 : (b : K) ≤ 7 := by
    have : b ≤ 7 := by omega
    exact_mod_cast this
  refine ⟨?_, hv, ?_, ?_⟩
  · rw [hv]; ring
  · rw [hv]; linarith
  · rw [hv]; linarith

theorem C21_band_centre_frequencies_witness :
    (FFT_SAMPLING_FREQUENCY_HZ : ℚ) = 20000 ∧
    ∃ st, FFT_Initialize (fun x : ℚ => x) zeroState = some st ∧
      ∀ b : Nat, b < 8 →
        st.FFT_Frequency_Bands.getD b 0 = (20000 / 2048) * (128 / 2 + 128 * (b : ℚ)) ∧
        st.FFT_Frequency_Bands.getD b 0 = 625 + 1250 * (b : ℚ) ∧
        0 ≤ st.FFT_Frequency_Bands.getD b 0 ∧
        st.FFT_Frequency_Bands.getD b 0 < 10000 :=
  C21_band_centre_frequencies (fun x : ℚ => x) zeroState zeroState_WF

/-- C22: in every state reachable from `FFT_Initialize` by calls of `FFT_GetSample`,
`FFT_SetBufferAvailable` and `FFT_GetFrequencyResponse` (`FFT_GetBufferReady` only reads
the flag and leaves the state as it is): the write cursor is below 2048 and below the
length of `FFT_AudioSamples`, so `FFT_GetSample` performs its write in bounds and
returns; the ready flag, which is what `FFT_GetBufferReady` returns, is 0 or 1; and a
set ready flag implies that the cursor is 0. -/
theorem C22_reachable_state_invariant {K : Type} [Field K] (cos sqrt : K → K)
    (st : FFTState K) (hreach : Reachable cos sqrt st) :
    st.FFT_currentSample < 2048 ∧
    st.FFT_currentSample < st.FFT_AudioSamples.length ∧
    (∀ v : Nat, wr st.FFT_AudioSamples st.FFT_currentSample v ≠ none) ∧
    (∀ sample : Nat, ∃ st', FFT_GetSample st sample = some st') ∧
    (st.FFT_bufferReady = 0 ∨ st.FFT_bufferReady = 1) ∧
    (FFT_GetBufferReady st = 0 ∨ FFT_GetBufferReady st = 1) ∧
    (st.FFT_bufferReady = 1 → st.FFT_currentSample = 0) ∧
    (st.FFT_bufferReady ≠ 0 → st.FFT_currentSample = 0) := by
  obtain ⟨hwf, _, hcur, hflag, himp⟩ := StateInv_of_reachable cos sqrt st hreach
  have hlen : st.FFT_currentSample < st.FFT_AudioSamples.length := by
    rw [hwf.1]; exact hcur
  refine ⟨hcur, hlen, fun v => ?_, fun x => ?_, hflag, hflag, fun h => (himp h).1, fun h => ?_⟩
  · simp [wr, hlen]
  · rcases hflag with h | h
    · exact ⟨_, FFT_GetSample_filling st x hwf.1 h hcur⟩
    · exact ⟨st, FFT_GetSample_ready st x (by rw [h]; decide)⟩
  · rcases hflag with h0 | h1
    · exact absurd h0 h
    · exact (himp h1).1

theorem C22_reachable_state_invariant_witness :
    ∃ st : FFTState ℚ, Reachable (fun x => x) (fun x => x) st ∧ st.FFT_bufferReady ≠ 0 ∧
      (st.FFT_currentSample < 2048 ∧
      st.FFT_currentSample < st.FFT_AudioSamples.length ∧
      (∀ v : Nat, wr st.FFT_AudioSamples st.FFT_currentSample v ≠ none) ∧
      (∀ sample : Nat, ∃ st', FFT_GetSample st sample = some st') ∧
      (st.FFT_bufferReady = 0 ∨ st.FFT_bufferReady = 1) ∧
      (FFT_GetBufferReady st = 0 ∨ FFT_GetBufferReady st = 1) ∧
      (st.FFT_bufferReady = 1 → st.FFT_currentSample = 0) ∧
      (st.FFT_bufferReady ≠ 0 → st.FFT_currentSample = 0)) :=
  exists_reachable_ready.elim fun st h =>
    ⟨st, h.1, h.2, C22_reachable_state_invariant (fun x => x) (fun x => x) st h.1⟩

/-! ## Termination and index safety of `FFT` -/

theorem revWhile_zero : ∀ (fuel j : Nat), revWhile fuel (j, 0) = none := by
  intro fuel
  induction fuel with
  | zero => intro j; rfl
  | succ f ih =>
    intro j
    have h := ih j
    simp only [revWhile] at h
    simp only [revWhile, whileFuel, Nat.zero_le, decide_True, if_true, Option.some_bind,
      Nat.sub_zero, Nat.zero_shiftRight]
    exact h

theorem whileFuel_exit {σ : Type} (cond : σ → Bool) (body : σ → Option σ) :
    ∀ (fuel : Nat) (s s' : σ), whileFuel cond body fuel s = some s' → cond s' = false := by
  intro fuel
  induction fuel with
  | zero => intro s s' h; cases h
  | succ f ih =>
    intro s s' h
    simp only [whileFuel] at h
    by_cases hc : cond s = true
    · rw [if_pos hc] at h
      rcases hb : body s with _ | t
      · rw [hb] at h; cases h
      · rw [hb] at h
        exact ih t s' h
    · rw [if_neg hc] at h
      cases h
      simpa using hc

theorem bitrev_zero (m : Nat) : bitrev m 0 = 0 := by
  induction m with
  | zero => rfl
  | succ k ih => simp [bitrev, ih]

theorem bitrev_ones (m : Nat) : bitrev m (2 ^ m - 1) = 2 ^ m - 1 := by
  induction m with
  | zero => rfl
  | succ m ih =>
    have hp : 0 < 2 ^ m := Nat.two_pow_pos m
    have e : 2 ^ (m + 1) = 2 * 2 ^ m := by rw [pow_succ]; ring
    have e1 : (2 ^ (m + 1) - 1) % 2 = 1 := by rw [e]; omega
    have e2 : (2 ^ (m + 1) - 1) / 2 = 2 ^ m - 1 := by rw [e]; omega
    show (2 ^ (m + 1) - 1) % 2 * 2 ^ m + bitrev m ((2 ^ (m + 1) - 1) / 2) = 2 ^ (m + 1) - 1
    rw [e1, e2, ih, e]
    omega

theorem bitrev_ne_ones (m i : Nat) (hi : i + 1 < 2 ^ m) : bitrev m i ≠ 2 ^ m - 1 := by
  intro h
  have h1 := bitrev_bitrev m i (by omega)
  rw [h, bitrev_ones] at h1
  omega

theorem bitRevLoop_upto {α : Type} (m i fuel : Nat) (re im : List α)
    (hre : re.length = 2 ^ (m + 1)) (him : im.length = 2 ^ (m + 1))
    (hi : i + 1 ≤ 2 ^ (m + 1)) (hf : m < fuel) :
    ∃ s, forLoop 0 i (bitRevBody (2 ^ m) fuel) { re := re, im := im, j := 0 } = some s ∧
      s.j = bitrev (m + 1) i ∧ s.re.length = 2 ^ (m + 1) ∧ s.im.length = 2 ^ (m + 1) := by
  obtain ⟨s', h1, h2, h3, h4⟩ := forLoop_spec (bitRevBody (2 ^ m) fuel)
    (fun k s => RevInv (m + 1) k re s.re ∧ RevInv (m + 1) k im s.im ∧ s.j = bitrev (m + 1) k)
    0 i { re := re, im := im, j := 0 } (Nat.zero_le _)
    ⟨RevInv_init _ _ hre, RevInv_init _ _ him, (bitrev_zero _).symm⟩
    (fun k t _ hk ht => by
      obtain ⟨t', e1, e2, e3, e4⟩ := bitRevBody_spec m k fuel re im t (by omega) hf
        ht.1 ht.2.1 ht.2.2
      exact ⟨t', e1, e2, e3, e4⟩)
  exact ⟨s', h1, h4, h2.1, h3.1⟩

theorem partner_in_bounds (m l j t : Nat) (hl : l < m) (hj : j < 2 ^ l)
    (hi : j + t * 2 ^ (l + 1) < 2 ^ m) : j + t * 2 ^ (l + 1) + 2 ^ l < 2 ^ m := by
  have hn : 2 ^ m = 2 ^ (l + 1) * 2 ^ (m - l - 1) := by
    rw [← pow_add]
    congr 1
    omega
  have hL : 2 ^ (l + 1) = 2 * 2 ^ l := by rw [pow_succ]; ring
  have ht : t < 2 ^ (m - l - 1) := by
    by_contra hge
    have hge' : 2 ^ (m - l - 1) ≤ t := by omega
    have := Nat.mul_le_mul_right (2 ^ (l + 1)) hge'
    rw [Nat.mul_comm (2 ^ (m - l - 1)) (2 ^ (l + 1)), ← hn] at this
    omega
  have h2 : (t + 1) * 2 ^ (l + 1) ≤ 2 ^ (m - l - 1) * 2 ^ (l + 1) :=
    Nat.mul_le_mul_right _ (by omega)
  rw [Nat.mul_comm (2 ^ (m - l - 1)) (2 ^ (l + 1)), ← hn, Nat.add_mul, Nat.one_mul] at h2
  omega

theorem bitRev_iteration {α : Type} (m i fuel : Nat) (re im : List α)
    (hre : re.length = 2 ^ m) (him : im.length = 2 ^ m)
    (hi : i + 1 < 2 ^ m) (hf : 2 ^ m < fuel) :
    ∃ s jk,
      forLoop 0 i (bitRevBody (2 ^ m >>> 1) fuel) { re := re, im := im, j := 0 } = some s ∧
      s.j = bitrev m i ∧ s.re.length = 2 ^ m ∧ s.im.length = 2 ^ m ∧
      revWhile fuel (s.j, 2 ^ m >>> 1) = some jk ∧ jk.1 < jk.2 ∧
      jk.1 + jk.2 = bitrev m (i + 1) := by
  cases m with
  | zero => simp at hi
  | succ m =>
    have hs : 2 ^ (m + 1) >>> 1 = 2 ^ m := by
      rw [Nat.shiftRight_eq_div_pow, pow_succ]; simp
    have hm : m < fuel := by
      have := Nat.lt_two_pow (m + 1)
      omega
    obtain ⟨s, h1, h2, h3, h4⟩ := bitRevLoop_upto m i fuel re im hre him (by omega) hm
    obtain ⟨jk, r1, r2⟩ := revWhile_spec m i fuel hi hm
    have hex := whileFuel_exit _ _ fuel _ jk r1
    have hlt : jk.1 < jk.2 := by
      simp only [decide_eq_false_iff_not, not_le] at hex
      exact hex
    rw [hs]
    rw [← h2] at r1
    exact ⟨s, jk, h1, h2, h3, h4, r1, hlt, r2⟩

/-- C23: `FFT` terminates. For every `m` and arrays of `2^m` elements, `FFT` returns as
soon as each of its loops is allowed more than `n = 2^m` iterations. In the bit-reversal
loop, at every iteration `i <= n - 2` the value of `j` with which `while (k <= j)` is
entered is different from `n - 1`, the while loop exits, and it exits with `k > j >= 0`,
so `k` has not reached 0; had `k` reached 0 the loop would never exit, whatever the
budget. -/
theorem C23_FFT_terminates {K : Type} [Field K] (sqrt : K → K) (dir : Int) (m fuel : Nat)
    (re im : List K) (hre : re.length = 2 ^ m) (him : im.length = 2 ^ m)
    (hf : 2 ^ m < fuel) :
    (∃ r, FFT sqrt fuel dir m re im = some r) ∧
    (∀ i : Nat, i + 1 < 2 ^ m →
      ∃ s jk,
        forLoop 0 i (bitRevBody (2 ^ m >>> 1) fuel) { re := re, im := im, j := 0 } = some s ∧
        s.j ≠ 2 ^ m - 1 ∧
        revWhile fuel (s.j, 2 ^ m >>> 1) = some jk ∧ jk.1 < jk.2 ∧ 0 < jk.2) ∧
    (∀ f j : Nat, revWhile f (j, 0) = none) := by
  obtain ⟨re', im', h, _⟩ := FFT_spec sqrt fuel dir m re im hre him hf
  refine ⟨⟨_, h⟩, fun i hi => ?_, revWhile_zero⟩
  obtain ⟨s, jk, h1, h2, _, _, h5, h6, _⟩ := bitRev_iteration m i fuel re im hre him hi hf
  refine ⟨s, jk, h1, ?_, h5, h6, by omega⟩
  rw [h2]
  exact bitrev_ne_ones m i hi

theorem C23_FFT_terminates_witness :
    (∃ r, FFT (fun x : ℚ => x) 5 1 2 [1, 2, 3, 4] [0, 0, 0, 0] = some r) ∧
    (∀ i : Nat, i + 1 < 2 ^ 2 →
      ∃ s jk,
        forLoop 0 i (bitRevBody (2 ^ 2 >>> 1) 5)
          { re := ([1, 2, 3, 4] : List ℚ), im := [0, 0, 0, 0], j := 0 } = some s ∧
        s.j ≠ 2 ^ 2 - 1 ∧
        revWhile 5 (s.j, 2 ^ 2 >>> 1) = some jk ∧ jk.1 < jk.2 ∧ 0 < jk.2) ∧
    (∀ f j : Nat, revWhile f (j, 0) = none) :=
  C23_FFT_terminates (fun x : ℚ => x) 1 2 5 [1, 2, 3, 4] [0, 0, 0, 0] rfl rfl (by decide)

/-- C24: for every `m` and arrays of `n = 2^m` elements every access of `FFT` is in
bounds: each read and write is checked (an index outside `0..n-1` makes the result
`none`) and `FFT` returns, with arrays of `n` elements. In the bit-reversal phase, at
every iteration `i <= n - 2`, both `i` and `j` are below `n`; in every butterfly of
stage `l` (offset `j < l1 = 2^l`, index `i = j + t*l2 < n`) the partner index
`i1 = i + l1` is below `n`, and the butterfly itself returns. -/
theorem C24_FFT_indices_in_bounds {K : Type} [Field K] (sqrt : K → K) (dir : Int)
    (m fuel : Nat) (re im : List K) (hre : re.length = 2 ^ m) (him : im.length = 2 ^ m)
    (hf : 2 ^ m < fuel) :
    (∃ re' im', FFT sqrt fuel dir m re im = some (re', im') ∧
      re'.length = 2 ^ m ∧ im'.length = 2 ^ m) ∧
    (∀ (a : List K) (i : Nat) (v : K), a.length ≤ i → rd a i = none ∧ wr a i v = none) ∧
    (∀ i : Nat, i + 1 < 2 ^ m →
      ∃ s, forLoop 0 i (bitRevBody (2 ^ m >>> 1) fuel)
          { re := re, im := im, j := 0 } = some s ∧
        i < s.re.length ∧ i < s.im.length ∧ s.j < s.re.length ∧ s.j < s.im.length ∧
        s.re.length = 2 ^ m ∧ s.im.length = 2 ^ m) ∧
    (∀ (l j t : Nat) (u1 u2 : K) (s : StrideState K), l < m → j < 2 ^ l →
      s.re.length = 2 ^ m → s.im.length = 2 ^ m → s.i = j + t * 2 ^ (l + 1) →
      s.i < 2 ^ m →
      s.i + 2 ^ l < 2 ^ m ∧ ∃ s', butterfly (2 ^ l) (2 ^ (l + 1)) u1 u2 s = some s') := by
  obtain ⟨re', im', h, h1, h2, _⟩ := FFT_spec sqrt fuel dir m re im hre him hf
  refine ⟨⟨re', im', h, h1, h2⟩, fun a i v hle => ?_, fun i hi => ?_,
    fun l j t u1 u2 s hl hj sre sim hsi hlt => ?_⟩
  · constructor
    · exact List.getElem?_eq_none hle
    · simp only [wr]
      rw [if_neg (by omega)]
  · obtain ⟨s, _, e1, e2, e3, e4, _, _, _⟩ := bitRev_iteration m i fuel re im hre him hi hf
    have hj : s.j < 2 ^ m := by rw [e2]; exact bitrev_lt m i
    refine ⟨s, e1, ?_, ?_, ?_, ?_, e3, e4⟩ <;> omega
  · have hb : s.i + 2 ^ l < 2 ^ m := by
      rw [hsi]
      rw [hsi] at hlt
      exact partner_in_bounds m l j t hl hj hlt
    obtain ⟨s', e, _⟩ := butterfly_spec (2 ^ l) (2 ^ (l + 1)) (2 ^ m) u1 u2 s sre sim
      (Nat.two_pow_pos l) hb
    exact ⟨hb, s', e⟩

theorem C24_FFT_indices_in_bounds_witness :
    (∃ re' im', FFT (fun x : ℚ => x) 5 1 2 [1, 2, 3, 4] [0, 0, 0, 0] = some (re', im') ∧
      re'.length = 2 ^ 2 ∧ im'.length = 2 ^ 2) ∧
    (∀ (a : List ℚ) (i : Nat) (v : ℚ), a.length ≤ i → rd a i = none ∧ wr a i v = none) ∧
    (∀ i : Nat, i + 1 < 2 ^ 2 →
      ∃ s, forLoop 0 i (bitRevBody (2 ^ 2 >>> 1) 5)
          { re := ([1, 2, 3, 4] : List ℚ), im := [0, 0, 0, 0], j := 0 } = some s ∧
        i < s.re.length ∧ i < s.im.length ∧ s.j < s.re.length ∧ s.j < s.im.length ∧
        s.re.length = 2 ^ 2 ∧ s.im.length = 2 ^ 2) ∧
    (∀ (l j t : Nat) (u1 u2 : ℚ) (s : StrideState ℚ), l < 2 → j < 2 ^ l →
      s.re.length = 2 ^ 2 → s.im.length = 2 ^ 2 → s.i = j + t * 2 ^ (l + 1) →
      s.i < 2 ^ 2 →
      s.i + 2 ^ l < 2 ^ 2 ∧ ∃ s', butterfly (2 ^ l) (2 ^ (l + 1)) u1 u2 s = some s') :=
  C24_FFT_indices_in_bounds (fun x : ℚ => x) 1 2 5 [1, 2, 3, 4] [0, 0, 0, 0] rfl rfl
    (by decide)

/-! ## Twiddle factors over the real numbers -/

theorem stageLoop_upto {K : Type} [Field K] (sqrt : K → K) (fuel : Nat) (dir : Int)
    (m l : Nat) (re im : List K) (hl : l ≤ m) (hf : 2 ^ m < fuel)
    (hre : re.length = 2 ^ m) (him : im.length = 2 ^ m) :
    ∃ s, forLoop 0 l (stageBody sqrt fuel dir (2 ^ m))
        { re := re, im := im, c1 := -1, c2 := 0, l2 := 1 } = some s ∧
      s.re.length = 2 ^ m ∧ s.im.length = 2 ^ m ∧ s.l2 = 2 ^ l ∧
      (s.c1, s.c2) = stageC sqrt dir l ∧
      ∀ p, p < 2 ^ m → cview s.re s.im p = stagesPure sqrt dir l (cview re im) p :=
  forLoop_spec (stageBody sqrt fuel dir (2 ^ m))
    (fun l (s : StageState K) => s.re.length = 2 ^ m ∧ s.im.length = 2 ^ m ∧ s.l2 = 2 ^ l ∧
      (s.c1, s.c2) = stageC sqrt dir l ∧
      ∀ p, p < 2 ^ m → cview s.re s.im p = stagesPure sqrt dir l (cview re im) p)
    0 l { re := re, im := im, c1 := -1, c2 := 0, l2 := 1 } (Nat.zero_le _)
    ⟨hre, him, rfl, rfl, fun _ _ => rfl⟩
    (fun k s _ hk ⟨a1, a2, a3, a4, a5⟩ =>
      stageBody_spec sqrt fuel dir m k (cview re im) s (by omega) hf a1 a2 a3 a4 a5)

theorem twiddleLoop_upto {K : Type} [Field K] (l1 l2 B n fuel j : Nat) (c1 c2 : K)
    (re im : List K) (hj : j ≤ l1) (hn : n = l1 * (2 * B)) (hl2 : l2 = l1 * 2)
    (hre : re.length = n) (him : im.length = n) (hf : n < fuel) :
    ∃ t, forLoop 0 j (twiddleBody fuel n l1 l2 c1 c2)
        { re := re, im := im, u1 := 1, u2 := 0 } = some t ∧
      t.re.length = n ∧ t.im.length = n ∧ (t.u1, t.u2) = twPow (c1, c2) j := by
  obtain ⟨t, ht, h1, h2, h3, _⟩ := forLoop_spec (twiddleBody fuel n l1 l2 c1 c2)
    (fun j (s : TwState K) => s.re.length = n ∧ s.im.length = n ∧
      (s.u1, s.u2) = twPow (c1, c2) j ∧
      ∀ p, p < n → cview s.re s.im p =
        if p % l1 < j then stagePure l1 (twPow (c1, c2)) (cview re im) p else cview re im p)
    0 j { re := re, im := im, u1 := 1, u2 := 0 } (Nat.zero_le _)
    ⟨hre, him, rfl, fun p _ => by simp⟩
    (fun k s _ hk ⟨a1, a2, a3, a4⟩ => by
      obtain ⟨t, e1, e2, e3, e4⟩ := strideLoop_spec l1 l2 B k n fuel (twPow (c1, c2))
        (cview re im) s.re s.im (by omega) hn a1 a2 hf hl2 a4
      have hu1 : (twPow (c1, c2) k).1 = s.u1 := by rw [← a3]
      have hu2 : (twPow (c1, c2) k).2 = s.u2 := by rw [← a3]
      rw [hu1, hu2] at e1
      refine ⟨{ re := t.re, im := t.im, u1 := s.u1 * c1 - s.u2 * c2,
                u2 := s.u1 * c2 + s.u2 * c1 }, ?_, e2, e3, ?_, e4⟩
      · simp only [twiddleBody, e1, Option.some_bind]
      · show (s.u1 * c1 - s.u2 * c2, s.u1 * c2 + s.u2 * c1) = cmul (twPow (c1, c2) k) (c1, c2)
        rw [← a3]; rfl)
  exact ⟨t, ht, h1, h2, h3⟩

theorem twPow_real (θ σ : ℝ) (hσ : σ * σ = 1) (j : Nat) :
    twPow (Real.cos θ, σ * Real.sin θ) j =
      (Real.cos ((j : ℝ) * θ), σ * Real.sin ((j : ℝ) * θ)) := by
  induction j with
  | zero => simp [twPow]
  | succ j ih =>
    have e : ((j + 1 : Nat) : ℝ) * θ = (j : ℝ) * θ + θ := by push_cast; ring
    simp only [twPow, ih, cmul]
    rw [e, Real.cos_add, Real.sin_add]
    refine Prod.ext ?_ ?_
    · show Real.cos ((j : ℝ) * θ) * Real.cos θ - σ * Real.sin ((j : ℝ) * θ) * (σ * Real.sin θ) =
        Real.cos ((j : ℝ) * θ) * Real.cos θ - Real.sin ((j : ℝ) * θ) * Real.sin θ
      have : σ * Real.sin ((j : ℝ) * θ) * (σ * Real.sin θ) =
          (σ * σ) * (Real.sin ((j : ℝ) * θ) * Real.sin θ) := by ring
      rw [this, hσ, one_mul]
    · show Real.cos ((j : ℝ) * θ) * (σ * Real.sin θ) + σ * Real.sin ((j : ℝ) * θ) * Real.cos θ =
        σ * (Real.sin ((j : ℝ) * θ) * Real.cos θ + Real.cos ((j : ℝ) * θ) * Real.sin θ)
      ring

theorem twPow_stageC_real (dir : Int) (l j : Nat) :
    twPow (stageC Real.sqrt dir l) j =
      (Real.cos (Real.pi * (j : ℝ) / 2 ^ l),
        if dir = 1 then -Real.sin (Real.pi * (j : ℝ) / 2 ^ l)
        else Real.sin (Real.pi * (j : ℝ) / 2 ^ l)) := by
  have e : (j : ℝ) * (Real.pi / 2 ^ l) = Real.pi * (j : ℝ) / 2 ^ l := by ring
  rw [stageC_real]
  by_cases hd : dir = 1
  · simp only [if_pos hd]
    have h := twPow_real (Real.pi / 2 ^ l) (-1) (by norm_num) j
    simp only [neg_one_mul] at h
    rw [h, e]
  · simp only [if_neg hd]
    have h := twPow_real (Real.pi / 2 ^ l) 1 (by norm_num) j
    simp only [one_mul] at h
    rw [h, e]

/-- C25: over the real numbers with the real square root, for arrays of `2^m` elements,
every stage `l < m` and every offset `j < l1 = 2^l`: the stage loop reaches stage `l`
with `l2 = 2^l` and `(c1, c2) = (cos(pi/2^l), -sin(pi/2^l))` when `dir = 1`, and
`(cos(pi/2^l), +sin(pi/2^l))` for every other `dir`; the `j` loop of that stage reaches
offset `j` with `(u1, u2) = (cos(pi*j/l1), -sin(pi*j/l1))` when `dir = 1` and
`(cos(pi*j/l1), +sin(pi*j/l1))` otherwise, the twiddle factor its butterflies use; and
the stage ends with the half-angle update giving `(c1, c2) = (cos(pi/2^(l+1)),
-sin(pi/2^(l+1)))` when `dir = 1`, with `+sin` otherwise, for stage `l + 1`. -/
theorem C25_twiddle_factors (fuel : Nat) (dir : Int) (m l j : Nat) (re im : List ℝ)
    (hre : re.length = 2 ^ m) (him : im.length = 2 ^ m) (hf : 2 ^ m < fuel)
    (hl : l < m) (hj : j < 2 ^ l) :
    ∃ s t s',
      forLoop 0 l (stageBody Real.sqrt fuel dir (2 ^ m))
        { re := re, im := im, c1 := -1, c2 := 0, l2 := 1 } = some s ∧
      s.l2 = 2 ^ l ∧
      s.c1 = Real.cos (Real.pi / 2 ^ l) ∧
      s.c2 = (if dir = 1 then -Real.sin (Real.pi / 2 ^ l) else Real.sin (Real.pi / 2 ^ l)) ∧
      forLoop 0 j (twiddleBody fuel (2 ^ m) s.l2 (s.l2 <<< 1) s.c1 s.c2)
        { re := s.re, im := s.im, u1 := 1, u2 := 0 } = some t ∧
      t.u1 = Real.cos (Real.pi * (j : ℝ) / 2 ^ l) ∧
      t.u2 = (if dir = 1 then -Real.sin (Real.pi * (j : ℝ) / 2 ^ l)
        else Real.sin (Real.pi * (j : ℝ) / 2 ^ l)) ∧
      stageBody Real.sqrt fuel dir (2 ^ m) l s = some s' ∧
      s'.c1 = Real.cos (Real.pi / 2 ^ (l + 1)) ∧
      s'.c2 = (if dir = 1 then -Real.sin (Real.pi / 2 ^ (l + 1))
        else Real.sin (Real.pi / 2 ^ (l + 1))) := by
  obtain ⟨s, h1, h2, h3, h4, h5, h6⟩ :=
    stageLoop_upto Real.sqrt fuel dir m l re im (by omega) hf hre him
  obtain ⟨s', g1, _, _, _, g5, _⟩ :=
    stageBody_spec Real.sqrt fuel dir m l (cview re im) s hl hf h2 h3 h4 h5 h6
  have hn : 2 ^ m = 2 ^ l * (2 * 2 ^ (m - l - 1)) := by
    have e : m = l + (m - l - 1 + 1) := by omega
    calc 2 ^ m = 2 ^ (l + (m - l - 1 + 1)) := by rw [← e]
      _ = 2 ^ l * (2 * 2 ^ (m - l - 1)) := by rw [pow_add, pow_succ]; ring
  have hshift : (2 ^ l) <<< 1 = 2 ^ l * 2 := by
    rw [Nat.shiftLeft_eq, pow_one]
  obtain ⟨t, t1, _, _, t4⟩ := twiddleLoop_upto (2 ^ l) (2 ^ l * 2) (2 ^ (m - l - 1)) (2 ^ m)
    fuel j s.c1 s.c2 s.re s.im (by omega) hn rfl h2 h3 hf
  have hc := h5
  rw [stageC_real] at hc
  have hc' := g5
  rw [stageC_real] at hc'
  have ht : (t.u1, t.u2) = twPow (stageC Real.sqrt dir l) j := by rw [t4, h5]
  rw [twPow_stageC_real] at ht
  refine ⟨s, t, s', h1, h4, congrArg Prod.fst hc, congrArg Prod.snd hc, ?_,
    congrArg Prod.fst ht, congrArg Prod.snd ht, g1, congrArg Prod.fst hc',
    congrArg Prod.snd hc'⟩
  rw [h4, hshift]
  exact t1

theorem C25_twiddle_factors_witness :
    ∃ s t s',
      forLoop 0 1 (stageBody Real.sqrt 5 1 (2 ^ 2))
        { re := [1, 2, 3, 4], im := [0, 0, 0, 0], c1 := -1, c2 := 0, l2 := 1 } = some s ∧
      s.l2 = 2 ^ 1 ∧
      s.c1 = Real.cos (Real.pi / 2 ^ 1) ∧
      s.c2 = (if (1 : Int) = 1 then -Real.sin (Real.pi / 2 ^ 1)
        else Real.sin (Real.pi / 2 ^ 1)) ∧
      forLoop 0 1 (twiddleBody 5 (2 ^ 2) s.l2 (s.l2 <<< 1) s.c1 s.c2)
        { re := s.re, im := s.im, u1 := 1, u2 := 0 } = some t ∧
      t.u1 = Real.cos (Real.pi * ((1 : Nat) : ℝ) / 2 ^ 1) ∧
      t.u2 = (if (1 : Int) = 1 then -Real.sin (Real.pi * ((1 : Nat) : ℝ) / 2 ^ 1)
        else Real.sin (Real.pi * ((1 : Nat) : ℝ) / 2 ^ 1)) ∧
      stageBody Real.sqrt 5 1 (2 ^ 2) 1 s = some s' ∧
      s'.c1 = Real.cos (Real.pi / 2 ^ (1 + 1)) ∧
      s'.c2 = (if (1 : Int) = 1 then -Real.sin (Real.pi / 2 ^ (1 + 1))
        else Real.sin (Real.pi / 2 ^ (1 + 1))) :=
  C25_twiddle_factors 5 1 2 1 1 [1, 2, 3, 4] [0, 0, 0, 0] rfl rfl (by decide) (by decide)
    (by decide)

/-! ## `TFT_ST7735_color565` -/

set_option maxRecDepth 100000 in
theorem and_0xF8 : ∀ r : Nat, r < 256 → r &&& 0xF8 = r / 8 * 8 := by decide

set_option maxRecDepth 100000 in
theorem and_0xFC : ∀ g : Nat, g < 256 → g &&& 0xFC = g / 4 * 4 := by decide

theorem color565_eq (r g b : Nat) (hr : r < 256) (hg : g < 256) (hb : b < 256) :
    TFT_ST7735_color565 r g b = (r / 8) * 2048 + (g / 4) * 32 + b / 8 := by
  have h1 : (r &&& 0xF8) <<< 8 = 2 ^ 11 * (r / 8) := by
    rw [and_0xF8 r hr, Nat.shiftLeft_eq]; norm_num; ring
  have h2 : (g &&& 0xFC) <<< 3 = (g / 4) * 32 := by
    rw [and_0xFC g hg, Nat.shiftLeft_eq]; norm_num; ring
  have h3 : b >>> 3 = b / 8 := by
    rw [Nat.shiftRight_eq_div_pow]
  have hg4 : g / 4 * 32 < 2 ^ 11 := by
    have e : (2 : Nat) ^ 11 = 2048 := by norm_num
    omega
  have hb8 : b / 8 < 2 ^ 5 := by
    have e : (2 : Nat) ^ 5 = 32 := by norm_num
    omega
  have e1 : 2 ^ 11 * (r / 8) ||| (g / 4) * 32 = 2 ^ 11 * (r / 8) + (g / 4) * 32 :=
    (Nat.mul_add_lt_is_or hg4 (r / 8)).symm
  have e2 : 2 ^ 11 * (r / 8) + (g / 4) * 32 = 2 ^ 5 * (64 * (r / 8) + g / 4) := by
    norm_num; ring
  have e3 : 2 ^ 5 * (64 * (r / 8) + g / 4) ||| b / 8 =
      2 ^ 5 * (64 * (r / 8) + g / 4) + b / 8 :=
    (Nat.mul_add_lt_is_or hb8 (64 * (r / 8) + g / 4)).symm
  rw [TFT_ST7735_color565, h1, h2, h3, e1, e2, e3]
  norm_num
  omega

/-- C28: for all 8-bit `r`, `g`, `b`, `TFT_ST7735_color565` returns
`(r div 8) * 2048 + (g div 4) * 32 + (b div 8)`, a value below `2^16`; its bits 15..11
are bits 7..3 of `r`, its bits 10..5 are bits 7..2 of `g` and its bits 4..0 are bits 7..3
of `b`; and `(255, 165, 0)` gives `0xFD20`. -/
theorem C28_color565_packs_rgb (r g b : Nat) (hr : r < 256) (hg : g < 256) (hb : b < 256) :
    TFT_ST7735_color565 r g b = (r / 8) * 2048 + (g / 4) * 32 + b / 8 ∧
    TFT_ST7735_color565 r g b < 2 ^ 16 ∧
    TFT_ST7735_color565 r g b / 2048 = r / 8 ∧
    (TFT_ST7735_color565 r g b / 32) % 64 = g / 4 ∧
    TFT_ST7735_color565 r g b % 32 = b / 8 ∧
    (∀ k : Nat, k < 5 → (TFT_ST7735_color565 r g b).testBit (11 + k) = r.testBit (3 + k)) ∧
    (∀ k : Nat, k < 6 → (TFT_ST7735_color565 r g b).testBit (5 + k) = g.testBit (2 + k)) ∧
    (∀ k : Nat, k < 5 → (TFT_ST7735_color565 r g b).testBit k = b.testBit (3 + k)) ∧
    TFT_ST7735_color565 255 165 0 = 0xFD20 := by
  have h := color565_eq r g b hr hg hb
  have hhi : TFT_ST7735_color565 r g b / 2048 = r / 8 := by rw [h]; omega
  have hmid : (TFT_ST7735_color565 r g b / 32) % 64 = g / 4 := by rw [h]; omega
  have hlo : TFT_ST7735_color565 r g b % 32 = b / 8 := by rw [h]; omega
  refine ⟨h, by rw [h]; norm_num; omega, hhi, hmid, hlo, fun k _ => ?_, fun k hk => ?_,
    fun k hk => ?_, by decide⟩
  · have e1 : TFT_ST7735_color565 r g b >>> 11 = r >>> 3 := by
      rw [Nat.shiftRight_eq_div_pow, Nat.shiftRight_eq_div_pow]
      exact hhi
    rw [← Nat.testBit_shiftRight, ← Nat.testBit_shiftRight, e1]
  · have e1 : (TFT_ST7735_color565 r g b >>> 5) % 2 ^ 6 = g >>> 2 := by
      rw [Nat.shiftRight_eq_div_pow, Nat.shiftRight_eq_div_pow]
      exact hmid
    rw [← Nat.testBit_shiftRight, ← Nat.testBit_shiftRight, ← e1, Nat.testBit_mod_two_pow]
    simp [hk]
  · have e1 : TFT_ST7735_color565 r g b % 2 ^ 5 = b >>> 3 := by
      rw [Nat.shiftRight_eq_div_pow]
      exact hlo
    rw [← Nat.testBit_shiftRight, ← e1, Nat.testBit_mod_two_pow]
    simp [hk]

theorem C28_color565_packs_rgb_witness :
    TFT_ST7735_color565 173 255 47 = (173 / 8) * 2048 + (255 / 4) * 32 + 47 / 8 ∧
    TFT_ST7735_color565 173 255 47 < 2 ^ 16 ∧
    TFT_ST7735_color565 173 255 47 / 2048 = 173 / 8 ∧
    (TFT_ST7735_color565 173 255 47 / 32) % 64 = 255 / 4 ∧
    TFT_ST7735_color565 173 255 47 % 32 = 47 / 8 ∧
    (∀ k : Nat, k < 5 →
      (TFT_ST7735_color565 173 255 47).testBit (11 + k) = (173).testBit (3 + k)) ∧
    (∀ k : Nat, k < 6 →
      (TFT_ST7735_color565 173 255 47).testBit (5 + k) = (255).testBit (2 + k)) ∧
    (∀ k : Nat, k < 5 → (TFT_ST7735_color565 173 255 47).testBit k = (47).testBit (3 + k)) ∧
    TFT_ST7735_color565 255 165 0 = 0xFD20 :=
  C28_color565_packs_rgb 173 255 47 (by decide) (by decide) (by decide)

/-! ## `FFT_PlotFrequencyResponse` -/

theorem setRotation_one (tft0 : TFTState) :
    TFT_ST7735_width (TFT_ST7735_setRotation tft0 1) = 160 ∧
    TFT_ST7735_height (TFT_ST7735_setRotation tft0 1) = 128 := ⟨rfl, rfl⟩

theorem barHeight_range {K : Type} [Field K] (toInt : K → Int) (v : K) :
    0 ≤ barHeight toInt v ∧ barHeight toInt v ≤ 108 := by
  simp only [barHeight]
  split
  · omega
  · split <;> omega

theorem plotLabels_returns {K : Type} [Field K] (toInt : K → Int) (tft : TFTState)
    (bands : List K) (calls : List TftCall) (hb : bands.length = FFT_FREQ_BANDS) :
    ∃ cs, plotLabels toInt tft bands calls = some cs := by
  obtain ⟨s, h, _⟩ := forLoop_spec
    (plotLabelBody toInt tft bands (toUInt8 (TFT_ST7735_height tft - TFT_FONT_1_HEIGHT)))
    (fun _ _ => True) 0 FFT_FREQ_BANDS
    { x := toUInt8 0,
      calls := calls ++ [TftCall.setTextColor ST7735_YELLOW] ++
        [TftCall.fillRect (toInt16 (toUInt8 0)) 0 (TFT_ST7735_width tft) 10 ST7735_BLACK] ++
        [TftCall.drawCentreString plotTitle (Int.tdiv (TFT_ST7735_width tft) 2) 0 1] ++
        [TftCall.fillRect (toInt16 (toUInt8 0))
          (toInt16 (toUInt8 (TFT_ST7735_height tft - TFT_FONT_1_HEIGHT) - 1))
          (TFT_ST7735_width tft) 10 ST7735_BLACK] }
    (Nat.zero_le _) trivial
    (fun k t _ hk _ => by
      have hk' : k < bands.length := by rw [hb]; exact hk
      simp only [plotLabelBody, rd_eq bands k hk', Option.some_bind]
      exact ⟨_, rfl, trivial⟩)
  exact ⟨s.calls, by simp only [plotLabels, h, Option.some_bind]⟩

theorem plotBars_out {K : Type} [Field K] (toInt : K → Int) (tft : TFTState)
    (out : List K) (calls : List TftCall) (hout : FFT_FREQ_BANDS ≤ out.length) :
    ∃ cs, plotBars toInt tft out calls =
      some (out.set 0 (out.getD 0 0 - 1.983), cs) := by
  have h0 : 0 < out.length := by
    have : FFT_FREQ_BANDS = 8 := rfl
    omega
  obtain ⟨s, h, _⟩ := forLoop_spec
    (plotBarBody toInt tft (out.set 0 (out.getD 0 0 - 1.983)))
    (fun _ _ => True) 0 FFT_FREQ_BANDS { x := toUInt8 0, calls := calls }
    (Nat.zero_le _) trivial
    (fun k t _ hk _ => by
      have hk' : k < (out.set 0 (out.getD 0 0 - 1.983)).length := by
        rw [List.length_set]; omega
      simp only [plotBarBody, rd_eq _ k hk', Option.some_bind]
      exact ⟨_, rfl, trivial⟩)
  exact ⟨s.calls, by
    simp only [plotBars, rd_eq out 0 h0, wr_eq out 0 _ h0, Option.some_bind, h]⟩

theorem plotBars_calls {K : Type} [Field K] (toInt : K → Int) (tft : TFTState)
    (out : List K) (calls : List TftCall) (hw : TFT_ST7735_width tft = 160)
    (hout : FFT_FREQ_BANDS ≤ out.length) :
    ∃ cs, plotBars toInt tft out calls =
        some (out.set 0 (out.getD 0 0 - 1.983), calls ++ cs) ∧ cs.length = 16 ∧
      ∀ b : Nat, b < 8 →
        cs[2 * b]? = some (TftCall.fillRect (20 * (b : Int) + 6)
          (118 - barHeight toInt ((out.set 0 (out.getD 0 0 - 1.983)).getD b 0)) 5
          (barHeight toInt ((out.set 0 (out.getD 0 0 - 1.983)).getD b 0)) ST7735_GREEN) ∧
        cs[2 * b + 1]? = some (TftCall.fillRect (20 * (b : Int) + 6) 10 5
          (108 - barHeight toInt ((out.set 0 (out.getD 0 0 - 1.983)).getD b 0))
          ST7735_WHITE) := by
  have h0 : 0 < out.length := by
    have : FFT_FREQ_BANDS = 8 := rfl
    omega
  obtain ⟨s, h, _, cs, hc, hl, hcs⟩ := forLoop_spec
    (plotBarBody toInt tft (out.set 0 (out.getD 0 0 - 1.983)))
    (fun k (s : PlotLoop) => s.x = 20 * (k : Int) ∧ ∃ cs, s.calls = calls ++ cs ∧
      cs.length = 2 * k ∧
      ∀ b : Nat, b < k →
        cs[2 * b]? = some (TftCall.fillRect (20 * (b : Int) + 6)
          (118 - barHeight toInt ((out.set 0 (out.getD 0 0 - 1.983)).getD b 0)) 5
          (barHeight toInt ((out.set 0 (out.getD 0 0 - 1.983)).getD b 0)) ST7735_GREEN) ∧
        cs[2 * b + 1]? = some (TftCall.fillRect (20 * (b : Int) + 6) 10 5
          (108 - barHeight toInt ((out.set 0 (out.getD 0 0 - 1.983)).getD b 0))
          ST7735_WHITE))
    0 FFT_FREQ_BANDS { x := toUInt8 0, calls := calls }
    (Nat.zero_le _) ⟨rfl, [], by simp, rfl, fun b hb => absurd hb (Nat.not_lt_zero b)⟩
    (fun k t _ hk ⟨hx, cs, hc, hl, hcs⟩ => by
      have hk8 : k < 8 := hk
      have hk' : k < (out.set 0 (out.getD 0 0 - 1.983)).length := by
        rw [List.length_set]; omega
      obtain ⟨r0, r1⟩ := barHeight_range toInt ((out.set 0 (out.getD 0 0 - 1.983)).getD k 0)
      simp only [plotBarBody, rd_eq _ k hk', Option.some_bind, hw, hx, hc]
      refine ⟨_, rfl, ?_, _, (List.append_assoc _ _ _), ?_, fun b hb => ?_⟩
      · show toUInt8 (toUInt32 (20 * (k : Int) + toUInt32 160 / 8)) = 20 * ((k + 1 : Nat) : Int)
        simp only [toUInt8, toUInt32]
        push_cast
        omega
      · simp only [List.length_append, hl, List.length_cons, List.length_nil]
        omega
      · have hlen : cs.length = 2 * k := hl
        by_cases hbk : b < k
        · obtain ⟨e1, e2⟩ := hcs b hbk
          rw [List.getElem?_append_left (by omega), List.getElem?_append_left (by omega)]
          exact ⟨e1, e2⟩
        · have hbe : b = k := by omega
          subst hbe
          rw [List.getElem?_append_right (by omega), List.getElem?_append_right (by omega)]
          have i0 : 2 * b - cs.length = 0 := by omega
          have i1 : 2 * b + 1 - cs.length = 1 := by omega
          rw [i0, i1]
          have a1 : toInt16 (20 * (b : Int) + 6) = 20 * (b : Int) + 6 := by
            simp only [toInt16]; omega
          have a2 : toInt16 (toUInt8 10 + (108 -
              barHeight toInt ((out.set 0 (out.getD 0 0 - 1.983)).getD b 0))) =
              118 - barHeight toInt ((out.set 0 (out.getD 0 0 - 1.983)).getD b 0) := by
            simp only [toInt16, toUInt8]; omega
          have a3 : toInt16 (toUInt32 (toUInt32 160 / 8 - 15)) = 5 := by decide
          have a4 : toInt16 (barHeight toInt ((out.set 0 (out.getD 0 0 - 1.983)).getD b 0)) =
              barHeight toInt ((out.set 0 (out.getD 0 0 - 1.983)).getD b 0) := by
            simp only [toInt16]; omega
          have a5 : toInt16 (toUInt8 10) = 10 := by decide
          have a6 : toInt16 (108 -
              barHeight toInt ((out.set 0 (out.getD 0 0 - 1.983)).getD b 0)) =
              108 - barHeight toInt ((out.set 0 (out.getD 0 0 - 1.983)).getD b 0) := by
            simp only [toInt16]; omega
          rw [a1, a2, a3, a4, a5, a6]
          exact ⟨rfl, rfl⟩)
  refine ⟨cs, ?_, hl, hcs⟩
  simp only [plotBars, rd_eq out 0 h0, wr_eq out 0 _ h0, Option.some_bind, h, hc]

theorem bar_geometry (b : Nat) (h : Int) (hb : b < 8) (h0 : 0 ≤ h) (h1 : h ≤ 108) :
    (∀ px py : Int,
      ¬ ((TFT_ST7735_fillRect (20 * (b : Int) + 6) (118 - h) 5 h ST7735_GREEN).covers px py ∧
        (TFT_ST7735_fillRect (20 * (b : Int) + 6) 10 5 (108 - h) ST7735_WHITE).covers px py)) ∧
    (∀ px py : Int,
      ((TFT_ST7735_fillRect (20 * (b : Int) + 6) (118 - h) 5 h ST7735_GREEN).covers px py ∨
        (TFT_ST7735_fillRect (20 * (b : Int) + 6) 10 5 (108 - h) ST7735_WHITE).covers px py) ↔
      (20 * (b : Int) + 6 ≤ px ∧ px ≤ 20 * (b : Int) + 10 ∧ 10 ≤ py ∧ py ≤ 117)) ∧
    (∀ px py : Int,
      ((TFT_ST7735_fillRect (20 * (b : Int) + 6) (118 - h) 5 h ST7735_GREEN).covers px py ∨
        (TFT_ST7735_fillRect (20 * (b : Int) + 6) 10 5 (108 - h) ST7735_WHITE).covers px py) →
      0 ≤ px ∧ px < 160 ∧ 0 ≤ py ∧ py < 128) ∧
    (TFT_ST7735_fillRect (20 * (b : Int) + 6) (118 - h) 5 h ST7735_GREEN).pixels =
      5 * h.toNat ∧
    (TFT_ST7735_fillRect (20 * (b : Int) + 6) 10 5 (108 - h) ST7735_WHITE).pixels =
      5 * (108 - h).toNat ∧
    (TFT_ST7735_fillRect (20 * (b : Int) + 6) (118 - h) 5 h ST7735_GREEN).pixels +
      (TFT_ST7735_fillRect (20 * (b : Int) + 6) 10 5 (108 - h) ST7735_WHITE).pixels = 540 := by
  have hpix : ∀ (x y t : Int) (c : Nat), 0 ≤ t →
      (TFT_ST7735_fillRect x y 5 t c).pixels = 5 * t.toNat := by
    intro x y t c ht
    simp only [TFT_ST7735_fillRect]
    split
    · rfl
    · exact Nat.mul_comm _ _
  have hx1 : toInt16 (20 * (b : Int) + 6 + 5 - 1) = 20 * (b : Int) + 10 := by
    simp only [toInt16]; omega
  have hy1 : toInt16 (118 - h + h - 1) = 117 := by
    simp only [toInt16]; omega
  have hy2 : toInt16 (10 + (108 - h) - 1) = 117 - h := by
    simp only [toInt16]; omega
  have pG := hpix (20 * (b : Int) + 6) (118 - h) h ST7735_GREEN h0
  have pW := hpix (20 * (b : Int) + 6) 10 (108 - h) ST7735_WHITE (by omega)
  refine ⟨fun px py => ?_, fun px py => ?_, fun px py => ?_, pG, pW, ?_⟩
  · simp only [FillEffect.covers, TFT_ST7735_fillRect, hx1, hy1, hy2]
    omega
  · simp only [FillEffect.covers, TFT_ST7735_fillRect, hx1, hy1, hy2]
    omega
  · simp only [FillEffect.covers, TFT_ST7735_fillRect, hx1, hy1, hy2]
    omega
  · rw [pG, pW]
    omega

/-- C26: with the display in rotation 1 (160 x 128), `FFT_PlotFrequencyResponse` returns
for every band vector of 8 values (whatever the conversion to `int32_t` yields), and the
calls it ends with are 16 `TFT_ST7735_fillRect` calls, two per band `b`: a green one
`(20*b + 6, 118 - h, 5, h)` and a white one `(20*b + 6, 10, 5, 108 - h)`, where the bar
height `h` is clamped to `0..108`. With clip checking compiled out, the two address
windows are disjoint, together are exactly columns `20*b+6 .. 20*b+10` of rows
`10..117`, lie inside the screen, and receive `5*h` and `5*(108-h)` pixels, 540 in all. -/
theorem C26_bars_inside_screen {K : Type} [Field K] (toInt : K → Int) (tft0 : TFTState)
    (st : FFTState K) (initializedScreen : Nat) (out : List K)
    (hst : st.WF) (hout : out.length = 8) :
    TFT_ST7735_width (TFT_ST7735_setRotation tft0 1) = 160 ∧
    TFT_ST7735_height (TFT_ST7735_setRotation tft0 1) = 128 ∧
    ∃ init1 out1 pre bars,
      FFT_PlotFrequencyResponse toInt (TFT_ST7735_setRotation tft0 1) st initializedScreen
        out = some (init1, out1, pre ++ bars) ∧
      (initializedScreen ≠ 0 → pre = []) ∧ bars.length = 16 ∧
      ∀ b : Nat, b < 8 → ∃ h : Int,
        h = barHeight toInt (out1.getD b 0) ∧ 0 ≤ h ∧ h ≤ 108 ∧
        bars[2 * b]? =
          some (TftCall.fillRect (20 * (b : Int) + 6) (118 - h) 5 h ST7735_GREEN) ∧
        bars[2 * b + 1]? =
          some (TftCall.fillRect (20 * (b : Int) + 6) 10 5 (108 - h) ST7735_WHITE) ∧
        (∀ px py : Int,
          ¬ ((TFT_ST7735_fillRect (20 * (b : Int) + 6) (118 - h) 5 h ST7735_GREEN).covers
              px py ∧
            (TFT_ST7735_fillRect (20 * (b : Int) + 6) 10 5 (108 - h) ST7735_WHITE).covers
              px py)) ∧
        (∀ px py : Int,
          ((TFT_ST7735_fillRect (20 * (b : Int) + 6) (118 - h) 5 h ST7735_GREEN).covers
              px py ∨
            (TFT_ST7735_fillRect (20 * (b : Int) + 6) 10 5 (108 - h) ST7735_WHITE).covers
              px py) ↔
          (20 * (b : Int) + 6 ≤ px ∧ px ≤ 20 * (b : Int) + 10 ∧ 10 ≤ py ∧ py ≤ 117)) ∧
        (∀ px py : Int,
          ((TFT_ST7735_fillRect (20 * (b : Int) + 6) (118 - h) 5 h ST7735_GREEN).covers
              px py ∨
            (TFT_ST7735_fillRect (20 * (b : Int) + 6) 10 5 (108 - h) ST7735_WHITE).covers
              px py) →
          0 ≤ px ∧ px < 160 ∧ 0 ≤ py ∧ py < 128) ∧
        (TFT_ST7735_fillRect (20 * (b : Int) + 6) (118 - h) 5 h ST7735_GREEN).pixels =
          5 * h.toNat ∧
        (TFT_ST7735_fillRect (20 * (b : Int) + 6) 10 5 (108 - h) ST7735_WHITE).pixels =
          5 * (108 - h).toNat ∧
        (TFT_ST7735_fillRect (20 * (b : Int) + 6) (118 - h) 5 h ST7735_GREEN).pixels +
          (TFT_ST7735_fillRect (20 * (b : Int) + 6) 10 5 (108 - h) ST7735_WHITE).pixels =
          540 := by
  have hout' : FFT_FREQ_BANDS ≤ out.length := by rw [hout]; exact Nat.le_refl _
  refine ⟨rfl, rfl, ?_⟩
  have hsplit : ∃ (i1 : Nat) (pre : List TftCall), (initializedScreen ≠ 0 → pre = []) ∧
      FFT_PlotFrequencyResponse toInt (TFT_ST7735_setRotation tft0 1) st initializedScreen
          out =
        (plotBars toInt (TFT_ST7735_setRotation tft0 1) out pre).bind
          (fun r => some (i1, r.1, r.2)) := by
    by_cases hi : 0 = initializedScreen
    · obtain ⟨lc, hl⟩ := plotLabels_returns toInt (TFT_ST7735_setRotation tft0 1)
        st.FFT_Frequency_Bands [] hst.2.2
      refine ⟨1, lc, fun hne => absurd hi.symm hne, ?_⟩
      simp only [FFT_PlotFrequencyResponse, hi, if_true, hl, Option.some_bind]
    · refine ⟨initializedScreen, [], fun _ => rfl, ?_⟩
      simp only [FFT_PlotFrequencyResponse, hi, if_false, Option.some_bind]
  obtain ⟨i1, pre, hpre, heq⟩ := hsplit
  obtain ⟨cs, c1, c2, c3⟩ := plotBars_calls toInt (TFT_ST7735_setRotation tft0 1) out pre
    rfl hout'
  rw [c1, Option.some_bind] at heq
  refine ⟨i1, _, pre, cs, heq, hpre, c2, fun b hb => ?_⟩
  obtain ⟨r0, r1⟩ := barHeight_range toInt ((out.set 0 (out.getD 0 0 - 1.983)).getD b 0)
  exact ⟨_, rfl, r0, r1, (c3 b hb).1, (c3 b hb).2, bar_geometry b _ hb r0 r1⟩

theorem C26_bars_inside_screen_witness :
    TFT_ST7735_width (TFT_ST7735_setRotation tftInit 1) = 160 ∧
    TFT_ST7735_height (TFT_ST7735_setRotation tftInit 1) = 128 ∧
    ∃ init1 out1 pre bars,
      FFT_PlotFrequencyResponse truncQ (TFT_ST7735_setRotation tftInit 1) zeroState 0
        [3, 1 / 4, 0, 2, -1, 1 / 8, 0, 1] = some (init1, out1, pre ++ bars) ∧
      ((0 : Nat) ≠ 0 → pre = []) ∧ bars.length = 16 ∧
      ∀ b : Nat, b < 8 → ∃ h : Int,
        h = barHeight truncQ (out1.getD b 0) ∧ 0 ≤ h ∧ h ≤ 108 ∧
        bars[2 * b]? =
          some (TftCall.fillRect (20 * (b : Int) + 6) (118 - h) 5 h ST7735_GREEN) ∧
        bars[2 * b + 1]? =
          some (TftCall.fillRect (20 * (b : Int) + 6) 10 5 (108 - h) ST7735_WHITE) ∧
        (∀ px py : Int,
          ¬ ((TFT_ST7735_fillRect (20 * (b : Int) + 6) (118 - h) 5 h ST7735_GREEN).covers
              px py ∧
            (TFT_ST7735_fillRect (20 * (b : Int) + 6) 10 5 (108 - h) ST7735_WHITE).covers
              px py)) ∧
        (∀ px py : Int,
          ((TFT_ST7735_fillRect (20 * (b : Int) + 6) (118 - h) 5 h ST7735_GREEN).covers
              px py ∨
            (TFT_ST7735_fillRect (20 * (b : Int) + 6) 10 5 (108 - h) ST7735_WHITE).covers
              px py) ↔
          (20 * (b : Int) + 6 ≤ px ∧ px ≤ 20 * (b : Int) + 10 ∧ 10 ≤ py ∧ py ≤ 117)) ∧
        (∀ px py : Int,
          ((TFT_ST7735_fillRect (20 * (b : Int) + 6) (118 - h) 5 h ST7735_GREEN).covers
              px py ∨
            (TFT_ST7735_fillRect (20 * (b : Int) + 6) 10 5 (108 - h) ST7735_WHITE).covers
              px py) →
          0 ≤ px ∧ px < 160 ∧ 0 ≤ py ∧ py < 128) ∧
        (TFT_ST7735_fillRect (20 * (b : Int) + 6) (118 - h) 5 h ST7735_GREEN).pixels =
          5 * h.toNat ∧
        (TFT_ST7735_fillRect (20 * (b : Int) + 6) 10 5 (108 - h) ST7735_WHITE).pixels =
          5 * (108 - h).toNat ∧
        (TFT_ST7735_fillRect (20 * (b : Int) + 6) (118 - h) 5 h ST7735_GREEN).pixels +
          (TFT_ST7735_fillRect (20 * (b : Int) + 6) 10 5 (108 - h) ST7735_WHITE).pixels =
          540 :=
  C26_bars_inside_screen truncQ tftInit zeroState 0 [3, 1 / 4, 0, 2, -1, 1 / 8, 0, 1]
    zeroState_WF rfl

theorem plot_out {K : Type} [Field K] (toInt : K → Int) (tft : TFTState)
    (st : FFTState K) (initializedScreen : Nat) (out : List K)
    (hst : st.WF) (hout : FFT_FREQ_BANDS ≤ out.length) :
    ∃ i1 cs, FFT_PlotFrequencyResponse toInt tft st initializedScreen out =
      some (i1, out.set 0 (out.getD 0 0 - 1.983), cs) := by
  by_cases hi : 0 = initializedScreen
  · obtain ⟨lc, hl⟩ := plotLabels_returns toInt tft st.FFT_Frequency_Bands [] hst.2.2
    obtain ⟨cs, hc⟩ := plotBars_out toInt tft out lc hout
    exact ⟨1, cs, by
      simp only [FFT_PlotFrequencyResponse, hi, if_true, hl, Option.some_bind, hc]⟩
  · obtain ⟨cs, hc⟩ := plotBars_out toInt tft out [] hout
    exact ⟨initializedScreen, cs, by
      simp only [FFT_PlotFrequencyResponse, hi, if_false, Option.some_bind, hc]⟩

/-- C27: `FFT_PlotFrequencyResponse` returns with the band vector changed in entry 0
only: entry 0 is the old value minus 1.983 and every other entry is as it was; this
holds on every call, so plotting the vector a second time leaves entry 0 at the
original value minus 1.983 twice, the other entries still unchanged. -/
theorem C27_plot_subtracts_dc_offset {K : Type} [Field K] (toInt : K → Int)
    (tft : TFTState) (st : FFTState K) (initializedScreen : Nat) (out : List K)
    (hst : st.WF) (hout : FFT_FREQ_BANDS ≤ out.length) :
    ∃ i1 out1 c1 i2 out2 c2,
      FFT_PlotFrequencyResponse toInt tft st initializedScreen out = some (i1, out1, c1) ∧
      out1.length = out.length ∧ out1.getD 0 0 = out.getD 0 0 - 1.983 ∧
      (∀ i : Nat, 1 ≤ i → out1[i]? = out[i]?) ∧
      FFT_PlotFrequencyResponse toInt tft st i1 out1 = some (i2, out2, c2) ∧
      out2.length = out.length ∧ out2.getD 0 0 = out.getD 0 0 - 1.983 - 1.983 ∧
      (∀ i : Nat, 1 ≤ i → out2[i]? = out[i]?) := by
  have h0 : 0 < out.length := by
    have : FFT_FREQ_BANDS = 8 := rfl
    omega
  obtain ⟨i1, c1, e1⟩ := plot_out toInt tft st initializedScreen out hst hout
  have hl1 : (out.set 0 (out.getD 0 0 - 1.983)).length = out.length := List.length_set _ _ _
  obtain ⟨i2, c2, e2⟩ := plot_out toInt tft st i1 (out.set 0 (out.getD 0 0 - 1.983)) hst
    (by rw [hl1]; exact hout)
  have g1 : (out.set 0 (out.getD 0 0 - 1.983)).getD 0 0 = out.getD 0 0 - 1.983 := by
    rw [getD_set out 0 0 _ h0, if_pos rfl]
  refine ⟨i1, _, c1, i2, _, c2, e1, hl1, g1, fun i hi => ?_, e2, ?_, ?_, fun i hi => ?_⟩
  · exact List.getElem?_set_ne (by omega)
  · rw [List.length_set, hl1]
  · rw [getD_set _ 0 0 _ (by rw [hl1]; exact h0), if_pos rfl, g1]
  · rw [List.getElem?_set_ne (by omega), List.getElem?_set_ne (by omega)]

theorem C27_plot_subtracts_dc_offset_witness :
    ∃ i1 out1 c1 i2 out2 c2,
      FFT_PlotFrequencyResponse truncQ (TFT_ST7735_setRotation tftInit 1) zeroState 0
        [3, 1 / 4, 0, 2, -1, 1 / 8, 0, 1] = some (i1, out1, c1) ∧
      out1.length = ([3, 1 / 4, 0, 2, -1, 1 / 8, 0, 1] : List ℚ).length ∧
      out1.getD 0 0 = ([3, 1 / 4, 0, 2, -1, 1 / 8, 0, 1] : List ℚ).getD 0 0 - 1.983 ∧
      (∀ i : Nat, 1 ≤ i → out1[i]? = ([3, 1 / 4, 0, 2, -1, 1 / 8, 0, 1] : List ℚ)[i]?) ∧
      FFT_PlotFrequencyResponse truncQ (TFT_ST7735_setRotation tftInit 1) zeroState i1
        out1 = some (i2, out2, c2) ∧
      out2.length = ([3, 1 / 4, 0, 2, -1, 1 / 8, 0, 1] : List ℚ).length ∧
      out2.getD 0 0 =
        ([3, 1 / 4, 0, 2, -1, 1 / 8, 0, 1] : List ℚ).getD 0 0 - 1.983 - 1.983 ∧
      (∀ i : Nat, 1 ≤ i → out2[i]? = ([3, 1 / 4, 0, 2, -1, 1 / 8, 0, 1] : List ℚ)[i]?) :=
  C27_plot_subtracts_dc_offset truncQ (TFT_ST7735_setRotation tftInit 1) zeroState 0
    [3, 1 / 4, 0, 2, -1, 1 / 8, 0, 1] zeroState_WF (by decide)

/-! ## `TFT_ST7735_ltoa` -/

theorem set_split {α : Type} (a : List α) (n : Nat) (v : α) (h : n < a.length) :
    a.set n v = a.take n ++ v :: a.drop (n + 1) := by
  rw [List.set_eq_take_append_cons_drop, if_pos h]

theorem neg_tmod_cast (n b : Nat) : Int.tmod (-(n : Int)) (b : Int) = -((n % b : Nat) : Int) := by
  rw [Int.tmod_def, Int.neg_tdiv, ← Int.ofNat_tdiv, Int.ofNat_tmod, Int.tmod_def,
    ← Int.ofNat_tdiv]
  ring

theorem ltoaBody_step (b n : Nat) (neg : Bool) (buf : List Nat) (tail : Nat) (i : Int)
    (ht : tail < buf.length) :
    ltoaBody (b : Int)
        { buf := buf, tail := (tail : Int), i := i,
          uarg := if neg then -(n : Int) else (n : Int) } =
      some { buf := buf.set tail (ltoaDigit (if neg then -((n % b : Nat) : Int)
                else ((n % b : Nat) : Int))),
             tail := (tail : Int) - 1, i := i + 1,
             uarg := if neg then -((n / b : Nat) : Int) else ((n / b : Nat) : Int) } := by
  have hw : ∀ v : Nat, wrI buf (tail : Int) v = some (buf.set tail v) := by
    intro v
    simp only [wrI, Int.natCast_nonneg, if_true, Int.toNat_ofNat, wr, ht]
  cases neg
  · simp only [ltoaBody, Bool.false_eq_true, if_false, hw, Option.some_bind,
      ← Int.ofNat_tdiv, ← Int.ofNat_tmod]
  · simp only [ltoaBody, if_true, hw, Option.some_bind, Int.neg_tdiv, neg_tmod_cast,
      ← Int.ofNat_tdiv]

theorem ltoaLoop_spec (b : Nat) (hb : 2 ≤ b) (neg : Bool) :
    ∀ (n : Nat) (buf : List Nat) (tail : Nat) (i : Int) (fuel : Nat),
      (Nat.digits b n).length ≤ tail → tail < buf.length → (Nat.digits b n).length < fuel →
      whileFuel (fun s => decide (s.uarg ≠ 0)) (ltoaBody (b : Int)) fuel
          { buf := buf, tail := (tail : Int), i := i,
            uarg := if neg then -(n : Int) else (n : Int) } =
        some { buf := buf.take (tail + 1 - (Nat.digits b n).length) ++
                  ((Nat.digits b n).map (fun d : Nat =>
                    ltoaDigit (if neg then -(d : Int) else (d : Int)))).reverse ++
                  buf.drop (tail + 1),
               tail := (tail : Int) - ((Nat.digits b n).length : Int),
               i := i + ((Nat.digits b n).length : Int),
               uarg := 0 } := by
  intro n
  induction n using Nat.strong_induction_on with
  | _ n ih =>
    intro buf tail i fuel hL ht hf
    obtain ⟨f, rfl⟩ : ∃ f, fuel = f + 1 := ⟨fuel - 1, by omega⟩
    by_cases hn : n = 0
    · subst hn
      cases neg <;>
      simp only [whileFuel, Bool.false_eq_true, if_false, if_true, Nat.cast_zero, neg_zero,
        ne_eq, not_true_eq_false, decide_False, Nat.digits_zero, List.length_nil,
        Nat.sub_zero, List.map_nil, List.reverse_nil, List.append_nil, List.take_append_drop,
        sub_zero, add_zero]
    · have hpos : 0 < n := by omega
      have hd : Nat.digits b n = n % b :: Nat.digits b (n / b) :=
        Nat.digits_def' (by omega) hpos
      rw [hd] at hL hf
      simp only [List.length_cons] at hL hf
      have hlt : n / b < n := Nat.div_lt_self hpos (by omega)
      have hu : (if neg then -(n : Int) else (n : Int)) ≠ 0 := by
        cases neg
        · simp only [Bool.false_eq_true, if_false]; omega
        · simp only [if_true]; omega
      have hcond : decide ((if neg then -(n : Int) else (n : Int)) ≠ 0) = true := by
        simpa using hu
      have ht1 : ((tail - 1 : Nat) : Int) = (tail : Int) - 1 := by omega
      have hrec := ih (n / b) hlt
        (buf.set tail (ltoaDigit (if neg then -((n % b : Nat) : Int)
          else ((n % b : Nat) : Int))))
        (tail - 1) (i + 1) f (by omega) (by rw [List.length_set]; omega) (by omega)
      rw [ht1] at hrec
      simp only [whileFuel]
      rw [if_pos hcond, ltoaBody_step b n neg buf tail i ht, Option.some_bind, hrec, hd]
      have e1 : tail - 1 + 1 - (Nat.digits b (n / b)).length =
          tail + 1 - (n % b :: Nat.digits b (n / b)).length := by
        simp only [List.length_cons]; omega
      have e2 : tail - 1 + 1 = tail := by omega
      have hb1 : (buf.set tail (ltoaDigit (if neg then -((n % b : Nat) : Int)
            else ((n % b : Nat) : Int)))).take
            (tail + 1 - (n % b :: Nat.digits b (n / b)).length) =
          buf.take (tail + 1 - (n % b :: Nat.digits b (n / b)).length) := by
        rw [set_split buf tail _ ht, List.take_append_of_le_length
          (by rw [List.length_take]; simp only [List.length_cons]; omega), List.take_take]
        congr 1
        simp only [List.length_cons]; omega
      have hb2 : (buf.set tail (ltoaDigit (if neg then -((n % b : Nat) : Int)
            else ((n % b : Nat) : Int)))).drop tail =
          ltoaDigit (if neg then -((n % b : Nat) : Int) else ((n % b : Nat) : Int)) ::
            buf.drop (tail + 1) := by
        rw [set_split buf tail _ ht, List.drop_left' (by rw [List.length_take]; omega)]
      rw [e1, e2, hb1, hb2]
      simp only [Option.some.injEq, LtoaState.mk.injEq, List.map_cons, List.reverse_cons,
        List.append_assoc, List.singleton_append, List.length_cons, and_true, true_and]
      constructor
      · push_cast; ring
      · push_cast; ring
theorem ltoaDigit_eq_digitChar (d : Nat) (hd : d < 36) : ltoaDigit (d : Int) = digitChar d := by
  simp only [ltoaDigit, digitChar, toUInt8]
  by_cases h : 9 < d
  · have h' : (9 : Int) < (d : Int) := by omega
    rw [if_pos h, if_pos h']
    omega
  · have h' : ¬ (9 : Int) < (d : Int) := by omega
    rw [if_neg h, if_neg h']
    omega

theorem digits_map_ltoaDigit (b n : Nat) (hb : 2 ≤ b) (hb36 : b ≤ 36) :
    ((Nat.digits b n).map (fun d : Nat =>
      ltoaDigit (if false = true then -(d : Int) else (d : Int)))).reverse =
      digitsText b n := by
  simp only [digitsText, Bool.false_eq_true, if_false]
  congr 1
  apply List.map_congr_left
  intro d hd
  have := Nat.digits_lt_base (by omega : 1 < b) hd
  exact ltoaDigit_eq_digitChar d (by omega)

theorem digits_length_le (b n k : Nat) (hb : 2 ≤ b) (hn : n < b ^ k) :
    (Nat.digits b n).length ≤ k := by
  by_contra hlt
  have hk : k + 1 ≤ (Nat.digits b n).length := by omega
  have hn0 : n ≠ 0 := by
    intro h0
    rw [h0, Nat.digits_zero] at hk
    simp at hk
  have h1 := Nat.base_pow_length_digits_le b n (by omega) hn0
  have h2 : b ^ (k + 1) ≤ b ^ (Nat.digits b n).length :=
    Nat.pow_le_pow_right (by omega) hk
  have h3 : b * n < b * b ^ k := Nat.mul_lt_mul_of_pos_left hn (by omega)
  rw [pow_succ, Nat.mul_comm (b ^ k) b] at h2
  omega

theorem digits_length_long (b n : Nat) (hb : 2 ≤ b) (hn : n ≤ 2147483648) :
    (Nat.digits b n).length ≤ 32 := by
  apply digits_length_le b n 32 hb
  have h1 : (2 : Nat) ^ 32 ≤ b ^ 32 := Nat.pow_le_pow_left hb 32
  have h2 : (2 : Nat) ^ 32 = 4294967296 := by norm_num
  omega

theorem digits_length_long_pos (b n : Nat) (hb : 2 ≤ b) (hn : n < 2147483648) :
    (Nat.digits b n).length ≤ 31 := by
  apply digits_length_le b n 31 hb
  have h1 : (2 : Nat) ^ 31 ≤ b ^ 31 := Nat.pow_le_pow_left hb 31
  have h2 : (2 : Nat) ^ 31 = 2147483648 := by norm_num
  omega

theorem digits_length_ten (n : Nat) (hn : n ≤ 2147483648) :
    (Nat.digits 10 n).length ≤ 10 := by
  apply digits_length_le 10 n 10 (by decide)
  have h2 : (10 : Nat) ^ 10 = 10000000000 := by norm_num
  omega

theorem drop_set_last (buf : List Nat) (hbuf : buf.length = 33) :
    (buf.set 32 0).drop 32 = [0] := by
  rw [set_split buf 32 0 (by omega), List.drop_left' (by rw [List.length_take]; omega),
    List.drop_eq_nil_of_le (by omega)]

theorem ltoa_finish (b n : Nat) (neg : Bool) (hb : 2 ≤ b) (fuel head : Nat)
    (str buf : List Nat) (hbuf : buf.length = 33)
    (hL : (Nat.digits b n).length ≤ 31) (hf : (Nat.digits b n).length < fuel)
    (hstr : head + ((Nat.digits b n).length + 1) ≤ str.length) :
    ((whileFuel (fun s => decide (s.uarg ≠ 0)) (ltoaBody (b : Int)) fuel
        { buf := buf.set 32 0, tail := 31, i := 1,
          uarg := if neg then -(n : Int) else (n : Int) }).bind fun s =>
      (memcpy str head s.buf (s.tail + 1) s.i).bind fun str2 =>
      some ({ ret := some 0, str := str2 } : LtoaResult)) =
    some { ret := some 0,
           str := str.take head ++
             (((Nat.digits b n).map (fun d : Nat =>
                ltoaDigit (if neg then -(d : Int) else (d : Int)))).reverse ++ [0]) ++
             str.drop (head + ((Nat.digits b n).length + 1)) } := by
  have hloop := ltoaLoop_spec b hb neg n (buf.set 32 0) 31 1 fuel hL
    (by rw [List.length_set]; omega) hf
  have h31 : ((31 : Nat) : Int) = 31 := rfl
  rw [h31] at hloop
  rw [hloop, Option.some_bind, drop_set_last buf hbuf]
  have hs : (31 : Int) - ((Nat.digits b n).length : Int) + 1 =
      ((32 - (Nat.digits b n).length : Nat) : Int) := by omega
  have hi : (1 : Int) + ((Nat.digits b n).length : Int) =
      (((Nat.digits b n).length + 1 : Nat) : Int) := by omega
  have hT : ((buf.set 32 0).take (31 + 1 - (Nat.digits b n).length)).length =
      32 - (Nat.digits b n).length := by
    rw [List.length_take, List.length_set]; omega
  have hC : (((Nat.digits b n).map (fun d : Nat =>
      ltoaDigit (if neg then -(d : Int) else (d : Int)))).reverse ++ [0]).length =
      (Nat.digits b n).length + 1 := by
    simp only [List.length_append, List.length_reverse, List.length_map, List.length_cons,
      List.length_nil]
  have hall : ((buf.set 32 0).take (31 + 1 - (Nat.digits b n).length) ++
      ((Nat.digits b n).map (fun d : Nat =>
        ltoaDigit (if neg then -(d : Int) else (d : Int)))).reverse ++ [0]).length = 33 := by
    rw [List.append_assoc, List.length_append, hT, hC]; omega
  have hcond : (0 : Int) ≤ ((32 - (Nat.digits b n).length : Nat) : Int) ∧
      (0 : Int) ≤ (((Nat.digits b n).length + 1 : Nat) : Int) ∧
      head + ((((Nat.digits b n).length + 1 : Nat) : Int)).toNat ≤ str.length ∧
      (((32 - (Nat.digits b n).length : Nat) : Int)).toNat +
          ((((Nat.digits b n).length + 1 : Nat) : Int)).toNat ≤
        ((buf.set 32 0).take (31 + 1 - (Nat.digits b n).length) ++
          ((Nat.digits b n).map (fun d : Nat =>
            ltoaDigit (if neg then -(d : Int) else (d : Int)))).reverse ++ [0]).length := by
    rw [hall]
    simp only [Int.toNat_ofNat]
    refine ⟨Int.natCast_nonneg _, Int.natCast_nonneg _, hstr, by omega⟩
  simp only [hs, hi]
  rw [memcpy, if_pos hcond]
  simp only [Int.toNat_ofNat, Option.some_bind]
  have hdrop : List.drop (32 - (Nat.digits b n).length)
      ((buf.set 32 0).take (31 + 1 - (Nat.digits b n).length) ++
        ((Nat.digits b n).map (fun d : Nat =>
          ltoaDigit (if neg then -(d : Int) else (d : Int)))).reverse ++ [0]) =
      ((Nat.digits b n).map (fun d : Nat =>
          ltoaDigit (if neg then -(d : Int) else (d : Int)))).reverse ++ [0] := by
    rw [List.append_assoc]
    exact List.drop_left' hT
  have htake : List.take ((Nat.digits b n).length + 1)
      (((Nat.digits b n).map (fun d : Nat =>
          ltoaDigit (if neg then -(d : Int) else (d : Int)))).reverse ++ [0]) =
      ((Nat.digits b n).map (fun d : Nat =>
          ltoaDigit (if neg then -(d : Int) else (d : Int)))).reverse ++ [0] :=
    List.take_of_length_le (by rw [hC])
  rw [hdrop, htake]
theorem ltoa_unfold (fuel : Nat) (N : Int) (str buf : List Nat) (b : Nat)
    (hb : 2 ≤ b) (hb36 : b ≤ 36) (hbuf : buf.length = BUFSIZE) :
    TFT_ST7735_ltoa fuel N str buf (b : Int) =
      ((if 10 = (b : Int) ∧ N < 0 then
          (wr str 0 45).bind fun str1 => some (str1, 0 + 1, wrapLong (-N))
        else some (str, 0, N)).bind fun p =>
      (if p.2.2 ≠ 0 then
          whileFuel (fun s => decide (s.uarg ≠ 0)) (ltoaBody (b : Int)) fuel
            { buf := buf.set 32 0, tail := 31, i := 1, uarg := p.2.2 }
        else
          (wrI (buf.set 32 0) 31 48).bind fun c =>
          some { buf := c, tail := 31 - 1, i := 2, uarg := p.2.2 }).bind fun s =>
      (memcpy p.1 p.2.1 s.buf (s.tail + 1) s.i).bind fun str2 =>
      some ({ ret := some 0, str := str2 } : LtoaResult)) := by
  have hbase : ¬ ((36 : Int) < (b : Int) ∨ (2 : Int) > (b : Int)) := by omega
  have hB : ((BUFSIZE : Nat) : Int) - 1 = 32 := by decide
  have hbuf' : buf.length = 33 := hbuf
  have hw : wrI buf 32 0 = some (buf.set 32 0) := by
    simp only [wrI, wr]
    rw [if_pos (by decide), if_pos (by
      show (32 : Int).toNat < buf.length
      rw [hbuf']; decide)]
    rfl
  have h31 : (32 : Int) - 1 = 31 := by decide
  simp only [TFT_ST7735_ltoa, if_neg hbase, hB, hw, Option.some_bind, h31]

theorem ltoa_pos (fuel n b : Nat) (str buf : List Nat) (hb : 2 ≤ b) (hb36 : b ≤ 36)
    (hbuf : buf.length = BUFSIZE) (hn0 : 0 < n) (hn : n < 2147483648) (hf : 32 ≤ fuel)
    (hstr : (digitsText b n).length + 1 ≤ str.length) :
    TFT_ST7735_ltoa fuel (n : Int) str buf (b : Int) =
      some { ret := some 0,
             str := digitsText b n ++ 0 :: str.drop ((digitsText b n).length + 1) } := by
  have hL := digits_length_long_pos b n hb hn
  have hlen : (digitsText b n).length = (Nat.digits b n).length := by
    simp only [digitsText, List.length_reverse, List.length_map]
  rw [hlen] at hstr
  have hc : ¬ (10 = (b : Int) ∧ (n : Int) < 0) := by omega
  have hne : (n : Int) ≠ 0 := by omega
  have hfin := ltoa_finish b n false hb fuel 0 str buf hbuf hL (by omega) (by omega)
  simp only [Bool.false_eq_true, if_false] at hfin
  have hchars := digits_map_ltoaDigit b n hb hb36
  simp only [Bool.false_eq_true, if_false] at hchars
  rw [ltoa_unfold fuel n str buf b hb hb36 hbuf, if_neg hc, Option.some_bind]
  simp only [if_pos hne]
  rw [hfin, hchars, hlen]
  simp only [List.take_zero, List.nil_append, Nat.zero_add, List.append_assoc,
    List.singleton_append]

theorem ltoa_zero (fuel b : Nat) (str buf : List Nat) (hb : 2 ≤ b) (hb36 : b ≤ 36)
    (hbuf : buf.length = BUFSIZE) (hstr : 2 ≤ str.length) :
    TFT_ST7735_ltoa fuel 0 str buf (b : Int) =
      some { ret := some 0, str := 48 :: 0 :: str.drop 2 } := by
  have hbuf' : buf.length = 33 := hbuf
  have hc : ¬ (10 = (b : Int) ∧ (0 : Int) < 0) := by omega
  have hw : wrI (buf.set 32 0) 31 48 = some ((buf.set 32 0).set 31 48) := by
    simp only [wrI, wr]
    rw [if_pos (by decide), if_pos (by
      show (31 : Int).toNat < (buf.set 32 0).length
      rw [List.length_set, hbuf']; decide)]
    rfl
  have hd : ((buf.set 32 0).set 31 48).drop 31 = [48, 0] := by
    rw [set_split (buf.set 32 0) 31 48 (by rw [List.length_set]; omega),
      List.drop_left' (by rw [List.length_take, List.length_set]; omega),
      drop_set_last buf hbuf']
  have hcond : (0 : Int) ≤ 31 - 1 + 1 ∧ (0 : Int) ≤ 2 ∧ 0 + (2 : Int).toNat ≤ str.length ∧
      ((31 : Int) - 1 + 1).toNat + (2 : Int).toNat ≤ ((buf.set 32 0).set 31 48).length := by
    refine ⟨by decide, by decide, ?_, ?_⟩
    · show 0 + 2 ≤ str.length
      omega
    · rw [List.length_set, List.length_set, hbuf']
      decide
  rw [ltoa_unfold fuel 0 str buf b hb hb36 hbuf, if_neg hc, Option.some_bind]
  simp only [ne_eq, not_true_eq_false, if_false, hw, Option.some_bind]
  rw [memcpy, if_pos hcond]
  have e1 : ((31 : Int) - 1 + 1).toNat = 31 := by decide
  have e2 : (2 : Int).toNat = 2 := by decide
  simp only [e1, e2, hd, Option.some_bind, List.take_zero, List.nil_append, Nat.zero_add]
  rfl
theorem ltoa_neg (fuel n : Nat) (neg : Bool) (str buf : List Nat)
    (hbuf : buf.length = BUFSIZE) (hn0 : 0 < n) (hn : n ≤ 2147483648)
    (hw : wrapLong (n : Int) = if neg then -(n : Int) else (n : Int)) (hf : 32 ≤ fuel)
    (hstr : (Nat.digits 10 n).length + 2 ≤ str.length) :
    TFT_ST7735_ltoa fuel (-(n : Int)) str buf ((10 : Nat) : Int) =
      some { ret := some 0,
             str := 45 :: (((Nat.digits 10 n).map (fun d : Nat =>
                ltoaDigit (if neg then -(d : Int) else (d : Int)))).reverse ++
                0 :: str.drop ((Nat.digits 10 n).length + 2)) } := by
  have hL := digits_length_ten n hn
  have hc : (10 : Int) = ((10 : Nat) : Int) ∧ -(n : Int) < 0 := ⟨rfl, by omega⟩
  have h0 : 0 < str.length := by omega
  have hne : (if neg then -(n : Int) else (n : Int)) ≠ 0 := by
    cases neg
    · simp only [Bool.false_eq_true, if_false]; omega
    · simp only [if_true]; omega
  have hfin := ltoa_finish 10 n neg (by decide) fuel (0 + 1) (str.set 0 45) buf hbuf
    (by omega) (by omega) (by rw [List.length_set]; omega)
  have hset : str.set 0 45 = 45 :: str.drop 1 := by
    rw [set_split str 0 45 h0]; rfl
  have htake : (str.set 0 45).take (0 + 1) = [45] := by
    rw [hset]; rfl
  have hdrop : (str.set 0 45).drop (0 + 1 + ((Nat.digits 10 n).length + 1)) =
      str.drop ((Nat.digits 10 n).length + 2) := by
    rw [hset]
    have e : 0 + 1 + ((Nat.digits 10 n).length + 1) = ((Nat.digits 10 n).length + 1) + 1 := by
      omega
    rw [e, List.drop_succ_cons, List.drop_drop]
    congr 1
  rw [ltoa_unfold fuel _ str buf 10 (by decide) (by decide) hbuf, if_pos hc,
    wr_eq str 0 45 h0, Option.some_bind, Option.some_bind]
  simp only [neg_neg, hw, if_pos hne]
  rw [hfin, htake, hdrop]
  simp only [List.singleton_append, List.cons_append, List.append_assoc, List.nil_append]

theorem digitVal_digitChar (d : Nat) : digitVal (digitChar d) = d := by
  simp only [digitVal, digitChar]
  by_cases h : 9 < d
  · rw [if_pos h, if_neg (by omega)]; omega
  · rw [if_neg h, if_pos (by omega)]; omega

theorem parseDigits_reverse_map (b : Nat) : ∀ ds : List Nat,
    parseDigits b ((ds.map digitChar).reverse) = Nat.ofDigits b ds := by
  intro ds
  induction ds with
  | nil => rfl
  | cons d ds ih =>
    simp only [parseDigits] at ih
    simp only [parseDigits, List.map_cons, List.reverse_cons, List.foldl_append,
      List.foldl_cons, List.foldl_nil, ih, digitVal_digitChar, Nat.ofDigits_cons]
    ring

theorem parseDigits_digitsText (b n : Nat) : parseDigits b (digitsText b n) = n := by
  rw [digitsText, parseDigits_reverse_map, Nat.ofDigits_digits]

theorem digitsText_head (b n : Nat) (hn : n ≠ 0) : (digitsText b n).head? ≠ some 48 := by
  have hne : Nat.digits b n ≠ [] := Nat.digits_ne_nil_iff_ne_zero.mpr hn
  have hlast := Nat.getLast_digit_ne_zero b hn
  rw [digitsText, List.head?_reverse, List.getLast?_map, List.getLast?_eq_getLast _ hne]
  simp only [Option.map_some', ne_eq, Option.some.injEq]
  intro h
  apply hlast
  simp only [digitChar] at h
  split at h <;> omega

theorem digitsText_chars (b n : Nat) (hb : 2 ≤ b) :
    ∀ c ∈ digitsText b n,
      (48 ≤ c ∧ c ≤ 57 ∧ c - 48 < b) ∨ (65 ≤ c ∧ 10 ≤ c - 55 ∧ c - 55 < b) := by
  intro c hc
  simp only [digitsText, List.mem_reverse, List.mem_map] at hc
  obtain ⟨d, hd, rfl⟩ := hc
  have hlt := Nat.digits_lt_base (by omega : 1 < b) hd
  simp only [digitChar]
  by_cases h : 9 < d
  · rw [if_pos h]; right; omega
  · rw [if_neg h]; left; omega

theorem digitsText_length (b n : Nat) : (digitsText b n).length = (Nat.digits b n).length := by
  simp only [digitsText, List.length_reverse, List.length_map]

theorem wrapLong_small (n : Nat) (hn : n < 2147483648) : wrapLong (n : Int) = (n : Int) := by
  simp only [wrapLong]; omega

theorem wrapLong_min : wrapLong ((2147483648 : Nat) : Int) = -((2147483648 : Nat) : Int) := by
  decide

theorem ltoaText_length_ten (N : Int) (h1 : -2147483648 < N) (h2 : N < 2147483648) :
    (ltoaText 10 N).length + 1 ≤ 12 := by
  simp only [ltoaText]
  split
  · simp
  · split
    · have := digits_length_ten (-N).toNat (by omega)
      simp only [List.length_cons, digitsText_length]
      omega
    · have := digits_length_ten N.toNat (by omega)
      simp only [digitsText_length]
      omega

theorem drawNumber_fits (fuel : Nat) (M : Int) (s12 buf : List Nat)
    (hbuf : buf.length = BUFSIZE) (hf : 32 ≤ fuel)
    (h1 : -2147483648 ≤ M) (h2 : M < 2147483648) (hs : s12.length = 12) :
    ∃ r, drawNumberText fuel M s12 buf = some r ∧ r.ret = some 0 ∧ r.str.length = 12 := by
  have h10 : ((10 : Nat) : Int) = 10 := rfl
  rcases lt_trichotomy M 0 with hneg | hz | hpos
  · obtain ⟨n, hn⟩ : ∃ n : Nat, M = -(n : Int) := ⟨(-M).toNat, by omega⟩
    subst hn
    have hn0 : 0 < n := by omega
    have hn2 : n ≤ 2147483648 := by omega
    have hL := digits_length_ten n hn2
    have hw : ∃ neg : Bool, wrapLong (n : Int) = if neg then -(n : Int) else (n : Int) := by
      by_cases hlt : n < 2147483648
      · exact ⟨false, by simp only [Bool.false_eq_true, if_false]; exact wrapLong_small n hlt⟩
      · have : n = 2147483648 := by omega
        subst this
        exact ⟨true, by simp only [if_true]; exact wrapLong_min⟩
    obtain ⟨neg, hw⟩ := hw
    have e := ltoa_neg fuel n neg s12 buf hbuf hn0 hn2 hw hf (by omega)
    rw [h10] at e
    refine ⟨_, e, rfl, ?_⟩
    simp only [List.length_cons, List.length_append, List.length_reverse, List.length_map,
      List.length_drop, hs]
    omega
  · subst hz
    have e := ltoa_zero fuel 10 s12 buf (by decide) (by decide) hbuf (by omega)
    rw [h10] at e
    refine ⟨_, e, rfl, ?_⟩
    simp only [List.length_cons, List.length_drop, hs]
  · obtain ⟨n, hn⟩ : ∃ n : Nat, M = (n : Int) := ⟨M.toNat, by omega⟩
    subst hn
    have hL := digits_length_ten n (by omega)
    have e := ltoa_pos fuel n 10 s12 buf (by decide) (by decide) hbuf (by omega) (by omega) hf
      (by rw [digitsText_length]; omega)
    rw [h10] at e
    refine ⟨_, e, rfl, ?_⟩
    simp only [List.length_cons, List.length_append, List.length_drop, hs, digitsText_length]
    omega
/-- C29: on a target with a 32-bit `long`, for every `N` with `|N| < 2^31`, every base
in `2..36` (with `N >= 0`, or base 10) and a caller buffer with room for the text and
its terminator, `TFT_ST7735_ltoa` returns `str` and leaves in it the text of `N`
followed by NUL, the bytes after that untouched. The text is `"0"` for 0, the digits of
`N` for positive `N`, and `'-'` followed by the digits of `-N` for negative `N` in base
10; the digits are characters `0-9` then `A-Z` with values below the base, have no
leading zero, and read back in that base give `|N|`. In base 10 text and terminator
take at most 12 bytes, and for every `long` value the call made by
`TFT_ST7735_drawNumber` with its 12-byte buffer stays inside that buffer. -/
theorem C29_ltoa_writes_number (fuel : Nat) (N : Int) (base : Nat) (str buf : List Nat)
    (hbase : 2 ≤ base ∧ base ≤ 36) (hN : -2147483648 < N ∧ N < 2147483648)
    (hsign : 0 ≤ N ∨ base = 10) (hbuf : buf.length = BUFSIZE)
    (hstr : (ltoaText base N).length + 1 ≤ str.length) (hfuel : 32 ≤ fuel) :
    TFT_ST7735_ltoa fuel N str buf (base : Int) =
      some { ret := some 0,
             str := ltoaText base N ++ 0 :: str.drop ((ltoaText base N).length + 1) } ∧
    (N = 0 → ltoaText base N = [48]) ∧
    (0 < N → ltoaText base N = digitsText base N.toNat) ∧
    (N < 0 → ltoaText base N = 45 :: digitsText base (-N).toNat) ∧
    parseDigits base (digitsText base N.natAbs) = N.natAbs ∧
    (N ≠ 0 → (digitsText base N.natAbs).head? ≠ some 48) ∧
    (∀ c ∈ digitsText base N.natAbs,
      (48 ≤ c ∧ c ≤ 57 ∧ digitVal c < base) ∨ (65 ≤ c ∧ c ≤ 90 ∧ digitVal c < base)) ∧
    (base = 10 → (ltoaText base N).length + 1 ≤ 12) ∧
    (∀ (M : Int) (s12 : List Nat), -2147483648 ≤ M → M < 2147483648 → s12.length = 12 →
      ∃ r, drawNumberText fuel M s12 buf = some r ∧ r.ret = some 0 ∧ r.str.length = 12) := by
  obtain ⟨hb, hb36⟩ := hbase
  obtain ⟨hN1, hN2⟩ := hN
  have t0 : N = 0 → ltoaText base N = [48] := by
    intro h; simp only [ltoaText, h, if_true]
  have tpos : 0 < N → ltoaText base N = digitsText base N.toNat := by
    intro h
    simp only [ltoaText]
    rw [if_neg (by omega), if_neg (by omega)]
  have tneg : N < 0 → ltoaText base N = 45 :: digitsText base (-N).toNat := by
    intro h
    simp only [ltoaText]
    rw [if_neg (by omega), if_pos h]
  refine ⟨?_, t0, tpos, tneg, parseDigits_digitsText base N.natAbs,
    fun hne => digitsText_head base N.natAbs (by omega), fun c hc => ?_, fun h10 => ?_,
    fun M s12 h1 h2 hs => drawNumber_fits fuel M s12 buf hbuf hfuel h1 h2 hs⟩
  · rcases lt_trichotomy N 0 with hneg | hz | hpos
    · have hten : base = 10 := by
        rcases hsign with h | h
        · omega
        · exact h
      subst hten
      obtain ⟨n, hn⟩ : ∃ n : Nat, N = -(n : Int) := ⟨(-N).toNat, by omega⟩
      subst hn
      have hnn : (- -(n : Int)).toNat = n := by omega
      have htext := tneg hneg
      rw [hnn] at htext
      rw [htext] at hstr ⊢
      simp only [List.length_cons, digitsText_length] at hstr
      have e := ltoa_neg fuel n false str buf hbuf (by omega) (by omega)
        (by simp only [Bool.false_eq_true, if_false]; exact wrapLong_small n (by omega))
        hfuel (by omega)
      rw [e, digits_map_ltoaDigit 10 n (by decide) (by decide)]
      simp only [List.length_cons, digitsText_length, List.cons_append]
    · subst hz
      rw [t0 rfl] at hstr ⊢
      have e := ltoa_zero fuel base str buf hb hb36 hbuf (by simpa using hstr)
      have hz : ((0 : Nat) : Int) = 0 := rfl
      rw [e]
      rfl
    · obtain ⟨n, hn⟩ : ∃ n : Nat, N = (n : Int) := ⟨N.toNat, by omega⟩
      subst hn
      have htext := tpos hpos
      rw [Int.toNat_ofNat] at htext
      rw [htext] at hstr ⊢
      exact ltoa_pos fuel n base str buf hb hb36 hbuf (by omega) (by omega) hfuel hstr
  · rcases digitsText_chars base N.natAbs hb c hc with h | h
    · left
      refine ⟨h.1, h.2.1, ?_⟩
      simp only [digitVal, if_pos h.2.1]
      exact h.2.2
    · right
      refine ⟨h.1, by omega, ?_⟩
      simp only [digitVal]
      rw [if_neg (by omega)]
      exact h.2.2
  · subst h10
    exact ltoaText_length_ten N hN1 hN2

theorem C29_ltoa_writes_number_witness :
    TFT_ST7735_ltoa 32 (-45) (List.replicate 12 9) (List.replicate 33 7) ((10 : Nat) : Int) =
      some { ret := some 0,
             str := ltoaText 10 (-45) ++
               0 :: (List.replicate 12 9).drop ((ltoaText 10 (-45)).length + 1) } ∧
    ((-45 : Int) = 0 → ltoaText 10 (-45) = [48]) ∧
    (0 < (-45 : Int) → ltoaText 10 (-45) = digitsText 10 (-45 : Int).toNat) ∧
    ((-45 : Int) < 0 → ltoaText 10 (-45) = 45 :: digitsText 10 (-(-45 : Int)).toNat) ∧
    parseDigits 10 (digitsText 10 (-45 : Int).natAbs) = (-45 : Int).natAbs ∧
    ((-45 : Int) ≠ 0 → (digitsText 10 (-45 : Int).natAbs).head? ≠ some 48) ∧
    (∀ c ∈ digitsText 10 (-45 : Int).natAbs,
      (48 ≤ c ∧ c ≤ 57 ∧ digitVal c < 10) ∨ (65 ≤ c ∧ c ≤ 90 ∧ digitVal c < 10)) ∧
    ((10 : Nat) = 10 → (ltoaText 10 (-45)).length + 1 ≤ 12) ∧
    (∀ (M : Int) (s12 : List Nat), -2147483648 ≤ M → M < 2147483648 → s12.length = 12 →
      ∃ r, drawNumberText 32 M s12 (List.replicate 33 7) = some r ∧ r.ret = some 0 ∧
        r.str.length = 12) :=
  C29_ltoa_writes_number 32 (-45) 10 (List.replicate 12 9) (List.replicate 33 7)
    ⟨by decide, by decide⟩ ⟨by decide, by decide⟩ (Or.inr rfl) (List.length_replicate 33 7)
    (by rw [List.length_replicate]; exact ltoaText_length_ten (-45) (by decide) (by decide))
    (by decide)

/-! ## The band loop under `float` rounding -/

theorem FFT_InitializeF_exact {K : Type} [Field K] (cos : K → K) (st : FFTState K) :
    FFT_InitializeF (fun x => x) cos st = FFT_Initialize cos st := rfl

end FFTApp
